import Mathlib

/-!
# twitter-haiku-bot: the haiku state machine

A shallow embedding of `services/haiku_service.go`,
`infrastructure/database/repositories/haiku_repo.go`,
`infrastructure/database/repositories/unitofwork.go` and the entities they use.

The relational store is a pair of row lists (rows kept in insertion order).
Everything the Go code cannot decide for itself is supplied by an `Env`:
the clock, the fresh uuid, the outcome of every persistence operation and
the behaviour of the two external capabilities.  Each service call threads a
`Sess` (store, number of persistence operations issued, event trace).

Layout: entities; store, environment and session; the repository; the unit
of work; the service; vocabulary for sequences of operations, the state path
and concurrent invocations; sample data; lemmas; the claims `C1`, `C2`, ….

In the claims, "the oldest haiku in state `st` is `H`" is written
`oldestRow (db.haikus.filter (fun r => r.State = st)) = some H`, the answer of
the selection query; by `oldestRow_filter` and `oldestRow_le` such an `H` is a
row of the store in state `st` whose `CreatedAt` is least among those rows.
-/

namespace HaikuBot

/-! ## Entities -/

/-- Instants of `time.Time`, as a count of clock ticks; `0` is the zero time. -/
abbrev Time := Nat

/-- Go `error` values.  `foreign` stands for an error made outside this
repository (database driver, HTTP client, external service); `Errorf` is
`fmt.Errorf` without `%w` and `Errorf_w` is `fmt.Errorf` wrapping a cause. -/
inductive Error where
  | ErrRecordNotFound : Error
  | foreign (msg : String) : Error
  | Errorf (msg : String) : Error
  | Errorf_w (msg : String) (cause : Error) : Error
  deriving DecidableEq, Repr, Inhabited

/-- The text an error value prints as (its `Error()` method). -/
def Error.text : Error → String
  | .ErrRecordNotFound => "record not found"
  | .foreign msg => msg
  | .Errorf msg => msg
  | .Errorf_w msg cause => msg ++ cause.text

/-- The constants of `entities/haiku_state.go`. -/
inductive HaikuState where
  | Created
  | SummaryGetting
  | SummaryGot
  | HaikuTextGetting
  | HaikuTextGot
  | Comenting
  | Done
  | Failed
  deriving DecidableEq, Repr, Inhabited

/-- The string stored for a state (`HaikuState.Value`). -/
def HaikuState.Value : HaikuState → String
  | .Created => "created"
  | .SummaryGetting => "summary_getting"
  | .SummaryGot => "summary_got"
  | .HaikuTextGetting => "haiku_text_getting"
  | .HaikuTextGot => "haiku_text_got"
  | .Comenting => "comenting"
  | .Done => "done"
  | .Failed => "failed"

structure Author where
  ID : String
  Username : String
  deriving DecidableEq, Repr, Inhabited

/-- The struct `entities.Post`; `Platform` is the string type of `platform.go`. -/
structure Post where
  ID : String
  Author : Author
  Text : String
  Likes : Int
  Shares : Int
  Replies : Int
  Platform : String
  CreatedAt : Time
  deriving DecidableEq, Repr, Inhabited

/-- The struct `entities.Haiku`.  `Summary` and `Text` are `null.String`:
`none` is the invalid (NULL) value and `null.StringFrom s` is `some s`.
`UpdatedAt` is refreshed by the persistence layer on every write and read
nowhere in the program; it is not modelled. -/
structure Haiku where
  ID : String
  State : HaikuState
  Summary : Option String
  Text : Option String
  PostID : String
  Post : Post
  CreatedAt : Time
  deriving DecidableEq, Repr, Inhabited

/-- The `.String` field of a `null.String`: empty when the value is NULL. -/
def NullString (v : Option String) : String := v.getD ""

/-- A row of table `haikus`: the columns of `Haiku` (the `Post` association is
not a column).  Column `updated_at` is refreshed by the persistence layer on
every write and read by no query, so it is left out. -/
structure HaikuRow where
  ID : String
  State : HaikuState
  Summary : Option String
  Text : Option String
  PostID : String
  CreatedAt : Time
  deriving DecidableEq, Repr, Inhabited

/-- The columns written for a haiku value. -/
def Haiku.toRow (h : Haiku) : HaikuRow :=
  { ID := h.ID, State := h.State, Summary := h.Summary, Text := h.Text,
    PostID := h.PostID, CreatedAt := h.CreatedAt }

/-- A row scanned into a struct without preloading: `Post` is the zero value. -/
def HaikuRow.toHaiku (r : HaikuRow) : Haiku :=
  { ID := r.ID, State := r.State, Summary := r.Summary, Text := r.Text,
    PostID := r.PostID, Post := default, CreatedAt := r.CreatedAt }

/-! ## Store, environment, session -/

/-- The two tables, rows in insertion order. -/
structure Store where
  posts : List Post
  haikus : List HaikuRow
  deriving DecidableEq, Repr, Inhabited

/-- What an invocation does that is visible from outside.  `txBegin`,
`txCommit` and `txRollback` are the brackets of `UnitOfWork.Transaction`; a
single statement issued outside of it is one persistence operation and leaves
no event, whatever transaction the persistence layer wraps around it. -/
inductive Event where
  | txBegin : Event
  | txCommit (db : Store) : Event
  | txRollback : Event
  | GenerateSummary (text : String) : Event
  | GenerateHaiku (summary : String) : Event
  | CommentOn (postID message : String) : Event
  deriving DecidableEq, Repr

/-- The surroundings of one invocation.  `dbFault k` is the failure, if any,
of the `k`-th persistence operation the invocation issues (queries, writes and
commits, counted from 0). -/
structure Env where
  now : Time
  uuid : String
  dbFault : Nat → Option Error
  GenerateSummary : String → Except Error String
  GenerateHaiku : String → Except Error String
  CommentOn : String → String → Option Error

/-- The running state of an invocation. -/
structure Sess where
  db : Store
  ops : Nat
  trace : List Event
  deriving DecidableEq, Repr

/-- The outcome of a service call. -/
structure Result where
  db : Store
  trace : List Event
  err : Option Error
  deriving DecidableEq, Repr

def Sess.start (db : Store) : Sess := { db := db, ops := 0, trace := [] }

def Sess.result (s : Sess) (err : Option Error) : Result :=
  { db := s.db, trace := s.trace, err := err }

def Sess.tick (s : Sess) : Sess := { s with ops := s.ops + 1 }

def Sess.emit (s : Sess) (e : Event) : Sess := { s with trace := s.trace ++ [e] }

/-! ## `haiku_repo.go` -/

/-- The record that `ORDER BY created_at ASC` followed by `First` (which orders
by primary key after the given order) and `LIMIT 1` yields. -/
def oldest {α : Type} (createdAt : α → Time) (key : α → String) : List α → Option α
  | [] => none
  | r :: rs =>
    match oldest createdAt key rs with
    | none => some r
    | some m =>
      if createdAt r < createdAt m ∨ (createdAt r = createdAt m ∧ key r ≤ key m) then some r
      else some m

/-- The selection on table `haikus`. -/
def oldestRow (l : List HaikuRow) : Option HaikuRow := oldest HaikuRow.CreatedAt HaikuRow.ID l

/-- The selection on table `posts`. -/
def oldestPost (l : List Post) : Option Post := oldest Post.CreatedAt Post.ID l

/-- `Preload("Post")`: the post the row points at, the zero value if absent. -/
def preloadPost (db : Store) (r : HaikuRow) : Haiku :=
  { r.toHaiku with Post := (db.posts.find? (fun p => p.ID = r.PostID)).getD default }

/-- The write of the `Post` association that the persistence layer makes
before it writes a haiku.  A zero `Post` is skipped.  Any other is inserted
unless a post with its primary key is stored (`ON CONFLICT DO NOTHING`), a
zero `CreatedAt` being filled in with the clock, and the foreign key `PostID`
of the haiku is then taken from it. -/
def saveBelongsTo (env : Env) (db : Store) (haiku : Haiku) : Store × Haiku :=
  if haiku.Post = default then (db, haiku)
  else
    let post := { haiku.Post with
      CreatedAt := if haiku.Post.CreatedAt = 0 then env.now else haiku.Post.CreatedAt }
    let posts := if db.posts.any (fun p => p.ID = haiku.Post.ID) then db.posts
      else db.posts ++ [post]
    ({ db with posts := posts }, { haiku with PostID := haiku.Post.ID })

/-- `haikuRepositoryImpl.Create`: after the write of the association, insert
a row.  The primary key must be new; a zero `CreatedAt` is filled in with the
clock.  The whole call is one persistence operation, and a failed one leaves
the store as it was. -/
def Create (env : Env) (s : Sess) (haiku : Haiku) : Sess × Option Error :=
  match env.dbFault s.ops with
  | some err => (s.tick, some err)
  | none =>
    let w := saveBelongsTo env s.db haiku
    if w.1.haikus.any (fun r => r.ID = w.2.ID) then
      (s.tick, some (.foreign "duplicate key value violates unique constraint"))
    else
      let row := w.2.toRow
      let row := { row with CreatedAt := if row.CreatedAt = 0 then env.now else row.CreatedAt }
      ({ s.tick with db := { w.1 with haikus := w.1.haikus ++ [row] } }, none)

/-- `haikuRepositoryImpl.FindByIDForUpdate`. -/
def FindByIDForUpdate (env : Env) (s : Sess) (id : String) : Sess × Except Error Haiku :=
  match env.dbFault s.ops with
  | some err => (s.tick, .error err)
  | none =>
    match s.db.haikus.find? (fun r => r.ID = id) with
    | none => (s.tick, .error .ErrRecordNotFound)
    | some r => (s.tick, .ok r.toHaiku)

/-- `haikuRepositoryImpl.Save`: after the write of the association, write all
columns of the row with the primary key of the haiku, inserting the row when
there is none.  The whole call is one persistence operation. -/
def Save (env : Env) (s : Sess) (haiku : Haiku) : Sess × Option Error :=
  match env.dbFault s.ops with
  | some err => (s.tick, some err)
  | none =>
    let w := saveBelongsTo env s.db haiku
    if w.1.haikus.any (fun r => r.ID = w.2.ID) then
      ({ s.tick with db := { w.1 with
          haikus := w.1.haikus.map (fun r => if r.ID = w.2.ID then w.2.toRow else r) } }, none)
    else
      ({ s.tick with db := { w.1 with haikus := w.1.haikus ++ [w.2.toRow] } }, none)

/-- `haikuRepositoryImpl.FindOldestUnprocessedPost`, returning the Go pair
`(*Post, error)`. -/
def FindOldestUnprocessedPost (env : Env) (s : Sess) : Sess × Option Post × Option Error :=
  match env.dbFault s.ops with
  | some err => (s.tick, none, some err)
  | none =>
    match oldestPost (s.db.posts.filter
        (fun p => !(s.db.haikus.any (fun r => r.PostID = p.ID)))) with
    | none => (s.tick, none, some (.Errorf "no unprocessed post found"))
    | some post => (s.tick, some post, none)

/-- `haikuRepositoryImpl.FindOldestByState`, returning the Go pair
`(*Haiku, error)`. -/
def FindOldestByState (env : Env) (s : Sess) (state : HaikuState) :
    Sess × Option Haiku × Option Error :=
  match env.dbFault s.ops with
  | some err => (s.tick, none, some (.Errorf_w "failed to fetch haiku by state: " err))
  | none =>
    match oldestRow (s.db.haikus.filter (fun r => r.State = state)) with
    | none => (s.tick, none, some (.Errorf ("no haiku found with state " ++ state.Value)))
    | some r => (s.tick, some (preloadPost s.db r), none)

/-! ## `unitofwork.go` -/

/-- `unitOfWorkImpl.Transaction`: run `fn`; an error from `fn` or from the
commit rolls the store back to what it was at the start. -/
def Transaction (env : Env) (s : Sess) (fn : Sess → Sess × Option Error) :
    Sess × Option Error :=
  match fn (s.emit .txBegin) with
  | (s1, some err) => ({ (s1.emit .txRollback) with db := s.db }, some err)
  | (s1, none) =>
    match env.dbFault s1.ops with
    | some err => ({ (s1.tick.emit .txRollback) with db := s.db }, some err)
    | none => (s1.tick.emit (.txCommit s1.db), none)

/-! ## `haiku_service.go` -/

/-- `HaikuService.SafeUpdate`. -/
def SafeUpdate (env : Env) (s : Sess) (haiku : Haiku) (requiredState : HaikuState) :
    Sess × Option Error :=
  Transaction env s (fun tx =>
    match FindByIDForUpdate env tx haiku.ID with
    | (tx, .error err) => (tx, some (.Errorf_w "failed to fetch row for update: " err))
    | (tx, .ok h) =>
      if requiredState ≠ h.State then
        (tx, some (.Errorf ("unexpected state: required " ++ requiredState.Value ++
          ", got " ++ h.State.Value)))
      else
        match Save env tx haiku with
        | (tx, some err) => (tx, some (.Errorf_w "failed to save row: " err))
        | (tx, none) => (tx, none))

/-- `HaikuService.MarkAsFailed`. -/
def MarkAsFailed (env : Env) (s : Sess) (haikuID : String) : Sess × Option Error :=
  Transaction env s (fun tx =>
    match FindByIDForUpdate env tx haikuID with
    | (tx, .error err) => (tx, some (.Errorf_w "failed to fetch row for update: " err))
    | (tx, .ok h) =>
      match Save env tx { h with State := .Failed } with
      | (tx, some err) => (tx, some (.Errorf_w "failed to save row: " err))
      | (tx, none) => (tx, none))

/-- `HaikuService.markFailedAndReturn`. -/
def markFailedAndReturn (env : Env) (s : Sess) (haikuID : String) (originalErr : Error) :
    Sess × Option Error :=
  match MarkAsFailed env s haikuID with
  | (s, some markErr) =>
    (s, some (.Errorf_w ("original error: " ++ originalErr.text ++
      "; also failed to mark as failed: ") markErr))
  | (s, none) => (s, some originalErr)

/-- `HaikuService.CreateHaikuFromUnprocessedPost`. -/
def CreateHaikuFromUnprocessedPost (env : Env) (db : Store) : Result :=
  match FindOldestUnprocessedPost env (Sess.start db) with
  | (s, none, _) => s.result none
  | (s, some _, some err) => s.result (some err)
  | (s, some post, none) =>
    let haiku : Haiku :=
      { ID := env.uuid, State := .Created, Summary := none, Text := none,
        PostID := post.ID, Post := post, CreatedAt := 0 }
    match Create env s haiku with
    | (s, e) => s.result e

/-- `HaikuService.ProcessSummary`. -/
def ProcessSummary (env : Env) (db : Store) : Result :=
  match FindOldestByState env (Sess.start db) .Created with
  | (s, none, _) => s.result none
  | (s, some _, some err) => s.result (some err)
  | (s, some haiku, none) =>
    let haiku := { haiku with State := .SummaryGetting }
    match SafeUpdate env s haiku .Created with
    | (s, some err) => s.result (some err)
    | (s, none) =>
      match env.GenerateSummary haiku.Post.Text with
      | .error err =>
        match markFailedAndReturn env (s.emit (.GenerateSummary haiku.Post.Text)) haiku.ID err with
        | (s, e) => s.result e
      | .ok summary =>
        let haiku := { haiku with Summary := some summary, State := .SummaryGot }
        match SafeUpdate env (s.emit (.GenerateSummary haiku.Post.Text)) haiku .SummaryGetting with
        | (s, e) => s.result e

/-- `HaikuService.ProcessHaikuText`. -/
def ProcessHaikuText (env : Env) (db : Store) : Result :=
  match FindOldestByState env (Sess.start db) .SummaryGot with
  | (s, none, _) => s.result none
  | (s, some haiku, _) =>
    let haiku := { haiku with State := .HaikuTextGetting }
    match SafeUpdate env s haiku .SummaryGot with
    | (s, some err) => s.result (some err)
    | (s, none) =>
      match env.GenerateHaiku (NullString haiku.Summary) with
      | .error err =>
        match markFailedAndReturn env (s.emit (.GenerateHaiku (NullString haiku.Summary)))
            haiku.ID err with
        | (s, e) => s.result e
      | .ok haikuText =>
        let haiku := { haiku with Text := some haikuText, State := .HaikuTextGot }
        match SafeUpdate env (s.emit (.GenerateHaiku (NullString haiku.Summary))) haiku
            .HaikuTextGetting with
        | (s, e) => s.result e

/-- `HaikuService.PostHaiku`. -/
def PostHaiku (env : Env) (db : Store) : Result :=
  match FindOldestByState env (Sess.start db) .HaikuTextGot with
  | (s, none, _) => s.result none
  | (s, some _, some err) => s.result (some err)
  | (s, some haiku, none) =>
    let haiku := { haiku with State := .Comenting }
    match SafeUpdate env s haiku .HaikuTextGot with
    | (s, some err) => s.result (some err)
    | (s, none) =>
      match env.CommentOn haiku.PostID (NullString haiku.Text) with
      | some err =>
        match markFailedAndReturn env (s.emit (.CommentOn haiku.PostID (NullString haiku.Text)))
            haiku.ID err with
        | (s, e) => s.result e
      | none =>
        let haiku := { haiku with State := .Done }
        match SafeUpdate env (s.emit (.CommentOn haiku.PostID (NullString haiku.Text))) haiku
            .Comenting with
        | (s, e) => s.result e

/-- The calls to the external capabilities recorded in a trace. -/
def externalCalls (t : List Event) : List Event :=
  t.filter (fun e =>
    match e with
    | .GenerateSummary _ => true
    | .GenerateHaiku _ => true
    | .CommentOn _ _ => true
    | _ => false)

/-! ## Store vocabulary -/

/-- Primary key of table `haikus`: no two rows share an `ID`. -/
def Store.KeysUnique (db : Store) : Prop := (db.haikus.map (fun r => r.ID)).Nodup

instance (db : Store) : Decidable db.KeysUnique := by
  show Decidable (List.Nodup _); infer_instance

/-- The store with every row of primary key `id` replaced by `row`. -/
def Store.setRow (db : Store) (id : String) (row : HaikuRow) : Store :=
  { db with haikus := db.haikus.map (fun r => if r.ID = id then row else r) }

/-- A haiku value whose `Post` association is the zero value, or agrees with
the foreign key `PostID` and has its primary key among the stored posts:
saving it writes no post and keeps the foreign key. -/
def Haiku.Linked (posts : List HaikuBot.Post) (h : Haiku) : Prop :=
  h.Post = default ∨ (h.Post.ID = h.PostID ∧ posts.any (fun p => p.ID = h.Post.ID) = true)

/-- The store after a successful `Save` of `h` over an existing row. -/
def Store.put (db : Store) (h : Haiku) : Store := db.setRow h.ID h.toRow

/-! ## The advance steps, uniformly -/

/-- The three advance steps of the scheduler. -/
inductive Step where
  | Summary
  | HaikuText
  | Posting
  deriving DecidableEq, Repr

/-- The state a step selects on. -/
def Step.src : Step → HaikuState
  | .Summary => .Created
  | .HaikuText => .SummaryGot
  | .Posting => .HaikuTextGot

/-- The transitional state a step checks its haiku out into. -/
def Step.mid : Step → HaikuState
  | .Summary => .SummaryGetting
  | .HaikuText => .HaikuTextGetting
  | .Posting => .Comenting

/-- The state a step commits after a successful external call. -/
def Step.dst : Step → HaikuState
  | .Summary => .SummaryGot
  | .HaikuText => .HaikuTextGot
  | .Posting => .Done

/-- The service function of a step. -/
def Step.run (k : Step) (env : Env) (db : Store) : Result :=
  match k with
  | .Summary => ProcessSummary env db
  | .HaikuText => ProcessHaikuText env db
  | .Posting => PostHaiku env db

/-- The external call a step makes for a checked-out haiku. -/
def Step.call : Step → Haiku → Event
  | .Summary, h => .GenerateSummary h.Post.Text
  | .HaikuText, h => .GenerateHaiku (NullString h.Summary)
  | .Posting, h => .CommentOn h.PostID (NullString h.Text)

/-- The outcome of the external call of a step: the error, or the haiku value
the step saves next. -/
def Step.external (k : Step) (env : Env) (h : Haiku) : Except Error Haiku :=
  match k with
  | .Summary =>
    match env.GenerateSummary h.Post.Text with
    | .error err => .error err
    | .ok summary => .ok { h with Summary := some summary, State := .SummaryGot }
  | .HaikuText =>
    match env.GenerateHaiku (NullString h.Summary) with
    | .error err => .error err
    | .ok haikuText => .ok { h with Text := some haikuText, State := .HaikuTextGot }
  | .Posting =>
    match env.CommentOn h.PostID (NullString h.Text) with
    | some err => .error err
    | none => .ok { h with State := .Done }

/-- What a step does once it holds a haiku: check out, call, then commit the
result or mark the haiku failed. -/
def Step.process (k : Step) (env : Env) (s : Sess) (haiku : Haiku) : Result :=
  match SafeUpdate env s { haiku with State := k.mid } k.src with
  | (s, some err) => s.result (some err)
  | (s, none) =>
    match k.external env { haiku with State := k.mid } with
    | .error err =>
      match markFailedAndReturn env (s.emit (k.call { haiku with State := k.mid })) haiku.ID err with
      | (s, e) => s.result e
    | .ok next =>
      match SafeUpdate env (s.emit (k.call { haiku with State := k.mid })) next k.mid with
      | (s, e) => s.result e

/-- A step as selection followed by `Step.process`. -/
def Step.advance (k : Step) (env : Env) (db : Store) : Result :=
  match FindOldestByState env (Sess.start db) k.src with
  | (s, none, _) => s.result none
  | (s, some haiku, _) => k.process env s haiku

/-- The stores committed by the transactions of a trace, in order. -/
def commits (t : List Event) : List Store :=
  t.filterMap (fun e =>
    match e with
    | .txCommit db => some db
    | _ => none)

/-! ## Sequences of operations and the state path -/

/-- The operations of the state machine. -/
inductive Op where
  | CreateHaikuFromUnprocessedPost
  | ProcessSummary
  | ProcessHaikuText
  | PostHaiku
  | MarkAsFailed (id : String)
  deriving DecidableEq, Repr

/-- One call of an operation, in its own environment. -/
def Op.run (env : Env) (db : Store) : Op → Result
  | .CreateHaikuFromUnprocessedPost => HaikuBot.CreateHaikuFromUnprocessedPost env db
  | .ProcessSummary => HaikuBot.ProcessSummary env db
  | .ProcessHaikuText => HaikuBot.ProcessHaikuText env db
  | .PostHaiku => HaikuBot.PostHaiku env db
  | .MarkAsFailed id =>
    match HaikuBot.MarkAsFailed env (Sess.start db) id with
    | (s, e) => s.result e

/-- The stores observed while the calls run one after another: for every call
the stores its transactions commit, then the store it leaves. -/
def history : List (Op × Env) → Store → List Store
  | [], _ => []
  | (op, env) :: rest, db =>
    commits (op.run env db).trace ++ (op.run env db).db :: history rest (op.run env db).db

/-- The store left by the calls run one after another. -/
def runOps : List (Op × Env) → Store → Store
  | [], db => db
  | (op, env) :: rest, db => runOps rest (op.run env db).db

/-- The forward path `created → … → done`. -/
def HaikuState.next : HaikuState → Option HaikuState
  | .Created => some .SummaryGetting
  | .SummaryGetting => some .SummaryGot
  | .SummaryGot => some .HaikuTextGetting
  | .HaikuTextGetting => some .HaikuTextGot
  | .HaikuTextGot => some .Comenting
  | .Comenting => some .Done
  | .Done => none
  | .Failed => none

/-- A state change along the path: none, one step forward, or to `failed`
from a state that is neither `done` nor `failed`. -/
def StrictMove (s s' : HaikuState) : Prop :=
  s' = s ∨ s.next = some s' ∨ (s' = .Failed ∧ s ≠ .Done ∧ s ≠ .Failed)

/-- As `StrictMove`, with `failed` reachable from `done` too. -/
def LooseMove (s s' : HaikuState) : Prop :=
  s' = s ∨ s.next = some s' ∨ s' = .Failed

instance (s s' : HaikuState) : Decidable (StrictMove s s') := by
  show Decidable (_ ∨ _ ∨ _); infer_instance

instance (s s' : HaikuState) : Decidable (LooseMove s s') := by
  show Decidable (_ ∨ _ ∨ _); infer_instance

/-- Store `b` follows store `a`: every haiku of `a` is still there, its state
changed by a move in `A`; a haiku new in `b` is in state `created`. -/
def Evolves (A : HaikuState → HaikuState → Prop) (a b : Store) : Prop :=
  (∀ ra ∈ a.haikus, ∀ rb ∈ b.haikus, rb.ID = ra.ID → A ra.State rb.State) ∧
  (∀ ra ∈ a.haikus, ∃ rb ∈ b.haikus, rb.ID = ra.ID) ∧
  (∀ rb ∈ b.haikus, (∀ ra ∈ a.haikus, ra.ID ≠ rb.ID) → rb.State = .Created)

instance (A : HaikuState → HaikuState → Prop) [∀ s s', Decidable (A s s')] (a b : Store) :
    Decidable (Evolves A a b) := by
  show Decidable (_ ∧ _ ∧ _); infer_instance

/-- Each post has at most one haiku. -/
def AtMostOnePerPost (db : Store) : Prop :=
  ∀ p ∈ db.posts, (db.haikus.map (fun r => r.PostID)).count p.ID ≤ 1

/-- The writes the service performs on the store: none, the update of one row
keeping key and post, or the insert of a `created` row with a fresh key for a
post that has no haiku. -/
inductive Write (A : HaikuState → HaikuState → Prop) (db : Store) : Store → Prop where
  | same : Write A db db
  | update (r row : HaikuRow) : r ∈ db.haikus → row.ID = r.ID → row.PostID = r.PostID →
      A r.State row.State → Write A db (db.setRow r.ID row)
  | insert (row : HaikuRow) : (∀ r ∈ db.haikus, r.ID ≠ row.ID) →
      (∀ r ∈ db.haikus, r.PostID ≠ row.PostID) → row.State = .Created →
      Write A db { db with haikus := db.haikus ++ [row] }

/-- Session `s'` continues session `s`: the trace grew, the stores committed
meanwhile are successive writes, and the store is the last one committed. -/
def Extends (A : HaikuState → HaikuState → Prop) (s s' : Sess) : Prop :=
  ∃ tr, s'.trace = s.trace ++ tr ∧ List.Chain (Write A) s.db (commits tr) ∧
    s'.db = (commits tr).getLastD s.db

/-! ## Concurrent invocations of one step

Several invocations of the same step hold the same selected haiku `g`.  Each
is a thread whose actions are the check-out transaction, the external call
and the closing transaction (`SafeUpdate` or `MarkAsFailed`); a schedule picks
which thread performs its next action, every transaction being one action. -/

/-- Where an invocation stands. -/
inductive Pc where
  | checkout
  | calling
  | finishing
  | finished (err : Option Error)
  deriving DecidableEq, Repr

/-- The private part of an invocation: position, persistence operations
issued so far, trace. -/
structure Thread where
  pc : Pc
  ops : Nat
  trace : List Event
  deriving DecidableEq, Repr

/-- The shared store and the invocations, by index. -/
structure System where
  db : Store
  threads : Nat → Thread

/-- The next action of an invocation of step `k` holding haiku `g`. -/
def Thread.act (k : Step) (env : Env) (g : Haiku) (db : Store) (t : Thread) : Store × Thread :=
  match t.pc with
  | .checkout =>
    match SafeUpdate env { db := db, ops := t.ops, trace := t.trace }
        { g with State := k.mid } k.src with
    | (s, some err) => (s.db, { pc := .finished (some err), ops := s.ops, trace := s.trace })
    | (s, none) => (s.db, { pc := .calling, ops := s.ops, trace := s.trace })
  | .calling =>
    (db, { pc := .finishing, ops := t.ops,
           trace := t.trace ++ [k.call { g with State := k.mid }] })
  | .finishing =>
    match k.external env { g with State := k.mid } with
    | .error err =>
      match markFailedAndReturn env { db := db, ops := t.ops, trace := t.trace } g.ID err with
      | (s, e) => (s.db, { pc := .finished e, ops := s.ops, trace := s.trace })
    | .ok next =>
      match SafeUpdate env { db := db, ops := t.ops, trace := t.trace } next k.mid with
      | (s, e) => (s.db, { pc := .finished e, ops := s.ops, trace := s.trace })
  | .finished _ => (db, t)

/-- Invocation `i` (one of `n`) performs its next action. -/
def System.step (k : Step) (n : Nat) (envs : Nat → Env) (g : Haiku) (sys : System) (i : Nat) :
    System :=
  if i < n then
    { db := (Thread.act k (envs i) g sys.db (sys.threads i)).1,
      threads := Function.update sys.threads i (Thread.act k (envs i) g sys.db (sys.threads i)).2 }
  else sys

/-- The system after a schedule. -/
def System.run (k : Step) (n : Nat) (envs : Nat → Env) (g : Haiku) (sched : List Nat)
    (sys : System) : System :=
  sched.foldl (System.step k n envs g) sys

/-- Every invocation has made its selection (one persistence operation) and
nothing else. -/
def System.init (db : Store) : System :=
  { db := db, threads := fun _ => { pc := .checkout, ops := 1, trace := [] } }

/-- An invocation that lost: it returned an error, committed nothing and made
no external call; when its persistence operations do not fail the error is the
state conflict of `SafeUpdate`. -/
def Lost (k : Step) (env : Env) (t : Thread) : Prop :=
  ∃ e, t.pc = .finished (some e) ∧ commits t.trace = [] ∧ externalCalls t.trace = [] ∧
    ((∀ j, env.dbFault j = none) → ∃ got, got ≠ k.src ∧
      e = .Errorf ("unexpected state: required " ++ k.src.Value ++ ", got " ++ got.Value))

/-- The invocation whose check-out committed, moving `H` to the transitional
state. -/
def Won (k : Step) (db0 : Store) (H : HaikuRow) (t : Thread) : Prop :=
  t.pc ≠ .checkout ∧
    ∃ rest, t.trace = [.txBegin, .txCommit (db0.setRow H.ID { H with State := k.mid })] ++ rest

/-- What holds of the system once the invocations listed in `ran` have acted. -/
def RaceInv (k : Step) (n : Nat) (envs : Nat → Env) (db0 : Store) (H : HaikuRow)
    (sys : System) (ran : List Nat) : Prop :=
  (sys.db.KeysUnique ∧ sys.db.posts = db0.posts) ∧ (∃ r ∈ sys.db.haikus, r.ID = H.ID) ∧
  (∀ j, j ∉ ran → sys.threads j = { pc := .checkout, ops := 1, trace := [] }) ∧
  ((sys.db = db0 ∧ (∀ j < n, j ∈ ran → Lost k (envs j) (sys.threads j)) ∧
      ((∀ i < n, ∀ j, (envs i).dbFault j = none) → ∀ j < n, j ∉ ran)) ∨
   (∃ w < n, w ∈ ran ∧ Won k db0 H (sys.threads w) ∧
      (∀ r ∈ sys.db.haikus, r.ID = H.ID → r.State ≠ k.src) ∧
      ∀ j < n, j ∈ ran → j ≠ w → Lost k (envs j) (sys.threads j)))

/-! ## Frames and transaction brackets -/

/-- The states in which a haiku is parked: the transitional ones and the
terminal ones. -/
def Parked (s : HaikuState) : Prop :=
  s = .SummaryGetting ∨ s = .HaikuTextGetting ∨ s = .Comenting ∨ s = .Done ∨ s = .Failed

instance (s : HaikuState) : Decidable (Parked s) := by
  show Decidable (_ ∨ _ ∨ _ ∨ _ ∨ _); infer_instance

/-- Session `s'` continues session `s` with row `r` left in place: `r` is in
every store committed meanwhile and in the store of `s'`. -/
def Frames (r : HaikuRow) (s s' : Sess) : Prop :=
  ∃ tr, s'.trace = s.trace ++ tr ∧ (∀ d ∈ commits tr, r ∈ d.haikus) ∧ r ∈ s'.db.haikus

/-- Whether a transaction is open after the events of a trace. -/
def txOpen (t : List Event) : Bool :=
  t.foldl (fun o e =>
    match e with
    | .txBegin => true
    | .txCommit _ => false
    | .txRollback => false
    | _ => o) false

/-! ## HTTP exchanges

The remote services are seen through the outcome of each request a call
issues.  A `Net` gives, for the `i`-th request of a call (counted from 0), what
`Client.Do` followed by `io.ReadAll` yields, the reading of the clock while
that answer is handled, and the decoder of `encoding/json`. -/

/-- `time.Duration`: a count of nanoseconds. -/
abbrev Duration := Int

/-- `time.Second`. -/
def Second : Duration := 1000000000

/-- A JSON value as `encoding/json` decodes it into `interface{}`: numbers are
numeric values, an object is its list of fields (each key once). -/
inductive JSON where
  | null : JSON
  | bool (b : Bool) : JSON
  | num (v : ℚ) : JSON
  | str (s : String) : JSON
  | arr (items : List JSON) : JSON
  | obj (fields : List (String × JSON)) : JSON

/-- What `Client.Do` and `io.ReadAll` yield for one request: a transport
error, a response whose body cannot be read, or status code, headers
(`Header.Get`, empty when the header is absent) and body. -/
inductive Exchange where
  | doErr (err : Error) : Exchange
  | readErr (err : Error) : Exchange
  | response (status : Nat) (header : String → String) (body : String) : Exchange

/-- The surroundings of one HTTP call.  `clock i` is the reading of the clock
while the answer to request `i` is handled, in nanoseconds since the Unix
epoch; `jsonError body` is the error `json.Unmarshal` returns for a body it
rejects. -/
structure Net where
  exchange : Nat → Exchange
  clock : Nat → Int
  jsonDecode : String → Option JSON
  jsonError : String → Error := fun _ => .foreign "invalid character"

/-- The fields of a JSON object, `m[key]` on the decoded map. -/
def JSON.field (fields : List (String × JSON)) (key : String) : Option JSON :=
  fields.lookup key

/-- The type assertion `.(string)`. -/
def JSON.asString : Option JSON → Option String
  | some (.str s) => some s
  | _ => none

/-- `json.Unmarshal` of a decoded value into `[]map[string]interface{}`:
`null` gives the nil slice, an array gives one map per element, an element
being an object or `null` (the nil map); anything else is an error. -/
def unmarshalMaps : JSON → Option (List (List (String × JSON)))
  | .null => some []
  | .arr items =>
    items.mapM (fun x =>
      match x with
      | .obj fields => some fields
      | .null => some []
      | _ => none)
  | _ => none

/-! ## `huggingface.go` -/

/-- What one turn of the retry loop of `callHuggingFaceModel` comes to: the
value returned, the error returned at once, or the error kept in `lastErr`. -/
inductive Attempt where
  | value (text : String) : Attempt
  | fatal (err : Error) : Attempt
  | retry (lastErr : Error) : Attempt
  deriving DecidableEq, Repr

/-- The body of the retry loop of `callHuggingFaceModel`, from the answer to
the request to the `return` or the assignment of `lastErr`. -/
def hfAttempt (net : Net) : Exchange → Attempt
  | .doErr err => .retry err
  | .readErr readErr => .retry readErr
  | .response status _ body =>
    if status = 429 then
      .fatal (.Errorf "rate limit exceeded, try again later")
    else if status = 503 then
      .retry (.Errorf ("service unavailable, status: " ++ toString status ++ ", body: " ++ body))
    else if status ≠ 200 then
      .retry (.Errorf ("request failed, status: " ++ toString status ++ ", body: " ++ body))
    else
      match (net.jsonDecode body).bind unmarshalMaps with
      | some (first :: _) =>
        match JSON.asString (JSON.field first "summary_text") with
        | some generatedText => .value generatedText
        | none =>
          match JSON.asString (JSON.field first "generated_text") with
          | some generatedText => .value generatedText
          | none => .retry (.Errorf ("unexpected response format: " ++ body))
      | _ => .retry (.Errorf ("could not parse response: " ++ body))

/-- What a call does on the network, in order: the `i`-th request, a
`time.Sleep`. -/
inductive NetEvent where
  | request (i : Nat) : NetEvent
  | sleep (d : Duration) : NetEvent
  deriving DecidableEq, Repr

/-- The durations slept in a log, in order. -/
def sleepsOf (log : List NetEvent) : List Duration :=
  log.filterMap (fun e =>
    match e with
    | .sleep d => some d
    | _ => none)

/-- The number of requests issued in a log. -/
def requestsOf (log : List NetEvent) : Nat :=
  (log.filter (fun e =>
    match e with
    | .request _ => true
    | _ => false)).length

/-- The outcome of an HTTP call with retries: the Go pair `(string, error)`
and the log of requests and sleeps. -/
structure CallResult where
  value : String
  err : Option Error
  log : List NetEvent
  deriving DecidableEq, Repr

/-- The loop `for i := 0; i <= maxRetries; i++` of `callHuggingFaceModel`;
`fuel` is the number of turns left, `maxRetries + 1 - i`. -/
def hfLoop (net : Net) (maxRetries : Nat) :
    Nat → Nat → Duration → Option Error → List NetEvent → CallResult
  | 0, _, _, lastErr, log => { value := "", err := lastErr, log := log }
  | fuel + 1, i, backoff, _, log =>
    match hfAttempt net (net.exchange i) with
    | .value text => { value := text, err := none, log := log ++ [.request i] }
    | .fatal err => { value := "", err := some err, log := log ++ [.request i] }
    | .retry lastErr =>
      if i < maxRetries then
        hfLoop net maxRetries fuel (i + 1) (backoff * 2) (some lastErr)
          (log ++ [.request i, .sleep backoff])
      else
        hfLoop net maxRetries fuel (i + 1) backoff (some lastErr) (log ++ [.request i])

/-- `HuggingFaceProvider.callHuggingFaceModel`: `maxRetries := 5`,
`backoff := 1 * time.Second`.  (Marshalling the payload, a map of strings, and
building the request from a constant URL do not fail.) -/
def callHuggingFaceModel (net : Net) : CallResult :=
  hfLoop net 5 6 0 (1 * Second) none []

/-- The log of a retry sequence: requests `i, i+1, …, i+n`, each of the first
`n` followed by one sleep, the sleeps starting at `b` and doubling. -/
def retryLog (b : Duration) : Nat → Nat → List NetEvent
  | i, 0 => [.request i]
  | i, n + 1 => .request i :: .sleep b :: retryLog (b * 2) (i + 1) n

/-- The sleeps of `n` successive backoff steps starting from one second:
`1s, 2s, 4s, …`, the `k`-th being `2^(k-1)` seconds. -/
def backoffSleeps (n : Nat) : List Duration :=
  (List.range n).map (fun k => 2 ^ k * Second)

/-! ## `twitter.go`: the retry loop of `FetchPosts` -/

/-- `strconv.ParseInt(s, 10, 64)`: an optional sign, then decimal digits, the
value within the range of `int64`; `none` stands for an error. -/
def ParseInt (s : String) : Option Int :=
  let cs := s.toList
  let digits := if cs.head? = some '-' ∨ cs.head? = some '+' then cs.tail else cs
  if digits = [] ∨ ¬ digits.all Char.isDigit then none
  else
    let n : Nat := digits.foldl (fun a c => 10 * a + (c.toNat - 48)) 0
    let v : Int := if cs.head? = some '-' then -(n : Int) else (n : Int)
    if v < -(2 ^ 63) ∨ 2 ^ 63 ≤ v then none else some v

/-- `json.Unmarshal` of a decoded value into `map[string]interface{}`. -/
def unmarshalMap : JSON → Option (List (String × JSON))
  | .obj fields => some fields
  | .null => some []
  | _ => none

/-- An integer as `int64` holds it after an overflowing addition. -/
def wrap64 (v : Int) : Int := (v + 2 ^ 63) % 2 ^ 64 - 2 ^ 63

/-- `time.Until(time.Unix(T, 0))` when the clock reads `now` nanoseconds since
the Unix epoch.  `time.Unix` adds the seconds between year 1 and 1970 to `T`
in `int64`; `Sub` gives the difference in nanoseconds when it fits `int64` and
else the smallest or the largest `Duration`, by which instant comes first. -/
def timeUntil (T now : Int) : Duration :=
  let tsec := wrap64 (T + 62135596800)
  let usec := now / 1000000000 + 62135596800
  let d := (tsec - usec) * 1000000000 - now % 1000000000
  if -(2 ^ 63) ≤ d ∧ d < 2 ^ 63 then d
  else if tsec < usec then -(2 ^ 63) else 2 ^ 63 - 1

/-- The outcome of `FetchPosts`: the Go pair `([]entities.Post, error)` (the
nil slice is `[]`) and the log of requests and sleeps. -/
structure FetchResult where
  posts : List Post
  err : Option Error
  log : List NetEvent
  deriving DecidableEq, Repr

/-- What one turn of the loop of `FetchPosts` comes to: a `return`, or the
next turn with its `lastErr`, its `backoff` and the sleeps made on the way. -/
inductive FetchTurn where
  | done (posts : List Post) (err : Option Error) : FetchTurn
  | again (lastErr : Option Error) (backoff : Duration) (slept : List Duration) : FetchTurn
  deriving DecidableEq, Repr

/-- The end of a turn of `FetchPosts`:
`if i < maxRetries && lastErr != nil { time.Sleep(backoff); backoff *= 2 }`. -/
def fetchTurnEnd (maxRetries i : Nat) (lastErr : Option Error) (backoff : Duration)
    (slept : List Duration) : FetchTurn :=
  if i < maxRetries ∧ lastErr ≠ none then .again lastErr (backoff * 2) (slept ++ [backoff])
  else .again lastErr backoff slept

/-- The body of the loop of `FetchPosts` for the answer to request `i`.
`mapTwitterPosts` is the function of that name, applied to the decoded
body. -/
def fetchTurn (net : Net) (mapTwitterPosts : List (String × JSON) → List Post × Option Error)
    (maxRetries i : Nat) (backoff : Duration) : Exchange → FetchTurn
  | .doErr err => fetchTurnEnd maxRetries i (some err) backoff []
  | .readErr err => fetchTurnEnd maxRetries i (some err) backoff []
  | .response status header body =>
    if status = 429 then
      let resetHeader := header "x-rate-limit-reset"
      let lastErr := some (Error.Errorf ("too many requests: " ++ body))
      if resetHeader ≠ "" then
        match ParseInt resetHeader with
        | some resetTimestamp =>
          let waitDuration := timeUntil resetTimestamp (net.clock i)
          if waitDuration > 0 then fetchTurnEnd maxRetries i lastErr backoff [waitDuration]
          else fetchTurnEnd maxRetries i lastErr backoff []
        | none => fetchTurnEnd maxRetries i lastErr (backoff * 2) [backoff]
      else fetchTurnEnd maxRetries i lastErr (backoff * 2) [backoff]
    else if status ≠ 200 then
      fetchTurnEnd maxRetries i (some (.Errorf ("failed to fetch tweets: " ++ body))) backoff []
    else
      match (net.jsonDecode body).bind unmarshalMap with
      | none => .done [] (some (net.jsonError body))
      | some result => .done (mapTwitterPosts result).1 (mapTwitterPosts result).2

/-- The loop `for i := 0; i <= maxRetries; i++` of `FetchPosts`; `fuel` is the
number of turns left. -/
def fetchLoop (net : Net) (mapTwitterPosts : List (String × JSON) → List Post × Option Error)
    (maxRetries : Nat) : Nat → Nat → Duration → Option Error → List NetEvent → FetchResult
  | 0, _, _, lastErr, log =>
    { posts := [],
      err := some (.Errorf ("error fetching posts from platform: " ++
        (lastErr.map Error.text).getD "<nil>")),
      log := log }
  | fuel + 1, i, backoff, _, log =>
    match fetchTurn net mapTwitterPosts maxRetries i backoff (net.exchange i) with
    | .done posts err => { posts := posts, err := err, log := log ++ [.request i] }
    | .again lastErr backoff slept =>
      fetchLoop net mapTwitterPosts maxRetries fuel (i + 1) backoff lastErr
        (log ++ [.request i] ++ slept.map .sleep)

/-- `TwitterProvider.FetchPosts`: `maxRetries := 3`, `backoff := 1 * time.Second`.
(Building the request from the constant URL does not fail.) -/
def FetchPosts (net : Net) (mapTwitterPosts : List (String × JSON) → List Post × Option Error) :
    FetchResult :=
  fetchLoop net mapTwitterPosts 3 4 0 (1 * Second) none []

/-! ## `limiter.go`

Time is in seconds, as a rational number.  `Limiter` is the token bucket of
`golang.org/x/time/rate` as its documentation describes it: `Wait` returns an
error at once, reserving nothing, when the context is already done or when
the wait would pass the deadline of the context. -/

/-- What `Limiter.Wait` reads from the context of a request: whether it is
already cancelled or expired, and its deadline, if any. -/
structure Ctx where
  done : Bool
  deadline : Option ℚ
  deriving DecidableEq, Repr

/-- The state of a `rate.Limiter`: `limit` events per second, at most `burst`
tokens, `tokens` of them left at time `last`. -/
structure Limiter where
  limit : ℚ
  burst : Nat
  tokens : ℚ
  last : ℚ
  deriving DecidableEq, Repr

/-- `rate.NewLimiter(r, b)`: the bucket is full at first use. -/
def NewLimiter (r : ℚ) (b : Nat) : Limiter :=
  { limit := r, burst := b, tokens := b, last := 0 }

/-- `Limiter.Wait(ctx)` called at time `now`: the limiter afterwards, the time
at which the call returns, and its error. -/
def Limiter.Wait (lim : Limiter) (now : ℚ) (ctx : Ctx) : Limiter × ℚ × Option Error :=
  if lim.burst < 1 then
    (lim, now, some (.Errorf "rate: Wait(n=1) exceeds limiter's burst"))
  else if ctx.done then
    (lim, now, some (.foreign "context canceled"))
  else
    let tokens := min (lim.burst : ℚ) (lim.tokens + (now - lim.last) * lim.limit) - 1
    let waitDuration := if tokens < 0 then -tokens / lim.limit else 0
    if ctx.deadline.all (fun d => waitDuration ≤ d - now) then
      ({ lim with tokens := tokens, last := now }, now + waitDuration, none)
    else
      (lim, now, some (.Errorf "rate: Wait(n=1) would exceed context deadline"))

/-- The struct `RateLimitTransport`; the wrapped transport `rTriper` is
represented by the times at which requests are handed to it. -/
structure RateLimitTransport where
  limiter : Limiter
  deriving DecidableEq, Repr

/-- `NewRateLimitTransport(r, rTriper)`. -/
def NewRateLimitTransport (r : ℚ) : RateLimitTransport :=
  { limiter := NewLimiter r 1 }

/-- `RateLimitTransport.RoundTrip` for a request arriving at time `now` with
context `ctx`: the result of `Wait` is dropped and the request is handed to
the wrapped transport when `Wait` returns. -/
def RateLimitTransport.RoundTrip (t : RateLimitTransport) (now : ℚ) (ctx : Ctx) :
    RateLimitTransport × ℚ :=
  match t.limiter.Wait now ctx with
  | (lim, handedOver, _) => ({ limiter := lim }, handedOver)

/-- The times at which a sequence of requests (arrival time, context) reaches
the wrapped transport. -/
def RateLimitTransport.forwards (t : RateLimitTransport) : List (ℚ × Ctx) → List ℚ
  | [] => []
  | (now, ctx) :: rest =>
    (t.RoundTrip now ctx).2 :: RateLimitTransport.forwards (t.RoundTrip now ctx).1 rest

/-! ## `extractHaiku` -/

/-- The pieces of `input` between the occurrences of `sep`, scanning from the
left; `skip` is the number of characters of a separator still to drop and
`cur` the current piece, reversed. -/
def splitChars (sep : List Char) : List Char → Nat → List Char → List (List Char)
  | [], _, cur => [cur.reverse]
  | _ :: cs, skip + 1, cur => splitChars sep cs skip cur
  | c :: cs, 0, cur =>
    if sep.isPrefixOf (c :: cs) then cur.reverse :: splitChars sep cs (sep.length - 1) []
    else splitChars sep cs 0 (c :: cur)

/-- `strings.Split(s, sep)` for a non-empty separator. -/
def strings_Split (s sep : String) : List String :=
  (splitChars sep.toList s.toList 0 []).map String.mk

/-- The function `extractHaiku` of `huggingface.go`. -/
def extractHaiku (response : String) : String :=
  let lines := strings_Split response "<RequestEnd>"
  if lines.length > 1 then lines.getD 1 "" else ""

/-- What the comment above `extractHaiku` says it returns: the last three
non-empty lines of the response. -/
def lastThreeNonEmptyLines (response : String) : List String :=
  let lines := (strings_Split response "\n").filter (fun l => l ≠ "")
  lines.drop (lines.length - 3)

/-! ## `twitter.go`: `mapTwitterPosts` -/

/-- The type assertion `.(map[string]interface{})`. -/
def JSON.asObject : Option JSON → Option (List (String × JSON))
  | some (.obj fields) => some fields
  | _ => none

/-- The type assertion `.([]interface{})`. -/
def JSON.asArray : Option JSON → Option (List JSON)
  | some (.arr items) => some items
  | _ => none

/-- The assignment `m, _ := x.(map[string]interface{})`: the nil map, which
has no field, when `x` is not an object. -/
def asMap (x : Option JSON) : List (String × JSON) := (JSON.asObject x).getD []

/-- The assignment `v, _ := m[key].(string)`: the empty string when the field
is missing or not a string. -/
def stringField (m : List (String × JSON)) (key : String) : String :=
  (JSON.asString (JSON.field m key)).getD ""

/-- The conversion `int(value)` of a `float64` holding the number `v`: the
fraction is dropped.  For a value outside the range of `int` the language
leaves the result to the implementation; the smallest `int` is what amd64
gives. -/
def goInt (v : ℚ) : Int :=
  let t := Int.tdiv v.num v.den
  if -(2 ^ 63) ≤ t ∧ t < 2 ^ 63 then t else -(2 ^ 63)

/-- The function `intOrDefault`. -/
def intOrDefault (metrics : List (String × JSON)) (key : String) : Int :=
  match JSON.field metrics key with
  | some (.num value) => goInt value
  | _ => 0

/-- The slice the loop over `includes.users` ranges over: empty when
`includes` is not an object or `users` is not an array. -/
def includesUsers (result : List (String × JSON)) : List JSON :=
  match JSON.asObject (JSON.field result "includes") with
  | some includes =>
    match JSON.asArray (JSON.field includes "users") with
    | some users => users
    | none => []
  | none => []

/-- One turn of the loop over `includes.users`: `userMap[id] = username`.  A
Go map reads as the empty string at a key it does not hold. -/
def addUser (userMap : String → String) (rawUser : JSON) : String → String :=
  let user := asMap (some rawUser)
  let id := stringField user "id"
  let username := stringField user "username"
  fun k => if k = id then username else userMap k

/-- The post the loop over the tweets makes of a tweet that is an object.
`parseTime` is `time.Parse(time.RFC3339, _)`. -/
def tweetPost (parseTime : String → Option Time) (userMap : String → String)
    (tweet : List (String × JSON)) : Post :=
  let id := stringField tweet "id"
  let authorID := stringField tweet "author_id"
  let text := stringField tweet "text"
  let createdAtStr := stringField tweet "created_at"
  let createdAt : Time :=
    if createdAtStr ≠ "" then
      match parseTime createdAtStr with
      | some parsedTime => parsedTime
      | none => 0
    else 0
  let metrics := asMap (JSON.field tweet "public_metrics")
  let likes := intOrDefault metrics "like_count"
  let shares := intOrDefault metrics "retweet_count"
  let replies := intOrDefault metrics "reply_count"
  let username := userMap authorID
  { ID := id, Author := { ID := authorID, Username := username }, Text := text,
    Likes := likes, Shares := shares, Replies := replies, Platform := "twitter",
    CreatedAt := createdAt }

/-- One turn of the loop over the tweets: a tweet that is not an object is
skipped, any other appends its post. -/
def addTweet (parseTime : String → Option Time) (userMap : String → String)
    (posts : List Post) (rawTweet : JSON) : List Post :=
  match JSON.asObject (some rawTweet) with
  | none => posts
  | some tweet => posts ++ [tweetPost parseTime userMap tweet]

/-- The function `mapTwitterPosts`, returning the Go pair
`([]entities.Post, error)`. -/
def mapTwitterPosts (parseTime : String → Option Time) (result : List (String × JSON)) :
    List Post × Option Error :=
  match JSON.asArray (JSON.field result "data") with
  | none => ([], none)
  | some rawTweets =>
    let userMap := (includesUsers result).foldl addUser (fun _ => "")
    (rawTweets.foldl (addTweet parseTime userMap) [], none)

/-- The username the side table `users` gives for an author id: that of the
entry with this id, the last one when several have it, and the empty string
when none has. -/
def sideTableUsername (users : List JSON) (authorID : String) : String :=
  match users.reverse.find? (fun u => stringField (asMap (some u)) "id" = authorID) with
  | some u => stringField (asMap (some u)) "username"
  | none => ""

/-! ## Sample data -/

/-- An environment in which no persistence operation and no capability fails. -/
def calmEnv : Env :=
  { now := 5, uuid := "h-new", dbFault := fun _ => none,
    GenerateSummary := fun t => .ok ("summary of " ++ t),
    GenerateHaiku := fun t => .ok ("haiku on " ++ t),
    CommentOn := fun _ _ => none }

/-- An environment whose capabilities all fail and whose store works. -/
def brokenApiEnv : Env :=
  { now := 5, uuid := "h-new", dbFault := fun _ => none,
    GenerateSummary := fun _ => .error (.foreign "503"),
    GenerateHaiku := fun _ => .error (.foreign "503"),
    CommentOn := fun _ _ => some (.foreign "503") }

def samplePost : Post :=
  { ID := "p1", Author := ⟨"a1", "alice"⟩, Text := "hello", Likes := 0, Shares := 0,
    Replies := 0, Platform := "twitter", CreatedAt := 1 }

/-- A row for `samplePost` in the given state. -/
def sampleRow (st : HaikuState) : HaikuRow :=
  { ID := "h1", State := st, Summary := some "sum", Text := some "txt", PostID := "p1",
    CreatedAt := 2 }

/-- The store holding `samplePost` and one haiku for it in the given state. -/
def sampleStore (st : HaikuState) : Store := ⟨[samplePost], [sampleRow st]⟩

/-- An environment whose store is down: every persistence operation fails. -/
def downEnv : Env :=
  { now := 5, uuid := "h-new", dbFault := fun _ => some (.foreign "connection refused"),
    GenerateSummary := fun t => .ok ("summary of " ++ t),
    GenerateHaiku := fun t => .ok ("haiku on " ++ t),
    CommentOn := fun _ _ => none }

/-- Two haikus in state `created` with the same `CreatedAt`; `"b"` was
inserted before `"a"`. -/
def tieStore : Store :=
  ⟨[samplePost],
   [⟨"b", .Created, none, none, "p1", 7⟩, ⟨"a", .Created, none, none, "p2", 7⟩]⟩

/-- A network whose first two answers are 503 and whose third is a 200 with a
body decoding to `[{"generated_text": "old pond"}]`. -/
def flakyNet : Net :=
  { exchange := fun i =>
      if i < 2 then .response 503 (fun _ => "") "busy"
      else .response 200 (fun _ => "") "[\x7b\"generated_text\": \"old pond\"\x7d]",
    clock := fun _ => 0,
    jsonDecode := fun body =>
      if body = "[\x7b\"generated_text\": \"old pond\"\x7d]" then
        some (.arr [.obj [("generated_text", .str "old pond")]])
      else none }

/-- A network whose first answer is a 429 carrying `x-rate-limit-reset: 130`
while the clock reads 100 seconds, and whose next answers are 200 with an
empty JSON object. -/
def resetNet : Net :=
  { exchange := fun i =>
      if i = 0 then
        .response 429 (fun k => if k = "x-rate-limit-reset" then "130" else "") "slow down"
      else .response 200 (fun _ => "") "\x7b\x7d",
    clock := fun _ => 100 * Second,
    jsonDecode := fun body => if body = "\x7b\x7d" then some (.obj []) else none }

/-- As `resetNet`, the 429 carrying no `x-rate-limit-reset` header. -/
def bareNet : Net :=
  { exchange := fun i =>
      if i = 0 then .response 429 (fun _ => "") "slow down"
      else .response 200 (fun _ => "") "\x7b\x7d",
    clock := fun _ => 100 * Second,
    jsonDecode := fun body => if body = "\x7b\x7d" then some (.obj []) else none }

/-- A context that is neither done nor bounded by a deadline. -/
def plainCtx : Ctx := { done := false, deadline := none }

/-- A context already cancelled. -/
def cancelledCtx : Ctx := { done := true, deadline := none }

/-- The `data` array of `sampleResponse`: a tweet by `u1`, a stray string and
a tweet by `u9` without text and counts. -/
def sampleTweets : List JSON :=
  [.obj [("id", .str "t1"), ("text", .str "hello"), ("author_id", .str "u1"),
         ("public_metrics", .obj [("like_count", .num 3), ("retweet_count", .str "many")])],
   .str "stray",
   .obj [("id", .str "t2"), ("author_id", .str "u9")]]

/-- A decoded search response: `sampleTweets` as `data`, the side table naming
`u1` twice and `u2` once. -/
def sampleResponse : List (String × JSON) :=
  [("data", .arr sampleTweets),
   ("includes", .obj [("users", .arr
      [.obj [("id", .str "u1"), ("username", .str "alice")],
       .obj [("id", .str "u2"), ("username", .str "bob")],
       .obj [("id", .str "u1"), ("username", .str "alicia")]])])]

/-- A haiku value for row `h1` in state `summary_getting` whose post reference
is `p1` while the `Post` it carries has id `p2`. -/
def strayHaiku : Haiku :=
  { (sampleRow .SummaryGetting).toHaiku with Post := { samplePost with ID := "p2" } }

/-- A store with two haikus for two posts. -/
def pairStore : Store :=
  ⟨[samplePost, { samplePost with ID := "p2" }],
   [⟨"h1", .SummaryGot, some "sum", none, "p1", 2⟩,
    ⟨"h2", .Done, some "sum2", some "txt2", "p2", 3⟩]⟩

/-- A network that answers 200 with a body decoding to
`[{"summary_text": "x"}, null]`. -/
def nullTailNet : Net :=
  { exchange := fun _ => .response 200 (fun _ => "") "[\x7b\"summary_text\": \"x\"\x7d, null]",
    clock := fun _ => 0,
    jsonDecode := fun body =>
      if body = "[\x7b\"summary_text\": \"x\"\x7d, null]" then
        some (.arr [.obj [("summary_text", .str "x")], .null])
      else none }

/-! ## Store lemmas -/

theorem saveBelongsTo_linked (env : Env) (db : Store) (h : Haiku) (hl : h.Linked db.posts) :
    saveBelongsTo env db h = (db, h) := by
  unfold saveBelongsTo
  by_cases hz : h.Post = default
  · rw [if_pos hz]
  · rcases hl with hl | ⟨hid, hany⟩
    · exact absurd hl hz
    · rw [if_neg hz]
      simp only [hany, if_true]
      rw [hid]

theorem saveBelongsTo_haikus (env : Env) (db : Store) (h : Haiku) :
    (saveBelongsTo env db h).1.haikus = db.haikus := by
  unfold saveBelongsTo
  split <;> rfl

theorem saveBelongsTo_ID (env : Env) (db : Store) (h : Haiku) :
    (saveBelongsTo env db h).2.ID = h.ID := by
  unfold saveBelongsTo
  split <;> rfl

theorem saveBelongsTo_row (env : Env) (db : Store) (h : Haiku) :
    (saveBelongsTo env db h).2.toRow =
      { h.toRow with PostID := if h.Post = default then h.PostID else h.Post.ID } := by
  unfold saveBelongsTo
  by_cases hz : h.Post = default
  · simp [hz, Haiku.toRow]
  · simp [hz, Haiku.toRow]

theorem saveBelongsTo_posts (env : Env) (db : Store) (h : Haiku) :
    (saveBelongsTo env db h).1.posts =
      (if h.Post = default ∨ db.posts.any (fun p => p.ID = h.Post.ID) = true then db.posts
       else db.posts ++ [{ h.Post with
         CreatedAt := if h.Post.CreatedAt = 0 then env.now else h.Post.CreatedAt }]) := by
  unfold saveBelongsTo
  by_cases hz : h.Post = default
  · simp [hz]
  · by_cases ha : db.posts.any (fun p => p.ID = h.Post.ID) = true
    · simp [hz, ha]
    · simp [hz, ha]

theorem preloadPost_linked (db : Store) (r : HaikuRow) : (preloadPost db r).Linked db.posts := by
  unfold Haiku.Linked preloadPost
  cases hf : db.posts.find? (fun p => p.ID = r.PostID) with
  | none => left; rfl
  | some p =>
    right
    have hid : p.ID = r.PostID := by simpa using List.find?_some hf
    have hmem : p ∈ db.posts := List.mem_of_find?_eq_some hf
    refine ⟨by simpa [HaikuRow.toHaiku] using hid, ?_⟩
    simp only [Option.getD_some, List.any_eq_true]
    exact ⟨p, hmem, by simp⟩

theorem toHaiku_linked (posts : List Post) (r : HaikuRow) : r.toHaiku.Linked posts :=
  Or.inl rfl

theorem linked_of_post (posts : List Post) (h : Haiku)
    (hpost : h.Post = (posts.find? (fun p => p.ID = h.PostID)).getD default) :
    h.Linked posts := by
  unfold Haiku.Linked
  cases hf : posts.find? (fun p => p.ID = h.PostID) with
  | none => left; rw [hpost, hf]; rfl
  | some p =>
    right
    have hid : p.ID = h.PostID := by simpa using List.find?_some hf
    have hmem : p ∈ posts := List.mem_of_find?_eq_some hf
    have hp : h.Post = p := by rw [hpost, hf]; rfl
    rw [hp]
    exact ⟨hid, List.any_eq_true.mpr ⟨p, hmem, by simp⟩⟩

theorem preloadPost_linked_state (db : Store) (r : HaikuRow) (st : HaikuState) :
    Haiku.Linked db.posts { preloadPost db r with State := st } :=
  preloadPost_linked db r

theorem find_of_mem_nodup (l : List HaikuRow) (r : HaikuRow) (id : String)
    (hnd : (l.map (fun r => r.ID)).Nodup) (hr : r ∈ l) (hid : r.ID = id) :
    l.find? (fun x => x.ID = id) = some r := by
  induction l with
  | nil => simp at hr
  | cons a l ih =>
    simp only [List.map_cons, List.nodup_cons, List.mem_map, not_exists, not_and] at hnd
    rcases List.mem_cons.mp hr with h | h
    · subst h; simp [List.find?_cons, hid]
    · have hne : a.ID ≠ id := by
        intro ha; exact hnd.1 r h (by rw [hid, ha])
      simp [List.find?_cons, hne, ih hnd.2 h]

theorem any_of_mem (l : List HaikuRow) (r : HaikuRow) (id : String)
    (hr : r ∈ l) (hid : r.ID = id) : l.any (fun x => x.ID = id) = true := by
  simp only [List.any_eq_true, decide_eq_true_eq]
  exact ⟨r, hr, hid⟩

theorem oldest_mem {α : Type} (c : α → Time) (k : α → String) (l : List α) (m : α)
    (h : oldest c k l = some m) : m ∈ l := by
  induction l generalizing m with
  | nil => simp [oldest] at h
  | cons a l ih =>
    unfold oldest at h
    cases hrec : oldest c k l with
    | none => simp [hrec] at h; simp [h]
    | some m0 =>
      simp only [hrec] at h
      split at h
      · simp at h; simp [h]
      · simp at h; subst h; exact List.mem_cons_of_mem _ (ih m0 hrec)

theorem oldest_eq_none {α : Type} (c : α → Time) (k : α → String) (l : List α) :
    oldest c k l = none ↔ l = [] := by
  cases l with
  | nil => simp [oldest]
  | cons a l =>
    unfold oldest
    cases h2 : oldest c k l with
    | none => simp
    | some m => simp only []; split <;> simp

theorem oldest_le {α : Type} (c : α → Time) (k : α → String) (l : List α) (m : α)
    (h : oldest c k l = some m) : ∀ x ∈ l, c m ≤ c x := by
  induction l generalizing m with
  | nil => simp
  | cons a l ih =>
    unfold oldest at h
    cases hrec : oldest c k l with
    | none =>
      simp [hrec] at h
      subst h
      rw [(oldest_eq_none c k l).mp hrec]
      simp
    | some m0 =>
      simp only [hrec] at h
      have ih0 := ih m0 hrec
      split at h
      · rename_i hc
        simp at h; subst h
        intro x hx
        rcases List.mem_cons.mp hx with hx | hx
        · subst hx; exact le_refl _
        · have := ih0 x hx
          rcases hc with hc | hc
          · exact le_trans (le_of_lt hc) this
          · exact hc.1 ▸ this
      · rename_i hc
        simp at h; subst h
        intro x hx
        rcases List.mem_cons.mp hx with hx | hx
        · subst hx
          simp only [not_or, not_lt, not_and] at hc
          exact hc.1
        · exact ih0 x hx

theorem oldestRow_mem (l : List HaikuRow) (m : HaikuRow) (h : oldestRow l = some m) :
    m ∈ l := oldest_mem _ _ l m h

theorem oldestRow_le (l : List HaikuRow) (m : HaikuRow) (h : oldestRow l = some m) :
    ∀ x ∈ l, m.CreatedAt ≤ x.CreatedAt := oldest_le _ _ l m h

theorem oldestRow_eq_none (l : List HaikuRow) : oldestRow l = none ↔ l = [] :=
  oldest_eq_none _ _ l

theorem oldestRow_filter (l : List HaikuRow) (st : HaikuState) (m : HaikuRow)
    (h : oldestRow (l.filter (fun r => r.State = st)) = some m) :
    m ∈ l ∧ m.State = st := by
  have := oldestRow_mem _ _ h
  simpa using this

theorem oldestRow_filter_none (l : List HaikuRow) (st : HaikuState)
    (h : ∀ r ∈ l, r.State ≠ st) : oldestRow (l.filter (fun r => r.State = st)) = none := by
  rw [oldestRow_eq_none]
  simpa [List.filter_eq_nil_iff] using h

theorem SafeUpdate_ok (env : Env) (db : Store) (n : Nat) (t : List Event) (h : Haiku)
    (S : HaikuState) (r : HaikuRow)
    (hkeys : db.KeysUnique) (hr : r ∈ db.haikus) (hid : r.ID = h.ID) (hst : r.State = S)
    (hl : h.Linked db.posts)
    (h0 : env.dbFault n = none) (h1 : env.dbFault (n + 1) = none)
    (h2 : env.dbFault (n + 2) = none) :
    SafeUpdate env { db := db, ops := n, trace := t } h S =
      ({ db := db.setRow h.ID h.toRow, ops := n + 3,
         trace := t ++ [.txBegin, .txCommit (db.setRow h.ID h.toRow)] }, none) := by
  have hfind := find_of_mem_nodup db.haikus r h.ID hkeys hr hid
  have hany := any_of_mem db.haikus r h.ID hr hid
  unfold SafeUpdate Transaction FindByIDForUpdate Save
  simp [Sess.emit, Sess.tick, h0, h1, h2, hfind, hany, HaikuRow.toHaiku, hst, Store.setRow,
    saveBelongsTo_linked env db h hl]

theorem SafeUpdate_conflict (env : Env) (db : Store) (n : Nat) (t : List Event) (h : Haiku)
    (S : HaikuState) (r : HaikuRow)
    (hkeys : db.KeysUnique) (hr : r ∈ db.haikus) (hid : r.ID = h.ID) (hst : r.State ≠ S)
    (h0 : env.dbFault n = none) :
    SafeUpdate env { db := db, ops := n, trace := t } h S =
      ({ db := db, ops := n + 1, trace := t ++ [.txBegin, .txRollback] },
        some (.Errorf ("unexpected state: required " ++ S.Value ++ ", got " ++ r.State.Value))) := by
  have hfind := find_of_mem_nodup db.haikus r h.ID hkeys hr hid
  have hne2 : ¬ S = r.State := fun e => hst e.symm
  unfold SafeUpdate Transaction FindByIDForUpdate
  simp [Sess.emit, Sess.tick, h0, hfind, HaikuRow.toHaiku, hne2]

theorem MarkAsFailed_ok (env : Env) (db : Store) (n : Nat) (t : List Event) (id : String)
    (r : HaikuRow) (hkeys : db.KeysUnique) (hr : r ∈ db.haikus) (hid : r.ID = id)
    (h0 : env.dbFault n = none) (h1 : env.dbFault (n + 1) = none)
    (h2 : env.dbFault (n + 2) = none) :
    MarkAsFailed env { db := db, ops := n, trace := t } id =
      ({ db := db.setRow id { r with State := .Failed }, ops := n + 3,
         trace := t ++ [.txBegin, .txCommit (db.setRow id { r with State := .Failed })] },
        none) := by
  have hfind := find_of_mem_nodup db.haikus r id hkeys hr hid
  have hany := any_of_mem db.haikus r id hr hid
  unfold MarkAsFailed Transaction FindByIDForUpdate Save
  simp [Sess.emit, Sess.tick, h0, h1, h2, hfind, hany, HaikuRow.toHaiku, Store.setRow, hid,
    Haiku.toRow, saveBelongsTo]

theorem setRow_keys (db : Store) (id : String) (row : HaikuRow) (hrow : row.ID = id) :
    (db.setRow id row).haikus.map (fun r => r.ID) = db.haikus.map (fun r => r.ID) := by
  simp only [Store.setRow, List.map_map]
  apply List.map_congr_left
  intro a _
  simp only [Function.comp]
  split
  · rename_i hc; rw [hrow, hc]
  · rfl

theorem setRow_KeysUnique (db : Store) (id : String) (row : HaikuRow) (hrow : row.ID = id)
    (hk : db.KeysUnique) : (db.setRow id row).KeysUnique := by
  unfold Store.KeysUnique at *
  rw [setRow_keys _ _ _ hrow]; exact hk

theorem setRow_mem (db : Store) (id : String) (row r : HaikuRow) (hr : r ∈ db.haikus)
    (hid : r.ID = id) : row ∈ (db.setRow id row).haikus := by
  simp only [Store.setRow, List.mem_map]
  exact ⟨r, hr, by simp [hid]⟩

theorem setRow_setRow (db : Store) (id : String) (r1 r2 : HaikuRow) (hid : r1.ID = id) :
    (db.setRow id r1).setRow id r2 = db.setRow id r2 := by
  simp only [Store.setRow, List.map_map, Store.mk.injEq, true_and]
  apply List.map_congr_left
  intro a _
  simp only [Function.comp]
  by_cases hc : a.ID = id
  · simp [hc, hid]
  · simp [hc]

theorem FindOldestByState_found (env : Env) (db : Store) (st : HaikuState) (H : HaikuRow)
    (h0 : env.dbFault 0 = none)
    (hH : oldestRow (db.haikus.filter (fun r => r.State = st)) = some H) :
    FindOldestByState env (Sess.start db) st =
      ({ db := db, ops := 1, trace := [] }, some (preloadPost db H), none) := by
  unfold FindOldestByState
  simp [Sess.start, Sess.tick, h0, hH]

theorem ProcessSummary_noop (env : Env) (db : Store)
    (hno : ∀ r ∈ db.haikus, r.State ≠ .Created) :
    (ProcessSummary env db).err = none ∧ externalCalls (ProcessSummary env db).trace = [] ∧
      (ProcessSummary env db).db = db := by
  have hnone := oldestRow_filter_none db.haikus _ hno
  unfold ProcessSummary FindOldestByState
  cases hf : env.dbFault (Sess.start db).ops <;>
    simp [Sess.start, Sess.tick, Sess.result, hnone, externalCalls]

theorem ProcessHaikuText_noop (env : Env) (db : Store)
    (hno : ∀ r ∈ db.haikus, r.State ≠ .SummaryGot) :
    (ProcessHaikuText env db).err = none ∧ externalCalls (ProcessHaikuText env db).trace = [] ∧
      (ProcessHaikuText env db).db = db := by
  have hnone := oldestRow_filter_none db.haikus _ hno
  unfold ProcessHaikuText FindOldestByState
  cases hf : env.dbFault (Sess.start db).ops <;>
    simp [Sess.start, Sess.tick, Sess.result, hnone, externalCalls]

theorem PostHaiku_noop (env : Env) (db : Store)
    (hno : ∀ r ∈ db.haikus, r.State ≠ .HaikuTextGot) :
    (PostHaiku env db).err = none ∧ externalCalls (PostHaiku env db).trace = [] ∧
      (PostHaiku env db).db = db := by
  have hnone := oldestRow_filter_none db.haikus _ hno
  unfold PostHaiku FindOldestByState
  cases hf : env.dbFault (Sess.start db).ops <;>
    simp [Sess.start, Sess.tick, Sess.result, hnone, externalCalls]

theorem markFailedAndReturn_ok (env : Env) (db : Store) (n : Nat) (t : List Event) (id : String)
    (r : HaikuRow) (e : Error) (hkeys : db.KeysUnique) (hr : r ∈ db.haikus) (hid : r.ID = id)
    (h0 : env.dbFault n = none) (h1 : env.dbFault (n + 1) = none)
    (h2 : env.dbFault (n + 2) = none) :
    markFailedAndReturn env { db := db, ops := n, trace := t } id e =
      ({ db := db.setRow id { r with State := .Failed }, ops := n + 3,
         trace := t ++ [.txBegin, .txCommit (db.setRow id { r with State := .Failed })] },
        some e) := by
  unfold markFailedAndReturn
  rw [MarkAsFailed_ok env db n t id r hkeys hr hid h0 h1 h2]

theorem setRow_no_state (db : Store) (id : String) (row : HaikuRow) (st : HaikuState)
    (hothers : ∀ r ∈ db.haikus, r.State = st → r.ID = id) (hrow : row.State ≠ st) :
    ∀ r ∈ (db.setRow id row).haikus, r.State ≠ st := by
  intro r hr
  simp only [Store.setRow, List.mem_map] at hr
  obtain ⟨a, ha, rfl⟩ := hr
  by_cases hc : a.ID = id
  · simpa [hc] using hrow
  · simp only [hc, if_false]
    exact fun hs => hc (hothers a ha hs)

theorem FindOldestByState_cases (env : Env) (db : Store) (st : HaikuState) :
    (∃ e, FindOldestByState env (Sess.start db) st =
      ({ db := db, ops := 1, trace := [] }, none, some e)) ∨
    (∃ H, H ∈ db.haikus ∧ H.State = st ∧
      oldestRow (db.haikus.filter (fun r => r.State = st)) = some H ∧
      FindOldestByState env (Sess.start db) st =
        ({ db := db, ops := 1, trace := [] }, some (preloadPost db H), none)) := by
  unfold FindOldestByState
  cases hf : env.dbFault (Sess.start db).ops with
  | some e =>
    left; exact ⟨.Errorf_w "failed to fetch haiku by state: " e, by simp [Sess.start, Sess.tick]⟩
  | none =>
    cases hsel : oldestRow (List.filter (fun r => decide (r.State = st)) (Sess.start db).db.haikus)
      with
    | none =>
      left
      exact ⟨.Errorf ("no haiku found with state " ++ st.Value), by simp [Sess.start, Sess.tick]⟩
    | some H =>
      right
      have := oldestRow_filter _ _ _ hsel
      exact ⟨H, this.1, this.2, hsel, by simp [Sess.start, Sess.tick]⟩

theorem Step.run_eq_advance (k : Step) (env : Env) (db : Store) :
    k.run env db = k.advance env db := by
  rcases FindOldestByState_cases env db k.src with ⟨e, h⟩ | ⟨H, _, _, _, h⟩
  · cases k <;>
      simp only [Step.run, Step.advance, ProcessSummary, ProcessHaikuText, PostHaiku, Step.src]
        at h ⊢ <;> simp only [h]
  · cases k
    · simp only [Step.run, Step.advance, ProcessSummary, Step.src, Step.process, Step.mid,
        Step.external, Step.call] at h ⊢
      simp only [h]
      split
      · rfl
      · cases env.GenerateSummary (preloadPost db H).Post.Text <;> rfl
    · simp only [Step.run, Step.advance, ProcessHaikuText, Step.src, Step.process, Step.mid,
        Step.external, Step.call] at h ⊢
      simp only [h]
      split
      · rfl
      · cases env.GenerateHaiku (NullString (preloadPost db H).Summary) <;> rfl
    · simp only [Step.run, Step.advance, PostHaiku, Step.src, Step.process, Step.mid,
        Step.external, Step.call] at h ⊢
      simp only [h]
      split
      · rfl
      · cases env.CommentOn (preloadPost db H).PostID (NullString (preloadPost db H).Text) <;> rfl

theorem Step.external_linked (k : Step) (env : Env) (h next : Haiku) (posts : List Post)
    (hext : k.external env h = .ok next) (hl : h.Linked posts) : next.Linked posts := by
  cases k
  · simp only [Step.external] at hext
    cases hg : env.GenerateSummary h.Post.Text <;> simp [hg] at hext
    subst hext; exact hl
  · simp only [Step.external] at hext
    cases hg : env.GenerateHaiku (NullString h.Summary) <;> simp [hg] at hext
    subst hext; exact hl
  · simp only [Step.external] at hext
    cases hg : env.CommentOn h.PostID (NullString h.Text) <;> simp [hg] at hext
    subst hext; exact hl

theorem SafeUpdate_cases (env : Env) (s : Sess) (h : Haiku) (S : HaikuState)
    (hl : h.Linked s.db.posts) :
    (∃ n e, SafeUpdate env s h S =
      ({ db := s.db, ops := n, trace := s.trace ++ [.txBegin, .txRollback] }, some e)) ∨
    (∃ r ∈ s.db.haikus, r.ID = h.ID ∧ r.State = S ∧
      SafeUpdate env s h S =
        ({ db := s.db.setRow h.ID h.toRow, ops := s.ops + 3,
           trace := s.trace ++ [.txBegin, .txCommit (s.db.setRow h.ID h.toRow)] }, none)) := by
  unfold SafeUpdate Transaction FindByIDForUpdate Save
  simp only [Sess.emit, Sess.tick]
  cases h0 : env.dbFault s.ops with
  | some e => left; exact ⟨_, _, by simp; exact ⟨rfl, rfl⟩⟩
  | none =>
    cases hf : s.db.haikus.find? (fun r => r.ID = h.ID) with
    | none => left; exact ⟨_, _, by simp; exact ⟨rfl, rfl⟩⟩
    | some r =>
      have hr : r ∈ s.db.haikus := List.mem_of_find?_eq_some hf
      have hid : r.ID = h.ID := by simpa using List.find?_some hf
      have hany := any_of_mem s.db.haikus r h.ID hr hid
      by_cases hS : S = r.State
      · cases h1 : env.dbFault (s.ops + 1) with
        | some e => left; exact ⟨_, _, by simp [hS, HaikuRow.toHaiku, h1]; exact ⟨rfl, rfl⟩⟩
        | none =>
          cases h2 : env.dbFault (s.ops + 1 + 1) with
          | some e =>
            left
            exact ⟨_, _, by
              simp [hS, HaikuRow.toHaiku, h1, hany, h2, saveBelongsTo_linked env s.db h hl]
              exact ⟨rfl, rfl⟩⟩
          | none =>
            right
            exact ⟨r, hr, hid, hS.symm,
              by simp [hS, HaikuRow.toHaiku, h1, hany, h2, Store.setRow,
                saveBelongsTo_linked env s.db h hl]⟩
      · left; exact ⟨_, _, by simp [hS, HaikuRow.toHaiku]; exact ⟨rfl, rfl⟩⟩

theorem MarkAsFailed_cases (env : Env) (s : Sess) (id : String) :
    (∃ n e, MarkAsFailed env s id =
      ({ db := s.db, ops := n, trace := s.trace ++ [.txBegin, .txRollback] }, some e)) ∨
    (∃ r ∈ s.db.haikus, r.ID = id ∧
      MarkAsFailed env s id =
        ({ db := s.db.setRow id { r with State := .Failed }, ops := s.ops + 3,
           trace := s.trace ++ [.txBegin, .txCommit (s.db.setRow id { r with State := .Failed })] },
          none)) := by
  unfold MarkAsFailed Transaction FindByIDForUpdate Save
  simp only [Sess.emit, Sess.tick]
  cases h0 : env.dbFault s.ops with
  | some e => left; exact ⟨_, _, by simp; exact ⟨rfl, rfl⟩⟩
  | none =>
    cases hf : s.db.haikus.find? (fun r => r.ID = id) with
    | none => left; exact ⟨_, _, by simp; exact ⟨rfl, rfl⟩⟩
    | some r =>
      have hr : r ∈ s.db.haikus := List.mem_of_find?_eq_some hf
      have hid : r.ID = id := by simpa using List.find?_some hf
      have hany := any_of_mem s.db.haikus r id hr hid
      cases h1 : env.dbFault (s.ops + 1) with
      | some e => left; exact ⟨_, _, by simp [HaikuRow.toHaiku, h1]; exact ⟨rfl, rfl⟩⟩
      | none =>
        cases h2 : env.dbFault (s.ops + 1 + 1) with
        | some e =>
          left
          exact ⟨_, _, by
            simp [HaikuRow.toHaiku, h1, hany, h2, hid, saveBelongsTo]
            exact ⟨rfl, rfl⟩⟩
        | none =>
          right
          exact ⟨r, hr, hid,
            by simp [HaikuRow.toHaiku, h1, hany, h2, Store.setRow, hid, Haiku.toRow,
              saveBelongsTo]⟩

theorem Step.external_ok (k : Step) (env : Env) (h next : Haiku)
    (hext : k.external env h = .ok next) :
    next.ID = h.ID ∧ next.PostID = h.PostID ∧ next.CreatedAt = h.CreatedAt ∧
      next.State = k.dst := by
  cases k
  · simp only [Step.external] at hext
    cases hg : env.GenerateSummary h.Post.Text <;> simp [hg] at hext
    subst hext; simp [Step.dst]
  · simp only [Step.external] at hext
    cases hg : env.GenerateHaiku (NullString h.Summary) <;> simp [hg] at hext
    subst hext; simp [Step.dst]
  · simp only [Step.external] at hext
    cases hg : env.CommentOn h.PostID (NullString h.Text) <;> simp [hg] at hext
    subst hext; simp [Step.dst]

/-! ## Writes and continuations -/

theorem keys_eq (db : Store) (hk : db.KeysUnique) (a b : HaikuRow) (ha : a ∈ db.haikus)
    (hb : b ∈ db.haikus) (h : a.ID = b.ID) : a = b :=
  List.inj_on_of_nodup_map hk ha hb h

theorem setRow_eq_of_mem (db : Store) (id : String) (row r : HaikuRow)
    (hr : r ∈ (db.setRow id row).haikus) (hid : r.ID = id) : r = row := by
  simp only [Store.setRow, List.mem_map] at hr
  obtain ⟨x, _, rfl⟩ := hr
  by_cases hc : x.ID = id
  · simp [hc]
  · simp only [hc, if_false] at hid

theorem chain_append_last {α : Type} (R : α → α → Prop) (a : α) (l1 l2 : List α)
    (h1 : List.Chain R a l1) (h2 : List.Chain R (l1.getLastD a) l2) :
    List.Chain R a (l1 ++ l2) := by
  induction l1 generalizing a with
  | nil => simpa using h2
  | cons b l ih =>
    rw [List.chain_cons] at h1
    rw [List.getLastD_cons] at h2
    exact List.Chain.cons h1.1 (ih b h1.2 h2)

theorem getLastD_append_last {α : Type} (a : α) (l1 l2 : List α) :
    (l1 ++ l2).getLastD a = l2.getLastD (l1.getLastD a) := by
  induction l1 generalizing a with
  | nil => simp
  | cons b l ih => simp only [List.cons_append, List.getLastD_cons]; exact ih b

theorem commits_append (t1 t2 : List Event) : commits (t1 ++ t2) = commits t1 ++ commits t2 := by
  simp [commits, List.filterMap_append]

theorem Extends.refl (A : HaikuState → HaikuState → Prop) (s : Sess) : Extends A s s :=
  ⟨[], by simp, by simp [commits], by simp [commits]⟩

theorem Extends.trans {A : HaikuState → HaikuState → Prop} {s1 s2 s3 : Sess}
    (h12 : Extends A s1 s2) (h23 : Extends A s2 s3) : Extends A s1 s3 := by
  obtain ⟨t1, ht1, hc1, hd1⟩ := h12
  obtain ⟨t2, ht2, hc2, hd2⟩ := h23
  refine ⟨t1 ++ t2, by rw [ht2, ht1, List.append_assoc], ?_, ?_⟩
  · rw [commits_append]
    exact chain_append_last _ _ _ _ hc1 (hd1 ▸ hc2)
  · rw [commits_append, getLastD_append_last, ← hd1]; exact hd2

theorem Extends.emit (A : HaikuState → HaikuState → Prop) (s : Sess) (e : Event)
    (he : commits [e] = []) : Extends A s (s.emit e) :=
  ⟨[e], rfl, by rw [he]; exact List.Chain.nil, by rw [he]; rfl⟩

theorem SafeUpdate_extends (A : HaikuState → HaikuState → Prop) (env : Env) (s : Sess)
    (h : Haiku) (S : HaikuState) (hl : h.Linked s.db.posts)
    (hrows : ∀ r ∈ s.db.haikus, r.ID = h.ID → r.State = S →
      h.PostID = r.PostID ∧ A r.State h.State) :
    Extends A s (SafeUpdate env s h S).1 := by
  rcases SafeUpdate_cases env s h S hl with ⟨n, e, hs⟩ | ⟨r, hr, hid, hst, hs⟩
  · rw [hs]
    exact ⟨[.txBegin, .txRollback], rfl, by simp [commits], by simp [commits]⟩
  · rw [hs]
    refine ⟨[.txBegin, .txCommit (s.db.setRow h.ID h.toRow)], rfl, ?_, by simp [commits]⟩
    have hw : Write A s.db (s.db.setRow r.ID h.toRow) :=
      Write.update r h.toRow hr hid.symm (hrows r hr hid hst).1 (hrows r hr hid hst).2
    rw [hid] at hw
    simpa [commits] using hw

theorem MarkAsFailed_extends (A : HaikuState → HaikuState → Prop) (env : Env) (s : Sess)
    (id : String) (hrows : ∀ r ∈ s.db.haikus, r.ID = id → A r.State .Failed) :
    Extends A s (MarkAsFailed env s id).1 := by
  rcases MarkAsFailed_cases env s id with ⟨n, e, hs⟩ | ⟨r, hr, hid, hs⟩
  · rw [hs]
    exact ⟨[.txBegin, .txRollback], rfl, by simp [commits], by simp [commits]⟩
  · rw [hs]
    refine ⟨[.txBegin, .txCommit (s.db.setRow id { r with State := .Failed })], rfl, ?_,
      by simp [commits]⟩
    have hw : Write A s.db (s.db.setRow r.ID { r with State := .Failed }) :=
      Write.update r { r with State := .Failed } hr rfl rfl (hrows r hr hid)
    have hsame : s.db.setRow r.ID { r with State := .Failed } =
        s.db.setRow id { r with State := .Failed } := by rw [hid]
    rw [hsame] at hw
    simpa [commits] using hw

theorem markFailedAndReturn_fst (env : Env) (s : Sess) (id : String) (e : Error) :
    (markFailedAndReturn env s id e).1 = (MarkAsFailed env s id).1 := by
  unfold markFailedAndReturn
  rcases MarkAsFailed env s id with ⟨s1, _ | e1⟩ <;> rfl

theorem SafeUpdate_db_ok (env : Env) (s : Sess) (h : Haiku) (S : HaikuState)
    (hl : h.Linked s.db.posts) (hok : (SafeUpdate env s h S).2 = none) :
    (SafeUpdate env s h S).1.db = s.db.setRow h.ID h.toRow := by
  rcases SafeUpdate_cases env s h S hl with ⟨n, e, hs⟩ | ⟨r, hr, hid, hst, hs⟩
  · rw [hs] at hok; simp at hok
  · rw [hs]

theorem Step.process_extends (A : HaikuState → HaikuState → Prop) (k : Step)
    (hA1 : A k.src k.mid) (hA2 : A k.mid k.dst) (hA3 : A k.mid .Failed)
    (env : Env) (s : Sess) (H : HaikuRow) (g : Haiku)
    (hkeys : s.db.KeysUnique) (hmem : H ∈ s.db.haikus)
    (hgid : g.ID = H.ID) (hgpost : g.PostID = H.PostID) (hl : g.Linked s.db.posts) :
    ∃ s' e, k.process env s g = s'.result e ∧ Extends A s s' := by
  unfold Step.process
  have hx1 := SafeUpdate_extends A env s { g with State := k.mid } k.src hl (by
    intro r hr hid hst
    have : r = H := keys_eq s.db hkeys r H hr hmem (by rw [hid]; exact hgid)
    subst this
    exact ⟨hgpost, by rw [hst]; exact hA1⟩)
  have hdb := SafeUpdate_db_ok env s { g with State := k.mid } k.src hl
  rcases hres : SafeUpdate env s { g with State := k.mid } k.src with ⟨s1, e1⟩
  rw [hres] at hx1 hdb
  simp only at hx1 hdb
  cases e1 with
  | some err => exact ⟨s1, some err, rfl, hx1⟩
  | none =>
    have hdb1 := hdb rfl
    have hl1 : g.Linked s1.db.posts := by rw [hdb1]; exact hl
    have hrow : ∀ r ∈ s1.db.haikus, r.ID = g.ID →
        r.State = k.mid ∧ r.PostID = g.PostID := by
      intro r hr hid
      rw [hdb1] at hr
      have := setRow_eq_of_mem _ _ _ r hr hid
      subst this
      exact ⟨rfl, rfl⟩
    simp only []
    cases hx : k.external env { g with State := k.mid } with
    | error err =>
      simp only []
      refine ⟨_, _, rfl,
        hx1.trans ((Extends.emit A s1 (k.call { g with State := k.mid }) ?_).trans ?_)⟩
      · cases k <;> rfl
      · rw [markFailedAndReturn_fst]
        apply MarkAsFailed_extends
        intro r hr hid
        rw [(hrow r hr hid).1]; exact hA3
    | ok next =>
      simp only []
      obtain ⟨hnid, hnpost, _, hnst⟩ := Step.external_ok k env _ _ hx
      refine ⟨_, _, rfl,
        hx1.trans ((Extends.emit A s1 (k.call { g with State := k.mid }) ?_).trans ?_)⟩
      · cases k <;> rfl
      · apply SafeUpdate_extends
        · exact Step.external_linked k env _ next _ hx hl1
        intro r hr hid _
        have hr2 := hrow r hr (by rw [hid, hnid])
        exact ⟨by rw [hnpost, hr2.2], by rw [hr2.1, hnst]; exact hA2⟩

theorem result_chain (A : HaikuState → HaikuState → Prop) (db : Store) (s : Sess)
    (e : Option Error) (hx : Extends A (Sess.start db) s) :
    List.Chain (Write A) db (commits (s.result e).trace ++ [(s.result e).db]) := by
  obtain ⟨tr, ht, hc, hd⟩ := hx
  simp only [Sess.start, List.nil_append] at ht hc hd
  simp only [Sess.result, ht]
  apply chain_append_last _ _ _ _ hc
  rw [hd]
  exact List.Chain.cons Write.same List.Chain.nil

theorem Step.advance_chain (A : HaikuState → HaikuState → Prop) (k : Step)
    (hA1 : A k.src k.mid) (hA2 : A k.mid k.dst) (hA3 : A k.mid .Failed)
    (env : Env) (db : Store) (hkeys : db.KeysUnique) :
    List.Chain (Write A) db (commits (k.run env db).trace ++ [(k.run env db).db]) := by
  rw [Step.run_eq_advance]
  unfold Step.advance
  rcases FindOldestByState_cases env db k.src with ⟨e, h⟩ | ⟨H, hmem, _, _, h⟩
  · simp only [h]
    simpa [Sess.result, commits] using (Write.same : Write A db db)
  · simp only [h]
    obtain ⟨s', e, hp, hx⟩ := Step.process_extends A k hA1 hA2 hA3 env
      { db := db, ops := 1, trace := [] } H (preloadPost db H) hkeys hmem rfl rfl
      (preloadPost_linked db H)
    rw [hp]
    exact result_chain A db s' e
      (by obtain ⟨tr, h1, h2, h3⟩ := hx; exact ⟨tr, h1, h2, h3⟩)

theorem CreateHaiku_write (A : HaikuState → HaikuState → Prop) (env : Env) (db : Store) :
    (CreateHaikuFromUnprocessedPost env db).trace = [] ∧
    Write A db (CreateHaikuFromUnprocessedPost env db).db := by
  unfold CreateHaikuFromUnprocessedPost FindOldestUnprocessedPost
  cases h0 : env.dbFault (Sess.start db).ops with
  | some e => simp [Sess.start, Sess.tick, Sess.result]; exact Write.same
  | none =>
    cases hsel : oldestPost ((Sess.start db).db.posts.filter
      (fun p => !((Sess.start db).db.haikus.any (fun r => r.PostID = p.ID)))) with
    | none => simp [Sess.start, Sess.tick, Sess.result]; exact Write.same
    | some P =>
      have hP := oldest_mem _ _ _ _ hsel
      simp only [Sess.start, List.mem_filter, Bool.not_eq_true', List.any_eq_false,
        decide_eq_true_eq] at hP
      have hsb := saveBelongsTo_linked env db ⟨env.uuid, .Created, none, none, P.ID, P, 0⟩
        (Or.inr ⟨rfl, List.any_eq_true.mpr ⟨P, hP.1, by simp⟩⟩)
      simp only [Create, Sess.start, Sess.tick, hsb]
      cases h1 : env.dbFault (0 + 1) with
      | some e => simp [Sess.result]; exact Write.same
      | none =>
        by_cases hany : db.haikus.any (fun r => r.ID = env.uuid) = true
        · simp [Sess.result, hany]; exact Write.same
        · simp only [Bool.not_eq_true, List.any_eq_false, decide_eq_true_eq] at hany
          have hany2 : db.haikus.any (fun r => r.ID = env.uuid) = false := by
            simpa [List.any_eq_false] using hany
          simp only [hany2, Sess.result, Haiku.toRow]
          refine ⟨rfl, ?_⟩
          exact Write.insert _ hany hP.2 rfl

theorem Op.run_chain (A : HaikuState → HaikuState → Prop)
    (hA1 : ∀ k : Step, A k.src k.mid) (hA2 : ∀ k : Step, A k.mid k.dst)
    (hA3 : ∀ k : Step, A k.mid .Failed)
    (op : Op) (env : Env) (db : Store) (hkeys : db.KeysUnique)
    (hA4 : ∀ id, op = .MarkAsFailed id → ∀ st, A st .Failed) :
    List.Chain (Write A) db (commits (op.run env db).trace ++ [(op.run env db).db]) := by
  cases op with
  | CreateHaikuFromUnprocessedPost =>
    have h := CreateHaiku_write A env db
    simp only [Op.run, h.1]
    simpa [commits] using h.2
  | ProcessSummary => exact Step.advance_chain A .Summary (hA1 _) (hA2 _) (hA3 _) env db hkeys
  | ProcessHaikuText => exact Step.advance_chain A .HaikuText (hA1 _) (hA2 _) (hA3 _) env db hkeys
  | PostHaiku => exact Step.advance_chain A .Posting (hA1 _) (hA2 _) (hA3 _) env db hkeys
  | MarkAsFailed id =>
    simp only [Op.run]
    exact result_chain A db _ _
      (MarkAsFailed_extends A env (Sess.start db) id (fun r _ _ => hA4 id rfl r.State))

theorem Write.keys {A : HaikuState → HaikuState → Prop} {a b : Store}
    (hk : a.KeysUnique) (hw : Write A a b) : b.KeysUnique := by
  cases hw with
  | same => exact hk
  | update r row hr hid _ _ => exact setRow_KeysUnique a r.ID row hid hk
  | insert row hfresh _ _ =>
    unfold Store.KeysUnique at *
    simp only [List.map_append, List.map_cons, List.map_nil]
    rw [List.nodup_append]
    refine ⟨hk, List.nodup_singleton _, ?_⟩
    intro x hx hx2
    simp only [List.mem_singleton] at hx2
    simp only [List.mem_map] at hx
    obtain ⟨r, hr, rfl⟩ := hx
    exact hfresh r hr hx2

theorem Write.posts {A : HaikuState → HaikuState → Prop} {a b : Store}
    (hw : Write A a b) : b.posts = a.posts := by
  cases hw <;> rfl

theorem Write.evolves {A : HaikuState → HaikuState → Prop} {a b : Store}
    (hrefl : ∀ s, A s s) (hk : a.KeysUnique) (hw : Write A a b) : Evolves A a b := by
  cases hw with
  | same =>
    refine ⟨fun ra hra rb hrb hid => ?_, fun ra hra => ⟨ra, hra, rfl⟩, fun rb hrb hnew => ?_⟩
    · rw [keys_eq a hk rb ra hrb hra hid]; exact hrefl _
    · exact absurd rfl (hnew rb hrb)
  | update r row hr hid _ hA =>
    refine ⟨fun ra hra rb hrb hab => ?_, fun ra hra => ?_, fun rb hrb hnew => ?_⟩
    · simp only [Store.setRow, List.mem_map] at hrb
      obtain ⟨x, hx, rfl⟩ := hrb
      by_cases hc : x.ID = r.ID
      · simp only [hc, if_true] at hab ⊢
        have : ra = r := keys_eq a hk ra r hra hr (by rw [← hab, hid])
        rw [this]; exact hA
      · simp only [hc, if_false] at hab ⊢
        rw [keys_eq a hk x ra hx hra hab]; exact hrefl _
    · by_cases hc : ra.ID = r.ID
      · exact ⟨row, setRow_mem a r.ID row r hr rfl, by rw [hid, hc]⟩
      · refine ⟨ra, ?_, rfl⟩
        simp only [Store.setRow, List.mem_map]
        exact ⟨ra, hra, by simp [hc]⟩
    · simp only [Store.setRow, List.mem_map] at hrb
      obtain ⟨x, hx, rfl⟩ := hrb
      by_cases hc : x.ID = r.ID
      · simp only [hc, if_true] at hnew
        exact absurd hid.symm (hnew r hr)
      · simp only [hc, if_false] at hnew
        exact absurd rfl (hnew x hx)
  | insert row hfresh _ hst =>
    refine ⟨fun ra hra rb hrb hab => ?_, fun ra hra => ?_, fun rb hrb hnew => ?_⟩
    · simp only [List.mem_append, List.mem_singleton] at hrb
      rcases hrb with hrb | hrb
      · rw [keys_eq a hk rb ra hrb hra hab]; exact hrefl _
      · subst hrb; exact absurd hab.symm (hfresh ra hra)
    · exact ⟨ra, by simp [hra], rfl⟩
    · simp only [List.mem_append, List.mem_singleton] at hrb
      rcases hrb with hrb | hrb
      · exact absurd rfl (hnew rb hrb)
      · rw [hrb]; exact hst

theorem Write.onePerPost {A : HaikuState → HaikuState → Prop} {a b : Store}
    (hk : a.KeysUnique) (h1 : AtMostOnePerPost a) (hw : Write A a b) : AtMostOnePerPost b := by
  cases hw with
  | same => exact h1
  | update r row hr hid hpost _ =>
    have hmap : (a.setRow r.ID row).haikus.map (fun x => x.PostID) =
        a.haikus.map (fun x => x.PostID) := by
      simp only [Store.setRow, List.map_map]
      apply List.map_congr_left
      intro x hx
      simp only [Function.comp]
      by_cases hc : x.ID = r.ID
      · simp only [hc, if_true]
        rw [keys_eq a hk x r hx hr hc]; exact hpost
      · simp [hc]
    intro p hp
    rw [hmap]; exact h1 p hp
  | insert row _ hnopost _ =>
    intro p hp
    simp only [List.map_append, List.map_cons, List.map_nil, List.count_append]
    by_cases hc : row.PostID = p.ID
    · have hz : List.count p.ID (a.haikus.map (fun x => x.PostID)) = 0 := by
        rw [List.count_eq_zero]
        intro hmem
        simp only [List.mem_map] at hmem
        obtain ⟨x, hx, hxp⟩ := hmem
        exact hnopost x hx (by rw [hxp, hc])
      rw [hz]; simp [hc]
    · have := h1 p hp
      simp only [List.count_cons, List.count_nil]
      rw [if_neg (by simpa using hc)]
      simpa using this

theorem chain_write (A : HaikuState → HaikuState → Prop) (hrefl : ∀ s, A s s)
    (l : List Store) (a : Store) (hk : a.KeysUnique) (hc : List.Chain (Write A) a l) :
    List.Chain (Evolves A) a l ∧ (l.getLastD a).KeysUnique ∧
      (AtMostOnePerPost a → AtMostOnePerPost (l.getLastD a)) := by
  induction l generalizing a with
  | nil => exact ⟨List.Chain.nil, hk, fun h => h⟩
  | cons b l ih =>
    rw [List.chain_cons] at hc
    obtain ⟨h1, h2, h3⟩ := ih b (hc.1.keys hk) hc.2
    rw [List.getLastD_cons]
    exact ⟨List.Chain.cons (hc.1.evolves hrefl hk) h1, h2,
      fun h => h3 (hc.1.onePerPost hk h)⟩

theorem runOps_eq (ops : List (Op × Env)) (db : Store) :
    runOps ops db = (history ops db).getLastD db := by
  induction ops generalizing db with
  | nil => rfl
  | cons x rest ih =>
    obtain ⟨op, env⟩ := x
    simp only [runOps, history]
    rw [ih, getLastD_append_last, List.getLastD_cons]

theorem history_chain (A : HaikuState → HaikuState → Prop) (hrefl : ∀ s, A s s)
    (hA1 : ∀ k : Step, A k.src k.mid) (hA2 : ∀ k : Step, A k.mid k.dst)
    (hA3 : ∀ k : Step, A k.mid .Failed)
    (ops : List (Op × Env)) (db : Store) (hk : db.KeysUnique)
    (hA4 : ∀ x ∈ ops, ∀ id, x.1 = .MarkAsFailed id → ∀ st, A st .Failed) :
    List.Chain (Write A) db (history ops db) := by
  induction ops generalizing db with
  | nil => exact List.Chain.nil
  | cons x rest ih =>
    obtain ⟨op, env⟩ := x
    simp only [history]
    have hop := Op.run_chain A hA1 hA2 hA3 op env db hk
      (fun id hid => hA4 (op, env) (List.mem_cons_self _ _) id hid)
    rw [List.chain_split]
    refine ⟨hop, ih _ ?_ (fun y hy => hA4 y (List.mem_cons_of_mem _ hy))⟩
    have := (chain_write A hrefl _ db hk hop).2.1
    rwa [List.getLastD_concat] at this

theorem StrictMove.loose {s s' : HaikuState} (h : StrictMove s s') : LooseMove s s' := by
  rcases h with h | h | h
  · exact Or.inl h
  · exact Or.inr (Or.inl h)
  · exact Or.inr (Or.inr h.1)

/-! ## The race -/

/-- An invocation left alone performs `Step.process`. -/
theorem Thread.act_solo (k : Step) (env : Env) (g : Haiku) (db : Store) (n : Nat)
    (t : List Event) :
    let a1 := Thread.act k env g db { pc := .checkout, ops := n, trace := t }
    let a2 := Thread.act k env g a1.1 a1.2
    let a3 := Thread.act k env g a2.1 a2.2
    a3.1 = (k.process env { db := db, ops := n, trace := t } g).db ∧
    a3.2.trace = (k.process env { db := db, ops := n, trace := t } g).trace ∧
    a3.2.pc = .finished (k.process env { db := db, ops := n, trace := t } g).err := by
  simp only [Thread.act, Step.process]
  rcases SafeUpdate env { db := db, ops := n, trace := t } { g with State := k.mid } k.src
    with ⟨s1, _ | e1⟩
  · simp only [Thread.act, Sess.emit]
    cases k.external env { g with State := k.mid } with
    | error err => simp [Sess.result]
    | ok next => simp [Sess.result]
  · simp [Thread.act, Sess.result]

theorem Step.mid_ne_src (k : Step) : k.mid ≠ k.src := by cases k <;> decide

theorem Step.dst_ne_src (k : Step) : k.dst ≠ k.src := by cases k <;> decide

theorem Step.failed_ne_src (k : Step) : HaikuState.Failed ≠ k.src := by cases k <;> decide

theorem Lost.of_rollback (k : Step) (env : Env) (n : Nat) (e : Error)
    (hconf : (∀ j, env.dbFault j = none) → ∃ got, got ≠ k.src ∧
      e = .Errorf ("unexpected state: required " ++ k.src.Value ++ ", got " ++ got.Value)) :
    Lost k env { pc := .finished (some e), ops := n, trace := [] ++ [.txBegin, .txRollback] } :=
  ⟨e, rfl, by simp [commits], by simp [externalCalls], hconf⟩

/-- A fresh invocation acting on a store in which the haiku is no longer in
the source state loses. -/
theorem fresh_loses (k : Step) (env : Env) (g : Haiku) (db : Store)
    (hkeys : db.KeysUnique) (hrow : ∃ r ∈ db.haikus, r.ID = g.ID)
    (hne : ∀ r ∈ db.haikus, r.ID = g.ID → r.State ≠ k.src) (hl : g.Linked db.posts) :
    (Thread.act k env g db { pc := .checkout, ops := 1, trace := [] }).1 = db ∧
    Lost k env (Thread.act k env g db { pc := .checkout, ops := 1, trace := [] }).2 := by
  simp only [Thread.act]
  rcases SafeUpdate_cases env { db := db, ops := 1, trace := [] } { g with State := k.mid } k.src
    hl with ⟨n1, e, hs⟩ | ⟨r, hr, hid, hst, _⟩
  · rw [hs]
    refine ⟨rfl, Lost.of_rollback k env n1 e (fun hnf => ?_)⟩
    obtain ⟨r, hr, hid⟩ := hrow
    have hc := SafeUpdate_conflict env db 1 [] { g with State := k.mid } k.src r hkeys hr hid
      (hne r hr hid) (hnf _)
    rw [hc] at hs
    simp only [Prod.mk.injEq, Option.some.injEq] at hs
    exact ⟨r.State, hne r hr hid, hs.2.symm⟩
  · exact absurd hst (hne r hr hid)

/-- A fresh invocation acting on the initial store either fails on a
persistence fault, leaving the store alone, or wins. -/
theorem fresh_first (k : Step) (env : Env) (db0 : Store) (H : HaikuRow)
    (hkeys : db0.KeysUnique) (hH : H ∈ db0.haikus) (hst : H.State = k.src) :
    ((Thread.act k env (preloadPost db0 H) db0 { pc := .checkout, ops := 1, trace := [] }).1 = db0 ∧
      Lost k env
        (Thread.act k env (preloadPost db0 H) db0 { pc := .checkout, ops := 1, trace := [] }).2 ∧
      ¬ (∀ j, env.dbFault j = none)) ∨
    ((Thread.act k env (preloadPost db0 H) db0 { pc := .checkout, ops := 1, trace := [] }).1 =
        db0.setRow H.ID { H with State := k.mid } ∧
      Won k db0 H
        (Thread.act k env (preloadPost db0 H) db0 { pc := .checkout, ops := 1, trace := [] }).2) := by
  simp only [Thread.act]
  rcases SafeUpdate_cases env { db := db0, ops := 1, trace := [] }
    { preloadPost db0 H with State := k.mid } k.src (preloadPost_linked db0 H) with
    ⟨n1, e, hs⟩ | ⟨r, hr, hid, _, hs⟩
  · left
    have hfault : ¬ (∀ j, env.dbFault j = none) := by
      intro hnf
      have hok := SafeUpdate_ok env db0 1 [] { preloadPost db0 H with State := k.mid } k.src H
        hkeys hH rfl hst (preloadPost_linked db0 H) (hnf _) (hnf _) (hnf _)
      rw [hok] at hs
      simp at hs
    rw [hs]
    exact ⟨rfl, Lost.of_rollback k env n1 e (fun hnf => absurd hnf hfault), hfault⟩
  · right
    rw [hs]
    exact ⟨rfl, by simp, ⟨[], rfl⟩⟩

/-- The later actions of the winner keep its check-out commit at the head of
its trace and never put the haiku back into the source state. -/
theorem winner_acts (k : Step) (env : Env) (db0 db : Store) (H : HaikuRow) (t : Thread)
    (hkeys : db.KeysUnique) (hrow : ∃ r ∈ db.haikus, r.ID = H.ID)
    (hne : ∀ r ∈ db.haikus, r.ID = H.ID → r.State ≠ k.src) (hwon : Won k db0 H t)
    (hposts : db.posts = db0.posts) :
    (Thread.act k env (preloadPost db0 H) db t).1.KeysUnique ∧
    (∃ r ∈ (Thread.act k env (preloadPost db0 H) db t).1.haikus, r.ID = H.ID) ∧
    (∀ r ∈ (Thread.act k env (preloadPost db0 H) db t).1.haikus, r.ID = H.ID → r.State ≠ k.src) ∧
    Won k db0 H (Thread.act k env (preloadPost db0 H) db t).2 ∧
    (Thread.act k env (preloadPost db0 H) db t).1.posts = db0.posts := by
  obtain ⟨hpc, rest, htr⟩ := hwon
  obtain ⟨pc, ops, trace⟩ := t
  simp only at hpc htr
  subst htr
  obtain ⟨r0, hr0, hr0id⟩ := hrow
  cases pc with
  | checkout => exact absurd rfl hpc
  | calling =>
    simp only [Thread.act]
    exact ⟨hkeys, ⟨r0, hr0, hr0id⟩, hne, ⟨by simp, ⟨_, List.append_assoc _ _ _⟩⟩, hposts⟩
  | finished e =>
    simp only [Thread.act]
    exact ⟨hkeys, ⟨r0, hr0, hr0id⟩, hne, ⟨by simp, ⟨rest, rfl⟩⟩, hposts⟩
  | finishing =>
    simp only [Thread.act]
    cases hx : k.external env { preloadPost db0 H with State := k.mid } with
    | error err =>
      simp only []
      have hfst := markFailedAndReturn_fst env
        { db := db, ops := ops,
          trace := [.txBegin, .txCommit (db0.setRow H.ID { H with State := k.mid })] ++ rest }
        (preloadPost db0 H).ID err
      rcases hm : markFailedAndReturn env
        { db := db, ops := ops,
          trace := [.txBegin, .txCommit (db0.setRow H.ID { H with State := k.mid })] ++ rest }
        (preloadPost db0 H).ID err with ⟨s2, e2⟩
      rw [hm] at hfst
      simp only at hfst
      rcases MarkAsFailed_cases env
        { db := db, ops := ops,
          trace := [.txBegin, .txCommit (db0.setRow H.ID { H with State := k.mid })] ++ rest }
        (preloadPost db0 H).ID with ⟨n1, e, hs⟩ | ⟨r, hr, hid, hs⟩
      · rw [hs] at hfst
        subst hfst
        exact ⟨hkeys, ⟨r0, hr0, hr0id⟩, hne, ⟨by simp, ⟨_, List.append_assoc _ _ _⟩⟩, hposts⟩
      · rw [hs] at hfst
        subst hfst
        refine ⟨setRow_KeysUnique _ _ _ hid hkeys, ⟨_, setRow_mem _ _ _ r hr hid, hid⟩, ?_,
          ⟨by simp, ⟨_, List.append_assoc _ _ _⟩⟩, hposts⟩
        intro x hx hxid
        rw [setRow_eq_of_mem _ _ _ x hx hxid]
        exact k.failed_ne_src
    | ok next =>
      simp only []
      obtain ⟨hnid, _, _, hnst⟩ := Step.external_ok k env _ _ hx
      rcases SafeUpdate_cases env
        { db := db, ops := ops,
          trace := [.txBegin, .txCommit (db0.setRow H.ID { H with State := k.mid })] ++ rest }
        next k.mid (Step.external_linked k env _ next _ hx
          (by rw [hposts]; exact preloadPost_linked db0 H)) with
        ⟨n1, e, hs⟩ | ⟨r, hr, hid, _, hs⟩
      · rw [hs]
        exact ⟨hkeys, ⟨r0, hr0, hr0id⟩, hne, ⟨by simp, ⟨_, List.append_assoc _ _ _⟩⟩, hposts⟩
      · rw [hs]
        have hnH : next.ID = H.ID := hnid
        refine ⟨setRow_KeysUnique _ _ _ rfl hkeys,
          ⟨_, setRow_mem _ _ _ r hr hid, hnH⟩, ?_,
          ⟨by simp, ⟨_, List.append_assoc _ _ _⟩⟩, hposts⟩
        intro x hx hxid
        rw [setRow_eq_of_mem _ _ _ x hx (hxid.trans hnH.symm)]
        show next.State ≠ k.src
        rw [hnst]; exact k.dst_ne_src

/-- A finished invocation does nothing more. -/
theorem lost_acts (k : Step) (env env2 : Env) (g : Haiku) (db : Store) (t : Thread)
    (hl : Lost k env t) : Thread.act k env2 g db t = (db, t) := by
  obtain ⟨e, hpc, _⟩ := hl
  obtain ⟨pc, ops, trace⟩ := t
  simp only at hpc
  subst hpc
  rfl

theorem RaceInv.again (k : Step) (n : Nat) (envs : Nat → Env) (db0 : Store) (H : HaikuRow)
    (sys : System) (ran : List Nat) (i : Nat) (hi : i ∈ ran ∨ ¬ i < n)
    (hinv : RaceInv k n envs db0 H sys ran) : RaceInv k n envs db0 H sys (i :: ran) := by
  obtain ⟨hkeys, hrow, hinit, hphase⟩ := hinv
  have hmem : ∀ j < n, j ∈ i :: ran → j ∈ ran := by
    intro j hj hjr
    rcases List.mem_cons.mp hjr with h | h
    · rcases hi with hi | hi
      · rw [h]; exact hi
      · rw [h] at hj; exact absurd hj hi
    · exact h
  refine ⟨hkeys, hrow, fun j hj => hinit j (fun h => hj (List.mem_cons_of_mem _ h)), ?_⟩
  rcases hphase with ⟨hdb, hlost, hnf⟩ | ⟨w, hw, hwran, hwon, hne, hlost⟩
  · exact Or.inl ⟨hdb, fun j hj hjr => hlost j hj (hmem j hj hjr),
      fun hall j hj hjr => hnf hall j hj (hmem j hj hjr)⟩
  · exact Or.inr ⟨w, hw, List.mem_cons_of_mem _ hwran, hwon, hne,
      fun j hj hjr hjw => hlost j hj (hmem j hj hjr) hjw⟩

theorem RaceInv.step (k : Step) (n : Nat) (envs : Nat → Env) (db0 : Store) (H : HaikuRow)
    (hk0 : db0.KeysUnique) (hH : H ∈ db0.haikus) (hst : H.State = k.src)
    (sys : System) (ran : List Nat) (i : Nat) (hinv : RaceInv k n envs db0 H sys ran) :
    RaceInv k n envs db0 H (System.step k n envs (preloadPost db0 H) sys i) (i :: ran) := by
  unfold System.step
  by_cases hi : i < n
  swap
  · simp only [hi, if_false]
    exact RaceInv.again k n envs db0 H sys ran i (Or.inr hi) hinv
  simp only [hi, if_true]
  have hagain := RaceInv.again k n envs db0 H sys ran i
  obtain ⟨⟨hkeys, hposts⟩, hrow, hinit, hphase⟩ := hinv
  obtain ⟨db, threads⟩ := sys
  simp only at hkeys hposts hrow hinit hphase hagain ⊢
  have hfresh : ∀ j, j ∉ i :: ran → Function.update threads i
      (Thread.act k (envs i) (preloadPost db0 H) db (threads i)).2 j =
      { pc := .checkout, ops := 1, trace := [] } := by
    intro j hj
    have hji : j ≠ i := fun h => hj (h ▸ List.mem_cons_self _ _)
    rw [Function.update_noteq hji]
    exact hinit j (fun h => hj (List.mem_cons_of_mem _ h))
  by_cases hran : i ∈ ran
  · -- invocation `i` has acted before
    have hnoop : Lost k (envs i) (threads i) →
        RaceInv k n envs db0 H
          { db := (Thread.act k (envs i) (preloadPost db0 H) db (threads i)).1,
            threads := Function.update threads i
              (Thread.act k (envs i) (preloadPost db0 H) db (threads i)).2 } (i :: ran) := by
      intro hl
      rw [lost_acts k (envs i) (envs i) (preloadPost db0 H) db _ hl]
      simp only [Function.update_eq_self]
      exact hagain (Or.inl hran) ⟨⟨hkeys, hposts⟩, hrow, hinit, hphase⟩
    rcases hphase with ⟨hdb, hlost, hnf⟩ | ⟨w, hw, hwran, hwon, hne, hlost⟩
    · exact hnoop (hlost i hi hran)
    · by_cases hiw : i = w
      · subst hiw
        obtain ⟨h1, h2, h3, h4, h5⟩ :=
          winner_acts k (envs i) db0 db H (threads i) hkeys hrow hne hwon hposts
        refine ⟨⟨h1, h5⟩, h2, hfresh, Or.inr ⟨i, hi, List.mem_cons_self _ _, ?_, h3, ?_⟩⟩
        · simp only [Function.update_same]; exact h4
        · intro j hj hjr hji
          simp only [Function.update_noteq hji]
          rcases List.mem_cons.mp hjr with h | h
          · exact absurd h hji
          · exact hlost j hj h hji
      · exact hnoop (hlost i hi hran hiw)
  · -- invocation `i` acts for the first time
    have hti := hinit i hran
    rcases hphase with ⟨hdb, hlost, hnf⟩ | ⟨w, hw, hwran, hwon, hne, hlost⟩
    · subst hdb
      have hff := fresh_first k (envs i) db H hkeys hH hst
      rw [← hti] at hff
      rcases hff with ⟨h1, h2, h3⟩ | ⟨h1, h2⟩
      · rw [h1]
        refine ⟨⟨hkeys, hposts⟩, hrow, ?_, Or.inl ⟨rfl, ?_, ?_⟩⟩
        · exact hfresh
        · intro j hj hjr
          by_cases hji : j = i
          · subst hji; simp only [Function.update_same]; exact h2
          · simp only [Function.update_noteq hji]
            rcases List.mem_cons.mp hjr with h | h
            · exact absurd h hji
            · exact hlost j hj h
        · intro hall
          exact absurd (hall i hi) h3
      · rw [h1]
        refine ⟨⟨setRow_KeysUnique _ _ _ rfl hkeys, hposts⟩,
          ⟨_, setRow_mem _ _ _ H hH rfl, rfl⟩, ?_,
          Or.inr ⟨i, hi, List.mem_cons_self _ _, ?_, ?_, ?_⟩⟩
        · exact hfresh
        · simp only [Function.update_same]; exact h2
        · intro x hx hxid
          rw [setRow_eq_of_mem _ _ _ x hx hxid]
          exact k.mid_ne_src
        · intro j hj hjr hji
          simp only [Function.update_noteq hji]
          rcases List.mem_cons.mp hjr with h | h
          · exact absurd h hji
          · exact hlost j hj h
    · have hiw : i ≠ w := fun h => hran (h ▸ hwran)
      have hfl := fresh_loses k (envs i) (preloadPost db0 H) db hkeys hrow hne
        (by rw [hposts]; exact preloadPost_linked db0 H)
      rw [← hti] at hfl
      obtain ⟨h1, h2⟩ := hfl
      rw [h1]
      refine ⟨⟨hkeys, hposts⟩, hrow, ?_,
        Or.inr ⟨w, hw, List.mem_cons_of_mem _ hwran, ?_, hne, ?_⟩⟩
      · exact hfresh
      · simp only [Function.update_noteq (Ne.symm hiw)]; exact hwon
      · intro j hj hjr hjw
        by_cases hji : j = i
        · subst hji; simp only [Function.update_same]; exact h2
        · simp only [Function.update_noteq hji]
          rcases List.mem_cons.mp hjr with h | h
          · exact absurd h hji
          · exact hlost j hj h hjw

theorem RaceInv.run (k : Step) (n : Nat) (envs : Nat → Env) (db0 : Store) (H : HaikuRow)
    (hk0 : db0.KeysUnique) (hH : H ∈ db0.haikus) (hst : H.State = k.src)
    (sched : List Nat) (sys : System) (ran : List Nat)
    (hinv : RaceInv k n envs db0 H sys ran) :
    RaceInv k n envs db0 H (System.run k n envs (preloadPost db0 H) sched sys)
      (sched.reverse ++ ran) := by
  induction sched generalizing sys ran with
  | nil => exact hinv
  | cons i rest ih =>
    simp only [System.run, List.foldl_cons, List.reverse_cons, List.append_assoc,
      List.singleton_append]
    exact ih _ _ (RaceInv.step k n envs db0 H hk0 hH hst sys ran i hinv)

theorem RaceInv.init (k : Step) (n : Nat) (envs : Nat → Env) (db0 : Store) (H : HaikuRow)
    (hk0 : db0.KeysUnique) (hH : H ∈ db0.haikus) :
    RaceInv k n envs db0 H (System.init db0) [] :=
  ⟨⟨hk0, rfl⟩, ⟨H, hH, rfl⟩, fun _ _ => rfl,
    Or.inl ⟨rfl, fun _ _ h => absurd h (List.not_mem_nil _), fun _ _ _ => List.not_mem_nil _⟩⟩

/-- The race of the witness of C2, evaluated: invocation 0 commits its
check-out and goes on to `summary_got`; invocation 1 meets `summary_getting`
and returns the conflict without committing. -/
theorem race_example :
    let sys := System.run .Summary 2 (fun _ => calmEnv)
      (preloadPost (sampleStore .Created) (sampleRow .Created)) [0, 1, 0, 1, 0]
      (System.init (sampleStore .Created))
    (sys.threads 0).pc = .finished none ∧
    (sys.threads 1).pc = .finished (some (.Errorf
      "unexpected state: required created, got summary_getting")) ∧
    (sys.threads 1).trace = [.txBegin, .txRollback] ∧
    sys.db.haikus = [⟨"h1", .SummaryGot, some "summary of hello", some "txt", "p1", 2⟩] := by
  decide

/-! ## Selection order -/

theorem oldest_lex {α : Type} (c : α → Time) (k : α → String) (l : List α) (m : α)
    (h : oldest c k l = some m) :
    ∀ x ∈ l, c m < c x ∨ (c m = c x ∧ k m ≤ k x) := by
  induction l generalizing m with
  | nil => simp
  | cons a l ih =>
    unfold oldest at h
    cases hrec : oldest c k l with
    | none =>
      simp [hrec] at h
      subst h
      rw [(oldest_eq_none c k l).mp hrec]
      intro x hx
      simp only [List.mem_singleton] at hx
      subst hx
      exact Or.inr ⟨rfl, le_refl _⟩
    | some m0 =>
      simp only [hrec] at h
      have ih0 := ih m0 hrec
      split at h
      · rename_i hc
        simp at h; subst h
        intro x hx
        rcases List.mem_cons.mp hx with hx | hx
        · subst hx; exact Or.inr ⟨rfl, le_refl _⟩
        · rcases hc with hc | ⟨hc1, hc2⟩
          · rcases ih0 x hx with h2 | ⟨h2, _⟩
            · exact Or.inl (lt_trans hc h2)
            · exact Or.inl (h2 ▸ hc)
          · rcases ih0 x hx with h2 | ⟨h2, h3⟩
            · exact Or.inl (hc1 ▸ h2)
            · exact Or.inr ⟨hc1.trans h2, le_trans hc2 h3⟩
      · rename_i hc
        simp at h; subst h
        intro x hx
        rcases List.mem_cons.mp hx with hx | hx
        · subst hx
          simp only [not_or, not_lt, not_and, not_le] at hc
          rcases lt_or_eq_of_le hc.1 with h1 | h1
          · exact Or.inl h1
          · exact Or.inr ⟨h1, le_of_lt (hc.2 h1.symm)⟩
        · exact ih0 x hx

/-! ## Rows left alone -/

theorem setRow_keeps (db : Store) (id : String) (row r : HaikuRow) (hr : r ∈ db.haikus)
    (hne : r.ID ≠ id) : r ∈ (db.setRow id row).haikus := by
  simp only [Store.setRow, List.mem_map]
  exact ⟨r, hr, by simp [hne]⟩

theorem Frames.chain {r : HaikuRow} {s1 s2 s3 : Sess} (h12 : Frames r s1 s2)
    (h23 : Frames r s2 s3) : Frames r s1 s3 := by
  obtain ⟨t1, ht1, hc1, _⟩ := h12
  obtain ⟨t2, ht2, hc2, hd2⟩ := h23
  refine ⟨t1 ++ t2, by rw [ht2, ht1, List.append_assoc], ?_, hd2⟩
  intro d hd
  rw [commits_append, List.mem_append] at hd
  rcases hd with hd | hd
  · exact hc1 d hd
  · exact hc2 d hd

theorem Frames.of_emit (r : HaikuRow) (s : Sess) (e : Event) (hr : r ∈ s.db.haikus)
    (he : commits [e] = []) : Frames r s (s.emit e) :=
  ⟨[e], rfl, by rw [he]; simp, hr⟩

theorem SafeUpdate_frames (env : Env) (s : Sess) (h : Haiku) (S : HaikuState) (r : HaikuRow)
    (hr : r ∈ s.db.haikus) (hne : r.ID ≠ h.ID) (hl : h.Linked s.db.posts) :
    Frames r s (SafeUpdate env s h S).1 := by
  rcases SafeUpdate_cases env s h S hl with ⟨n, e, hs⟩ | ⟨_, _, _, _, hs⟩
  · rw [hs]
    exact ⟨[.txBegin, .txRollback], rfl, by simp [commits], hr⟩
  · rw [hs]
    refine ⟨[.txBegin, .txCommit (s.db.setRow h.ID h.toRow)], rfl, ?_,
      setRow_keeps _ _ _ r hr hne⟩
    intro d hd
    simp only [commits, List.filterMap_cons, List.filterMap_nil, List.mem_singleton] at hd
    rw [hd]; exact setRow_keeps _ _ _ r hr hne

theorem MarkAsFailed_frames (env : Env) (s : Sess) (id : String) (r : HaikuRow)
    (hr : r ∈ s.db.haikus) (hne : r.ID ≠ id) : Frames r s (MarkAsFailed env s id).1 := by
  rcases MarkAsFailed_cases env s id with ⟨n, e, hs⟩ | ⟨x, _, _, hs⟩
  · rw [hs]
    exact ⟨[.txBegin, .txRollback], rfl, by simp [commits], hr⟩
  · rw [hs]
    refine ⟨[.txBegin, .txCommit (s.db.setRow id { x with State := .Failed })], rfl, ?_,
      setRow_keeps _ _ _ r hr hne⟩
    intro d hd
    simp only [commits, List.filterMap_cons, List.filterMap_nil, List.mem_singleton] at hd
    rw [hd]; exact setRow_keeps _ _ _ r hr hne

theorem Step.process_frames (k : Step) (env : Env) (s : Sess) (g : Haiku) (r : HaikuRow)
    (hr : r ∈ s.db.haikus) (hne : r.ID ≠ g.ID) (hl : g.Linked s.db.posts) :
    ∃ s' e, k.process env s g = s'.result e ∧ Frames r s s' := by
  unfold Step.process
  have hx1 := SafeUpdate_frames env s { g with State := k.mid } k.src r hr hne hl
  have hdb := SafeUpdate_db_ok env s { g with State := k.mid } k.src hl
  rcases hres : SafeUpdate env s { g with State := k.mid } k.src with ⟨s1, e1⟩
  rw [hres] at hx1 hdb
  simp only at hx1 hdb
  have hr1 : r ∈ s1.db.haikus := hx1.choose_spec.2.2
  cases e1 with
  | some err => exact ⟨s1, some err, rfl, hx1⟩
  | none =>
    have hl1 : g.Linked s1.db.posts := by rw [hdb rfl]; exact hl
    simp only []
    cases hx : k.external env { g with State := k.mid } with
    | error err =>
      simp only []
      refine ⟨_, _, rfl,
        hx1.chain ((Frames.of_emit r s1 (k.call { g with State := k.mid }) hr1 ?_).chain ?_)⟩
      · cases k <;> rfl
      · rw [markFailedAndReturn_fst]
        exact MarkAsFailed_frames env _ g.ID r hr1 hne
    | ok next =>
      simp only []
      obtain ⟨hnid, _, _, _⟩ := Step.external_ok k env _ _ hx
      refine ⟨_, _, rfl,
        hx1.chain ((Frames.of_emit r s1 (k.call { g with State := k.mid }) hr1 ?_).chain ?_)⟩
      · cases k <;> rfl
      · exact SafeUpdate_frames env _ next k.mid r hr1 (by rw [hnid]; exact hne)
          (Step.external_linked k env _ next _ hx hl1)

theorem Parked.ne_src {s : HaikuState} (h : Parked s) (k : Step) : s ≠ k.src := by
  rcases h with h | h | h | h | h <;> subst h <;> cases k <;> decide

theorem CreateHaiku_appends (env : Env) (db : Store) :
    (CreateHaikuFromUnprocessedPost env db).trace = [] ∧
    ∃ l, (CreateHaikuFromUnprocessedPost env db).db.haikus = db.haikus ++ l := by
  unfold CreateHaikuFromUnprocessedPost FindOldestUnprocessedPost
  cases h0 : env.dbFault (Sess.start db).ops with
  | some e => simp [Sess.start, Sess.tick, Sess.result]
  | none =>
    cases hsel : oldestPost ((Sess.start db).db.posts.filter
      (fun p => !((Sess.start db).db.haikus.any (fun r => r.PostID = p.ID)))) with
    | none => simp [Sess.start, Sess.tick, Sess.result]
    | some P =>
      have hPin : P ∈ db.posts := (List.mem_filter.mp (oldest_mem _ _ _ _ hsel)).1
      have hsb := saveBelongsTo_linked env db ⟨env.uuid, .Created, none, none, P.ID, P, 0⟩
        (Or.inr ⟨rfl, List.any_eq_true.mpr ⟨P, hPin, by simp⟩⟩)
      simp only [Create, Sess.start, Sess.tick, hsb]
      cases h1 : env.dbFault (0 + 1) with
      | some e => simp [Sess.result]
      | none =>
        by_cases hany : db.haikus.any (fun r => r.ID = env.uuid) = true
        · simp [Sess.result, hany]
        · have hany2 : db.haikus.any (fun r => r.ID = env.uuid) = false := by
            simpa using hany
          simp only [hany2, Sess.result]
          exact ⟨rfl, _, rfl⟩

theorem Step.run_frames (k : Step) (env : Env) (db : Store) (r : HaikuRow)
    (hkeys : db.KeysUnique) (hr : r ∈ db.haikus) (hst : r.State ≠ k.src) :
    r ∈ (k.run env db).db.haikus ∧ (∀ d ∈ commits (k.run env db).trace, r ∈ d.haikus) ∧
    (∀ g, (FindOldestByState env (Sess.start db) k.src).2.1 = some g → g.ID ≠ r.ID) := by
  rw [Step.run_eq_advance]
  unfold Step.advance
  rcases FindOldestByState_cases env db k.src with ⟨e, h⟩ | ⟨H, hmem, hHst, _, h⟩
  · simp only [h]
    exact ⟨hr, by simp [Sess.result, commits], by simp⟩
  · simp only [h]
    have hne : r.ID ≠ H.ID := by
      intro hid
      have := keys_eq db hkeys r H hr hmem hid
      rw [this] at hst
      exact hst hHst
    obtain ⟨s', e, hp, tr, ht, hc, hd⟩ := Step.process_frames k env
      { db := db, ops := 1, trace := [] } (preloadPost db H) r hr hne (preloadPost_linked db H)
    rw [hp]
    simp only [List.nil_append] at ht
    refine ⟨hd, by simpa [Sess.result, ht] using hc, ?_⟩
    intro g hg
    simp only [Option.some.injEq] at hg
    rw [← hg]
    exact fun hid => hne hid.symm

/-! ## The shape of a step trace -/

theorem Step.call_isCall (k : Step) (g : Haiku) : externalCalls [k.call g] = [k.call g] := by
  cases k <;> rfl

theorem Step.process_trace (k : Step) (env : Env) (s : Sess) (g : Haiku)
    (hl : g.Linked s.db.posts) :
    ((SafeUpdate env s { g with State := k.mid } k.src).2 ≠ none ∧
      (k.process env s g).trace = s.trace ++ [.txBegin, .txRollback]) ∨
    ((SafeUpdate env s { g with State := k.mid } k.src).2 = none ∧
      ∃ tail, (k.process env s g).trace =
          s.trace ++ [.txBegin,
            .txCommit (s.db.setRow g.ID ({ g with State := k.mid } : Haiku).toRow),
            k.call { g with State := k.mid }] ++ tail ∧
        (tail = [.txBegin, .txRollback] ∨ ∃ d2, tail = [.txBegin, .txCommit d2])) := by
  unfold Step.process
  rcases SafeUpdate_cases env s { g with State := k.mid } k.src hl with
    ⟨n, e, hs⟩ | ⟨r, hr, hid, hst, hs⟩
  · left
    rw [hs]
    exact ⟨by simp, rfl⟩
  · right
    rw [hs]
    refine ⟨rfl, ?_⟩
    simp only [Sess.emit]
    cases hx : k.external env { g with State := k.mid } with
    | error err =>
      simp only []
      have hfst := markFailedAndReturn_fst env
        { db := s.db.setRow g.ID ({ g with State := k.mid } : Haiku).toRow, ops := s.ops + 3,
          trace := s.trace ++
            [.txBegin, .txCommit (s.db.setRow g.ID ({ g with State := k.mid } : Haiku).toRow)] ++
            [k.call { g with State := k.mid }] } g.ID err
      rcases hm : markFailedAndReturn env
        { db := s.db.setRow g.ID ({ g with State := k.mid } : Haiku).toRow, ops := s.ops + 3,
          trace := s.trace ++
            [.txBegin, .txCommit (s.db.setRow g.ID ({ g with State := k.mid } : Haiku).toRow)] ++
            [k.call { g with State := k.mid }] } g.ID err with ⟨s2, e2⟩
      rw [hm] at hfst
      simp only at hfst
      rcases MarkAsFailed_cases env
        { db := s.db.setRow g.ID ({ g with State := k.mid } : Haiku).toRow, ops := s.ops + 3,
          trace := s.trace ++
            [.txBegin, .txCommit (s.db.setRow g.ID ({ g with State := k.mid } : Haiku).toRow)] ++
            [k.call { g with State := k.mid }] } g.ID with ⟨n1, e, hs2⟩ | ⟨x, _, _, hs2⟩
      · rw [hs2] at hfst
        subst hfst
        exact ⟨[.txBegin, .txRollback], by simp [Sess.result], Or.inl rfl⟩
      · rw [hs2] at hfst
        subst hfst
        exact ⟨[.txBegin, .txCommit
            ((s.db.setRow g.ID ({ g with State := k.mid } : Haiku).toRow).setRow g.ID
              { x with State := .Failed })],
          by simp [Sess.result], Or.inr ⟨_, rfl⟩⟩
    | ok next =>
      simp only []
      rcases SafeUpdate_cases env
        { db := s.db.setRow g.ID ({ g with State := k.mid } : Haiku).toRow, ops := s.ops + 3,
          trace := s.trace ++
            [.txBegin, .txCommit (s.db.setRow g.ID ({ g with State := k.mid } : Haiku).toRow)] ++
            [k.call { g with State := k.mid }] } next k.mid
        (Step.external_linked k env _ next _ hx hl) with
        ⟨n1, e, hs2⟩ | ⟨x, _, _, _, hs2⟩
      · rw [hs2]
        exact ⟨[.txBegin, .txRollback], by simp [Sess.result], Or.inl rfl⟩
      · rw [hs2]
        exact ⟨[.txBegin, .txCommit
            ((s.db.setRow g.ID ({ g with State := k.mid } : Haiku).toRow).setRow next.ID
              next.toRow)],
          by simp [Sess.result], Or.inr ⟨_, rfl⟩⟩

/-! ## The retry loop of `callHuggingFaceModel` -/

theorem sleepsOf_retryLog (b : Duration) (i n : Nat) :
    sleepsOf (retryLog b i n) = (List.range n).map (fun k => b * 2 ^ k) := by
  induction n generalizing b i with
  | zero => rfl
  | succ n ih =>
    have h : sleepsOf (retryLog b i (n + 1)) = b :: sleepsOf (retryLog (b * 2) (i + 1) n) := rfl
    rw [h, ih, List.range_succ_eq_map, List.map_cons, List.map_map]
    simp only [pow_zero, mul_one, List.cons.injEq, true_and]
    apply List.map_congr_left
    intro k _
    simp only [Function.comp, pow_succ]
    ring

theorem requestsOf_retryLog (b : Duration) (i n : Nat) :
    requestsOf (retryLog b i n) = n + 1 := by
  induction n generalizing b i with
  | zero => rfl
  | succ n ih =>
    have h : requestsOf (retryLog b i (n + 1)) = requestsOf (retryLog (b * 2) (i + 1) n) + 1 :=
      rfl
    rw [h, ih]

theorem hfLoop_spec (net : Net) (fuel : Nat) :
    ∀ (i : Nat) (b : Duration) (le : Option Error) (log : List NetEvent),
      i + fuel = 6 → 1 ≤ fuel →
      ∃ n, i + n ≤ 5 ∧
        (∀ m < n, ∃ e, hfAttempt net (net.exchange (i + m)) = .retry e) ∧
        ((∃ v, hfAttempt net (net.exchange (i + n)) = .value v ∧
            hfLoop net 5 fuel i b le log =
              { value := v, err := none, log := log ++ retryLog b i n }) ∨
         (∃ e, hfAttempt net (net.exchange (i + n)) = .fatal e ∧
            hfLoop net 5 fuel i b le log =
              { value := "", err := some e, log := log ++ retryLog b i n }) ∨
         (∃ e, i + n = 5 ∧ hfAttempt net (net.exchange (i + n)) = .retry e ∧
            hfLoop net 5 fuel i b le log =
              { value := "", err := some e, log := log ++ retryLog b i n })) := by
  induction fuel with
  | zero => intro i b le log _ h; omega
  | succ fuel ih =>
    intro i b le log hsum _
    cases hA : hfAttempt net (net.exchange i) with
    | value v =>
      exact ⟨0, by omega, by simp, Or.inl ⟨v, hA, by simp [hfLoop, hA, retryLog]⟩⟩
    | fatal e =>
      exact ⟨0, by omega, by simp, Or.inr (Or.inl ⟨e, hA, by simp [hfLoop, hA, retryLog]⟩)⟩
    | retry e =>
      by_cases hi : i < 5
      · obtain ⟨n, hn, hpre, hcase⟩ := ih (i + 1) (b * 2) (some e) (log ++ [.request i, .sleep b])
          (by omega) (by omega)
        have hstep : hfLoop net 5 (fuel + 1) i b le log =
            hfLoop net 5 fuel (i + 1) (b * 2) (some e) (log ++ [.request i, .sleep b]) := by
          simp [hfLoop, hA, hi]
        have hlog : log ++ [NetEvent.request i, NetEvent.sleep b] ++ retryLog (b * 2) (i + 1) n =
            log ++ retryLog b i (n + 1) := by
          simp [retryLog]
        have hidx : i + 1 + n = i + (n + 1) := by omega
        refine ⟨n + 1, by omega, ?_, ?_⟩
        · intro m hm
          cases m with
          | zero => exact ⟨e, hA⟩
          | succ m =>
            have := hpre m (by omega)
            rwa [show i + 1 + m = i + (m + 1) by omega] at this
        · rw [hstep, ← hidx, ← hlog]
          rcases hcase with ⟨v, h1, h2⟩ | ⟨e', h1, h2⟩ | ⟨e', h0, h1, h2⟩
          · exact Or.inl ⟨v, h1, h2⟩
          · exact Or.inr (Or.inl ⟨e', h1, h2⟩)
          · exact Or.inr (Or.inr ⟨e', h0, h1, h2⟩)
      · have hi5 : i = 5 := by omega
        have hf0 : fuel = 0 := by omega
        subst hf0
        exact ⟨0, by omega, by simp,
          Or.inr (Or.inr ⟨e, by omega, hA, by simp [hfLoop, hA, hi, retryLog]⟩)⟩

theorem callHuggingFaceModel_cases (net : Net) :
    ∃ n ≤ 5,
      (∀ m < n, ∃ e, hfAttempt net (net.exchange m) = .retry e) ∧
      (callHuggingFaceModel net).log = retryLog Second 0 n ∧
      ((∃ v, hfAttempt net (net.exchange n) = .value v ∧
          (callHuggingFaceModel net).value = v ∧ (callHuggingFaceModel net).err = none) ∨
       (∃ e, hfAttempt net (net.exchange n) = .fatal e ∧
          (callHuggingFaceModel net).value = "" ∧ (callHuggingFaceModel net).err = some e) ∨
       (∃ e, n = 5 ∧ hfAttempt net (net.exchange n) = .retry e ∧
          (callHuggingFaceModel net).value = "" ∧ (callHuggingFaceModel net).err = some e)) := by
  obtain ⟨n, hn, hpre, hcase⟩ := hfLoop_spec net 6 0 (1 * Second) none [] rfl (by omega)
  simp only [Nat.zero_add, one_mul, List.nil_append] at hn hpre hcase
  refine ⟨n, hn, hpre, ?_, ?_⟩
  · unfold callHuggingFaceModel
    rcases hcase with ⟨v, _, h2⟩ | ⟨e, _, h2⟩ | ⟨e, _, _, h2⟩ <;> simp [h2]
  · unfold callHuggingFaceModel
    rcases hcase with ⟨v, h1, h2⟩ | ⟨e, h1, h2⟩ | ⟨e, h0, h1, h2⟩
    · exact Or.inl ⟨v, h1, by simp [h2]⟩
    · exact Or.inr (Or.inl ⟨e, h1, by simp [h2]⟩)
    · exact Or.inr (Or.inr ⟨e, h0, h1, by simp [h2]⟩)

theorem JSON.asString_eq_some (x : Option JSON) (v : String) :
    JSON.asString x = some v ↔ x = some (.str v) := by
  cases x with
  | none => simp [JSON.asString]
  | some j => cases j <;> simp [JSON.asString]

theorem hfAttempt_fatal_iff (net : Net) (x : Exchange) (e : Error) :
    hfAttempt net x = .fatal e ↔
      (∃ h body, x = .response 429 h body) ∧
        e = .Errorf "rate limit exceeded, try again later" := by
  cases x with
  | doErr err => simp [hfAttempt]
  | readErr err => simp [hfAttempt]
  | response status h body =>
    simp only [hfAttempt]
    by_cases h429 : status = 429
    · subst h429
      simp only [if_true, Attempt.fatal.injEq, Exchange.response.injEq, true_and]
      constructor
      · intro he; exact ⟨⟨h, body, rfl, rfl⟩, he.symm⟩
      · intro he; exact he.2.symm
    · simp only [h429, if_false]
      have hno : ¬ ∃ h' body', Exchange.response status h body = Exchange.response 429 h' body' := by
        rintro ⟨h', body', heq⟩
        simp only [Exchange.response.injEq] at heq
        exact h429 heq.1
      simp only [hno, false_and, iff_false]
      split_ifs
      · simp
      · simp
      · split
        · split
          · simp
          · split <;> simp
        · simp

theorem hfAttempt_value_iff (net : Net) (x : Exchange) (v : String) :
    hfAttempt net x = .value v ↔
      ∃ h body first rest, x = .response 200 h body ∧
        (net.jsonDecode body).bind unmarshalMaps = some (first :: rest) ∧
        (JSON.field first "summary_text" = some (.str v) ∨
          (JSON.asString (JSON.field first "summary_text") = none ∧
            JSON.field first "generated_text" = some (.str v))) := by
  cases x with
  | doErr err => simp [hfAttempt]
  | readErr err => simp [hfAttempt]
  | response status h body =>
    simp only [hfAttempt]
    by_cases h429 : status = 429
    · subst h429; simp
    by_cases h503 : status = 503
    · subst h503; simp
    by_cases h200 : status = 200
    swap
    · simp only [h429, h503, if_false, ne_eq, h200, not_false_eq_true, if_true]
      simp only [Exchange.response.injEq]
      constructor
      · intro hc; cases hc
      · rintro ⟨_, _, _, _, ⟨hs, _, _⟩, _⟩; exact absurd hs h200
    · subst h200
      simp only [h429, h503, if_false, ne_eq, not_true_eq_false]
      cases hd : (net.jsonDecode body).bind unmarshalMaps with
      | none =>
        simp only [Exchange.response.injEq]
        constructor
        · intro hc; cases hc
        · rintro ⟨_, body', _, _, ⟨_, _, hb⟩, hdec, _⟩
          rw [← hb, hd] at hdec; cases hdec
      | some l =>
        cases l with
        | nil =>
          simp only [Exchange.response.injEq]
          constructor
          · intro hc; cases hc
          · rintro ⟨_, body', _, _, ⟨_, _, hb⟩, hdec, _⟩
            rw [← hb, hd] at hdec; cases hdec
        | cons first rest =>
          simp only [Exchange.response.injEq]
          cases hs : JSON.asString (JSON.field first "summary_text") with
          | some s =>
            have hs' := (JSON.asString_eq_some _ _).mp hs
            simp only [Attempt.value.injEq]
            constructor
            · intro hsv
              subst hsv
              exact ⟨h, body, first, rest, ⟨trivial, rfl, rfl⟩, hd, Or.inl hs'⟩
            · rintro ⟨_, body', first', rest', ⟨_, _, hb⟩, hdec, hcase⟩
              rw [← hb, hd] at hdec
              simp only [Option.some.injEq, List.cons.injEq] at hdec
              obtain ⟨hf, _⟩ := hdec
              subst hf
              rcases hcase with hc | ⟨hc, _⟩
              · rw [hs'] at hc
                simp only [Option.some.injEq, JSON.str.injEq] at hc
                exact hc
              · rw [hs] at hc; cases hc
          | none =>
            simp only []
            cases hg : JSON.asString (JSON.field first "generated_text") with
            | some s =>
              have hg' := (JSON.asString_eq_some _ _).mp hg
              simp only [Attempt.value.injEq]
              constructor
              · intro hsv
                subst hsv
                exact ⟨h, body, first, rest, ⟨trivial, rfl, rfl⟩, hd, Or.inr ⟨hs, hg'⟩⟩
              · rintro ⟨_, body', first', rest', ⟨_, _, hb⟩, hdec, hcase⟩
                rw [← hb, hd] at hdec
                simp only [Option.some.injEq, List.cons.injEq] at hdec
                obtain ⟨hf, _⟩ := hdec
                subst hf
                rcases hcase with hc | ⟨_, hc⟩
                · rw [hc] at hs; simp [JSON.asString] at hs
                · rw [hg'] at hc
                  simp only [Option.some.injEq, JSON.str.injEq] at hc
                  exact hc
            | none =>
              simp only []
              constructor
              · intro hc; cases hc
              · rintro ⟨_, body', first', rest', ⟨_, _, hb⟩, hdec, hcase⟩
                rw [← hb, hd] at hdec
                simp only [Option.some.injEq, List.cons.injEq] at hdec
                obtain ⟨hf, _⟩ := hdec
                subst hf
                rcases hcase with hc | ⟨_, hc⟩
                · rw [hc] at hs; simp [JSON.asString] at hs
                · rw [hc] at hg; simp [JSON.asString] at hg

/-- The call on `flakyNet`, evaluated: two failed attempts, each followed by
its sleep, then the value of the third. -/
theorem callHuggingFaceModel_flaky :
    callHuggingFaceModel flakyNet =
      { value := "old pond", err := none,
        log := [.request 0, .sleep 1000000000, .request 1, .sleep 2000000000, .request 2] } := by
  decide

/-! ## What a 429 costs in `FetchPosts` -/

theorem timeUntil_eq (T now : Int) (hT : -(2 ^ 62) ≤ T) (hT2 : T < 2 ^ 62)
    (hd : -(2 ^ 63) ≤ T * Second - now) (hd2 : T * Second - now < 2 ^ 63) :
    timeUntil T now = T * Second - now := by
  have hw : wrap64 (T + 62135596800) = T + 62135596800 := by
    unfold wrap64
    norm_num at hT hT2 ⊢
    omega
  have hnow : now / 1000000000 * 1000000000 + now % 1000000000 = now :=
    Int.ediv_add_emod' now 1000000000
  have hval : (T + 62135596800 - (now / 1000000000 + 62135596800)) * 1000000000 -
      now % 1000000000 = T * Second - now := by
    unfold Second
    linarith
  unfold timeUntil
  simp only [hw, hval]
  rw [if_pos ⟨hd, hd2⟩]

/-- A reset time so far ahead that the addition of `time.Unix` overflows lies
in the past for `time.Until`: nothing is slept for it. -/
theorem timeUntil_overflow :
    timeUntil 9223372036854775807 (100 * Second) = -(2 ^ 63) ∧
    timeUntil 130 (100 * Second) = 30 * Second := by
  decide

theorem fetchTurn_429_reset (net : Net)
    (mp : List (String × JSON) → List Post × Option Error) (maxRetries i : Nat)
    (backoff : Duration) (h : String → String) (body : String) (T : Int)
    (hh : h "x-rate-limit-reset" ≠ "") (hp : ParseInt (h "x-rate-limit-reset") = some T)
    (hi : i < maxRetries) :
    fetchTurn net mp maxRetries i backoff (.response 429 h body) =
      .again (some (.Errorf ("too many requests: " ++ body))) (backoff * 2)
        ((if timeUntil T (net.clock i) > 0 then [timeUntil T (net.clock i)] else []) ++
          [backoff]) := by
  simp only [fetchTurn, if_true, hh, ne_eq, not_false_eq_true, hp]
  split <;> simp [fetchTurnEnd, hi]

theorem fetchTurn_429_bare (net : Net)
    (mp : List (String × JSON) → List Post × Option Error) (maxRetries i : Nat)
    (backoff : Duration) (h : String → String) (body : String)
    (hh : h "x-rate-limit-reset" = "" ∨ ParseInt (h "x-rate-limit-reset") = none)
    (hi : i < maxRetries) :
    fetchTurn net mp maxRetries i backoff (.response 429 h body) =
      .again (some (.Errorf ("too many requests: " ++ body))) (backoff * 2 * 2)
        [backoff, backoff * 2] := by
  simp only [fetchTurn, if_true]
  by_cases he : h "x-rate-limit-reset" = ""
  · simp [he, fetchTurnEnd, hi]
  · rcases hh with hh | hh
    · exact absurd hh he
    · simp [he, hh, fetchTurnEnd, hi]

/-! ## The limiter and contexts -/

theorem Limiter.Wait_done (lim : Limiter) (now : ℚ) (ctx : Ctx) (hb : 1 ≤ lim.burst)
    (hd : ctx.done = true) :
    lim.Wait now ctx = (lim, now, some (.foreign "context canceled")) := by
  have hnb : ¬ lim.burst < 1 := by omega
  simp [Limiter.Wait, hnb, hd]

theorem RateLimitTransport.forwards_done (t : RateLimitTransport) (reqs : List (ℚ × Ctx))
    (hb : 1 ≤ t.limiter.burst) (hd : ∀ q ∈ reqs, q.2.done = true) :
    t.forwards reqs = reqs.map (fun q => q.1) := by
  induction reqs with
  | nil => rfl
  | cons q rest ih =>
    obtain ⟨now, ctx⟩ := q
    have hq : ctx.done = true := hd (now, ctx) (List.mem_cons_self _ _)
    have hrt : t.RoundTrip now ctx = (t, now) := by
      simp [RateLimitTransport.RoundTrip, Limiter.Wait_done t.limiter now ctx hb hq]
    simp only [RateLimitTransport.forwards, hrt, List.map_cons]
    rw [ih (fun q hq => hd q (List.mem_cons_of_mem _ hq))]

theorem Limiter.Wait_plain (lim : Limiter) (now : ℚ) (hb : lim.burst = 1) :
    lim.Wait now plainCtx =
      ({ lim with tokens := min (1 : ℚ) (lim.tokens + (now - lim.last) * lim.limit) - 1,
                  last := now },
        now + (if min (1 : ℚ) (lim.tokens + (now - lim.last) * lim.limit) - 1 < 0 then
                -(min (1 : ℚ) (lim.tokens + (now - lim.last) * lim.limit) - 1) / lim.limit
              else 0),
        none) := by
  have hnb : ¬ lim.burst < 1 := by omega
  simp [Limiter.Wait, hnb, plainCtx, hb]

/-- With contexts that are never done and carry no deadline the limiter does
its work: two successive requests reach the wrapped transport at least
`1 / limit` apart. -/
theorem Limiter.Wait_spacing (lim : Limiter) (now1 now2 : ℚ) (hb : lim.burst = 1)
    (hl : 0 < lim.limit) :
    (lim.Wait now1 plainCtx).2.1 + 1 / lim.limit ≤
      ((lim.Wait now1 plainCtx).1.Wait now2 plainCtx).2.1 := by
  rw [Limiter.Wait_plain lim now1 hb]
  simp only []
  have ht1le : min (1 : ℚ) (lim.tokens + (now1 - lim.last) * lim.limit) - 1 ≤ 0 := by
    have := min_le_left (1 : ℚ) (lim.tokens + (now1 - lim.last) * lim.limit)
    linarith
  generalize min (1 : ℚ) (lim.tokens + (now1 - lim.last) * lim.limit) - 1 = t1 at ht1le ⊢
  rw [Limiter.Wait_plain { lim with tokens := t1, last := now1 } now2 hb]
  simp only []
  generalize ht2 : min (1 : ℚ) (t1 + (now2 - now1) * lim.limit) - 1 = t2
  have ht2le : t2 ≤ t1 + (now2 - now1) * lim.limit - 1 := by
    have := min_le_right (1 : ℚ) (t1 + (now2 - now1) * lim.limit)
    linarith
  have hw1 : (if t1 < 0 then -t1 / lim.limit else 0) = -t1 / lim.limit := by
    split
    · rfl
    · have : t1 = 0 := le_antisymm ht1le (not_lt.mp ‹_›)
      rw [this]; simp
  have hw2 : -t2 / lim.limit ≤ (if t2 < 0 then -t2 / lim.limit else 0) := by
    split
    · exact le_refl _
    · have : 0 ≤ t2 := not_lt.mp ‹_›
      exact div_nonpos_of_nonpos_of_nonneg (by linarith) hl.le
  rw [hw1]
  have hdiv : (-t1 + 1 - (now2 - now1) * lim.limit) / lim.limit ≤ -t2 / lim.limit :=
    div_le_div_of_nonneg_right (by linarith) hl.le
  have hexp : (-t1 + 1 - (now2 - now1) * lim.limit) / lim.limit =
      -t1 / lim.limit + 1 / lim.limit - (now2 - now1) := by
    field_simp
    ring
  rw [hexp] at hdiv
  linarith

/-! ## The two loops of `mapTwitterPosts` -/

theorem foldl_addTweet (parseTime : String → Option Time) (userMap : String → String)
    (rawTweets : List JSON) (acc : List Post) :
    rawTweets.foldl (addTweet parseTime userMap) acc =
      acc ++ (rawTweets.filterMap (fun x => JSON.asObject (some x))).map
        (tweetPost parseTime userMap) := by
  induction rawTweets generalizing acc with
  | nil => simp
  | cons x rest ih =>
    rw [List.foldl_cons, ih]
    cases hx : JSON.asObject (some x) with
    | none => simp [addTweet, hx, List.filterMap_cons]
    | some tweet => simp [addTweet, hx, List.filterMap_cons]

theorem foldl_addUser_miss (users : List JSON) (init : String → String) (k : String)
    (hmiss : ∀ u ∈ users, stringField (asMap (some u)) "id" ≠ k) :
    users.foldl addUser init k = init k := by
  induction users generalizing init with
  | nil => rfl
  | cons u rest ih =>
    rw [List.foldl_cons, ih _ (fun w hw => hmiss w (List.mem_cons_of_mem _ hw))]
    have hu := hmiss u (List.mem_cons_self _ _)
    simp only [addUser]
    rw [if_neg (fun h => hu h.symm)]

theorem foldl_addUser (users : List JSON) (k : String) :
    users.foldl addUser (fun _ => "") k = sideTableUsername users k := by
  unfold sideTableUsername
  cases hf : users.reverse.find? (fun u => stringField (asMap (some u)) "id" = k) with
  | none =>
    rw [foldl_addUser_miss]
    intro u hu
    have := List.find?_eq_none.mp hf u (List.mem_reverse.mpr hu)
    simpa using this
  | some u =>
    obtain ⟨hid, pre, post, hrev, hpre⟩ := List.find?_eq_some.mp hf
    have hid2 : stringField (asMap (some u)) "id" = k := by simpa using hid
    have husers : users = post.reverse ++ u :: pre.reverse := by
      have := congrArg List.reverse hrev
      simpa using this
    rw [husers, List.foldl_append, List.foldl_cons, foldl_addUser_miss]
    · simp [addUser, hid2]
    · intro w hw
      have := hpre w (List.mem_reverse.mp hw)
      simpa using this

theorem goInt_intCast (n : Int) (hlo : -(2 ^ 63) ≤ n) (hhi : n < 2 ^ 63) :
    goInt (n : ℚ) = n := by
  have ht : Int.tdiv (n : ℚ).num (n : ℚ).den = n := by simp
  unfold goInt
  simp only [ht]
  rw [if_pos ⟨hlo, hhi⟩]

/-! ## The bodies `callHuggingFaceModel` accepts -/

theorem mapM_toMap (items : List JSON) (maps : List (List (String × JSON))) :
    items.mapM (fun x =>
      match x with
      | .obj fields => some fields
      | .null => some []
      | _ => none) = some maps ↔
      List.Forall₂ (fun y m => y = .obj m ∨ (y = .null ∧ m = [])) items maps := by
  induction items generalizing maps with
  | nil =>
    rw [List.mapM_nil]
    simp only [List.forall₂_nil_left_iff]
    constructor
    · intro h; cases h; rfl
    · intro h; rw [h]; rfl
  | cons a rest ih =>
    rw [List.mapM_cons]
    cases a with
    | obj f =>
      simp only [Option.pure_def, Option.bind_eq_bind, Option.some_bind, Option.bind_eq_some,
        Option.some.injEq]
      constructor
      · rintro ⟨r, hr, rfl⟩
        exact List.Forall₂.cons (Or.inl rfl) ((ih r).mp hr)
      · intro h
        cases h with
        | cons h1 h2 =>
          rcases h1 with h1 | ⟨h1, _⟩
          · cases h1
            exact ⟨_, (ih _).mpr h2, rfl⟩
          · cases h1
    | null =>
      simp only [Option.pure_def, Option.bind_eq_bind, Option.some_bind, Option.bind_eq_some,
        Option.some.injEq]
      constructor
      · rintro ⟨r, hr, rfl⟩
        exact List.Forall₂.cons (Or.inr ⟨rfl, rfl⟩) ((ih r).mp hr)
      · intro h
        cases h with
        | cons h1 h2 =>
          rcases h1 with h1 | ⟨_, h1⟩
          · cases h1
          · subst h1
            exact ⟨_, (ih _).mpr h2, rfl⟩
    | _ =>
      simp only [Option.bind_eq_bind, Option.none_bind]
      constructor
      · intro h; cases h
      · intro h
        cases h with
        | cons h1 h2 =>
          rcases h1 with h1 | ⟨h1, _⟩ <;> cases h1

theorem toMap_left (others : List JSON) (rest : List (List (String × JSON)))
    (h : List.Forall₂ (fun y m => y = JSON.obj m ∨ (y = JSON.null ∧ m = [])) others rest) :
    ∀ y ∈ others, y = .null ∨ ∃ f, y = .obj f := by
  induction h with
  | nil => simp
  | cons h1 _ ih =>
    intro y hy
    rcases List.mem_cons.mp hy with hy | hy
    · subst hy
      rcases h1 with h1 | ⟨h1, _⟩
      · exact Or.inr ⟨_, h1⟩
      · exact Or.inl h1
    · exact ih y hy

theorem toMap_right (others : List JSON)
    (h : ∀ y ∈ others, y = .null ∨ ∃ f, y = .obj f) :
    ∃ rest, List.Forall₂ (fun y m => y = JSON.obj m ∨ (y = JSON.null ∧ m = [])) others rest := by
  induction others with
  | nil => exact ⟨[], List.Forall₂.nil⟩
  | cons a l ih =>
    obtain ⟨rest, hrest⟩ := ih (fun y hy => h y (List.mem_cons_of_mem _ hy))
    rcases h a (List.mem_cons_self _ _) with ha | ⟨f, ha⟩
    · exact ⟨[] :: rest, List.Forall₂.cons (Or.inr ⟨ha, rfl⟩) hrest⟩
    · exact ⟨f :: rest, List.Forall₂.cons (Or.inl ha) hrest⟩

/-- A body decodes into a slice of maps whose first map holds a field exactly
when it is an array whose first element is an object holding the field and
whose other elements are objects or `null`. -/
theorem unmarshalMaps_head (decoded : Option JSON) (first : List (String × JSON)) (key : String)
    (val : JSON) (hfield : JSON.field first key = some val) :
    (∃ rest, decoded.bind unmarshalMaps = some (first :: rest)) ↔
      ∃ others, decoded = some (.arr (.obj first :: others)) ∧
        ∀ y ∈ others, y = .null ∨ ∃ f, y = .obj f := by
  constructor
  · rintro ⟨rest, hdec⟩
    cases decoded with
    | none => cases hdec
    | some j =>
      simp only [Option.some_bind] at hdec
      cases j with
      | arr items =>
        simp only [unmarshalMaps] at hdec
        have h2 := (mapM_toMap items (first :: rest)).mp hdec
        cases h2 with
        | cons h1 h3 =>
          rcases h1 with h1 | ⟨_, h1⟩
          · subst h1
            exact ⟨_, rfl, toMap_left _ _ h3⟩
          · subst h1
            simp [JSON.field] at hfield
      | null => simp [unmarshalMaps] at hdec
      | bool b => simp [unmarshalMaps] at hdec
      | num v => simp [unmarshalMaps] at hdec
      | str s => simp [unmarshalMaps] at hdec
      | obj f => simp [unmarshalMaps] at hdec
  · rintro ⟨others, hdec, hall⟩
    obtain ⟨rest, hrest⟩ := toMap_right others hall
    refine ⟨rest, ?_⟩
    rw [hdec]
    simp only [Option.some_bind, unmarshalMaps]
    exact (mapM_toMap _ _).mpr (List.Forall₂.cons (Or.inl rfl) hrest)

/-! ## Claims -/

/-- C1 as stated fails: `strayHaiku` has id `h1` and post reference `p1` and
carries a `Post` of id `p2`.  `SafeUpdate` on a store whose row `h1` is in
the required state returns no error, but the stored row does not become the
value passed: its post reference is `p2`, taken from the `Post`, and a post
`p2` has been inserted. -/
theorem C1_counterexample :
    strayHaiku.toRow = ⟨"h1", .SummaryGetting, some "sum", some "txt", "p1", 2⟩ ∧
    (SafeUpdate calmEnv (Sess.start (sampleStore .Created)) strayHaiku .Created).2 = none ∧
    (SafeUpdate calmEnv (Sess.start (sampleStore .Created)) strayHaiku .Created).1.db.haikus =
      [⟨"h1", .SummaryGetting, some "sum", some "txt", "p2", 2⟩] ∧
    strayHaiku.toRow ∉
      (SafeUpdate calmEnv (Sess.start (sampleStore .Created)) strayHaiku .Created).1.db.haikus ∧
    (SafeUpdate calmEnv (Sess.start (sampleStore .Created)) strayHaiku .Created).1.db.posts =
      [samplePost, { samplePost with ID := "p2" }] := by
  decide

/-- C1, amended: `SafeUpdate(h, S)` on a store with unique keys whose row with
id `h.ID` is `r`.  When `r.State` differs from `S` it returns an error and
leaves the store as it was, in any environment.  When `r.State` is `S` and the
read, the save and the commit succeed it returns no error; the row with id
`h.ID` holds the columns of `h`, its post reference being `h.Post.ID` when
`h.Post` is not the zero value; the other rows are untouched; `h.Post` is
added to the posts when it is not the zero value and no post has its id (a
zero `CreatedAt` filled in with the clock), and the posts are untouched
otherwise.  In particular, when `h.Post` is the zero value, or has the id
`h.PostID` and this id is that of a stored post, the stored row becomes `h`
and nothing else changes. -/
theorem C1_SafeUpdate_guard (env : Env) (s : Sess) (h : Haiku) (S : HaikuState)
    (r : HaikuRow) (hkeys : s.db.KeysUnique) (hr : r ∈ s.db.haikus) (hid : r.ID = h.ID) :
    (r.State ≠ S →
      (SafeUpdate env s h S).2 ≠ none ∧ (SafeUpdate env s h S).1.db = s.db) ∧
    (r.State = S → env.dbFault s.ops = none → env.dbFault (s.ops + 1) = none →
      env.dbFault (s.ops + 2) = none →
      (SafeUpdate env s h S).2 = none ∧
      (SafeUpdate env s h S).1.db.haikus =
        s.db.haikus.map (fun x =>
          if x.ID = h.ID then
            { h.toRow with PostID := if h.Post = default then h.PostID else h.Post.ID }
          else x) ∧
      (SafeUpdate env s h S).1.db.posts =
        (if h.Post = default ∨ s.db.posts.any (fun p => p.ID = h.Post.ID) = true then s.db.posts
         else s.db.posts ++ [{ h.Post with
           CreatedAt := if h.Post.CreatedAt = 0 then env.now else h.Post.CreatedAt }]) ∧
      (h.Linked s.db.posts →
        (SafeUpdate env s h S).1.db = s.db.put h ∧
        h.toRow ∈ (SafeUpdate env s h S).1.db.haikus)) := by
  have hfind := find_of_mem_nodup s.db.haikus r h.ID hkeys hr hid
  have hany := any_of_mem s.db.haikus r h.ID hr hid
  constructor
  · intro hne
    have hne2 : ¬ S = r.State := fun e => hne e.symm
    unfold SafeUpdate Transaction FindByIDForUpdate
    cases hf : env.dbFault s.ops <;>
      simp [Sess.emit, Sess.tick, hf, hfind, HaikuRow.toHaiku, hne2]
  · intro heq h0 h1 h2
    have hany2 : (saveBelongsTo env s.db h).1.haikus.any
        (fun x => x.ID = (saveBelongsTo env s.db h).2.ID) = true := by
      rw [saveBelongsTo_haikus, saveBelongsTo_ID]; exact hany
    have hrun : SafeUpdate env s h S =
        ({ db := { posts := (saveBelongsTo env s.db h).1.posts,
                   haikus := s.db.haikus.map (fun x =>
                     if x.ID = h.ID then (saveBelongsTo env s.db h).2.toRow else x) },
           ops := s.ops + 3,
           trace := s.trace ++ [.txBegin, .txCommit
             { posts := (saveBelongsTo env s.db h).1.posts,
               haikus := s.db.haikus.map (fun x =>
                 if x.ID = h.ID then (saveBelongsTo env s.db h).2.toRow else x) }] }, none) := by
      unfold SafeUpdate Transaction FindByIDForUpdate Save
      simp only [Sess.emit, Sess.tick, h0, h1, h2, hfind, HaikuRow.toHaiku, heq, hany2,
        ne_eq, not_true_eq_false, if_false, if_true]
      simp only [saveBelongsTo_haikus, saveBelongsTo_ID, List.append_assoc, List.singleton_append]
    rw [hrun]
    refine ⟨rfl, ?_, ?_, fun hl => ?_⟩
    · simp only [saveBelongsTo_row]
    · simp only [saveBelongsTo_posts]
    · rw [saveBelongsTo_linked env s.db h hl]
      refine ⟨rfl, ?_⟩
      simp only [List.mem_map]
      exact ⟨r, hr, by simp [hid]⟩

/-- Witness for C1: the haiku selected from `sampleStore .Created`, with its
post loaded, is checked out to `summary_getting`; the row becomes the haiku
and the posts stay. -/
theorem C1_SafeUpdate_guard_witness :
    (sampleStore .Created).KeysUnique ∧
    (SafeUpdate calmEnv (Sess.start (sampleStore .Created))
      { preloadPost (sampleStore .Created) (sampleRow .Created) with State := .SummaryGetting }
      .Created).2 = none ∧
    (SafeUpdate calmEnv (Sess.start (sampleStore .Created))
      { preloadPost (sampleStore .Created) (sampleRow .Created) with State := .SummaryGetting }
      .Created).1.db = sampleStore .SummaryGetting :=
  have h := (C1_SafeUpdate_guard calmEnv (Sess.start (sampleStore .Created))
    { preloadPost (sampleStore .Created) (sampleRow .Created) with State := .SummaryGetting }
    .Created (sampleRow .Created) (by decide) (by simp [sampleStore, Sess.start]) rfl).2
    rfl rfl rfl rfl
  ⟨by decide, h.1,
    (h.2.2.2 (preloadPost_linked (sampleStore .Created) (sampleRow .Created))).1.trans
      (by decide)⟩

/-- C2: `n ≥ 1` invocations of the same advance step `k` have all selected the
haiku `H` while it was in the source state of `k` in store `db0`.  For every
schedule of their actions (each transaction being one action) in which every
invocation has acted at least once: all invocations but at most one have lost,
that is, returned an error, committed nothing to the store and made no
external call; and when the persistence operations do not fail, exactly one
invocation has won, its check-out being committed with `H` in the transitional
state, while every other one has lost with the state-conflict error of
`SafeUpdate`. -/
theorem C2_single_winner (k : Step) (n : Nat) (hn : 1 ≤ n) (envs : Nat → Env) (db0 : Store)
    (H : HaikuRow) (sched : List Nat)
    (hk0 : db0.KeysUnique) (hH : H ∈ db0.haikus) (hst : H.State = k.src)
    (hsched : ∀ i < n, i ∈ sched) :
    (∃ w < n, ∀ j < n, j ≠ w → Lost k (envs j)
      ((System.run k n envs (preloadPost db0 H) sched (System.init db0)).threads j)) ∧
    ((∀ i < n, ∀ j, (envs i).dbFault j = none) →
      ∃ w < n,
        Won k db0 H ((System.run k n envs (preloadPost db0 H) sched (System.init db0)).threads w) ∧
        ∀ j < n, j ≠ w → Lost k (envs j)
          ((System.run k n envs (preloadPost db0 H) sched (System.init db0)).threads j)) := by
  have hinv := RaceInv.run k n envs db0 H hk0 hH hst sched (System.init db0) []
    (RaceInv.init k n envs db0 H hk0 hH)
  have hmem : ∀ j < n, j ∈ sched.reverse ++ [] := by
    intro j hj; simpa using hsched j hj
  obtain ⟨_, _, _, hphase⟩ := hinv
  rcases hphase with ⟨_, hlost, hnf⟩ | ⟨w, hw, _, hwon, _, hlost⟩
  · refine ⟨⟨0, hn, fun j hj _ => hlost j hj (hmem j hj)⟩, fun hall => ?_⟩
    exact absurd (hmem 0 hn) (hnf hall 0 hn)
  · exact ⟨⟨w, hw, fun j hj hjw => hlost j hj (hmem j hj) hjw⟩,
      fun _ => ⟨w, hw, hwon, fun j hj hjw => hlost j hj (hmem j hj) hjw⟩⟩

/-- Witness for C2: two invocations of `ProcessSummary` on `sampleStore
.Created`, their actions alternating, nothing failing: one wins, the other
loses. -/
theorem C2_single_winner_witness :
    ∃ w < 2,
      Won .Summary (sampleStore .Created) (sampleRow .Created)
        ((System.run .Summary 2 (fun _ => calmEnv)
          (preloadPost (sampleStore .Created) (sampleRow .Created)) [0, 1, 0, 1, 0]
          (System.init (sampleStore .Created))).threads w) ∧
      ∀ j < 2, j ≠ w → Lost .Summary calmEnv
        ((System.run .Summary 2 (fun _ => calmEnv)
          (preloadPost (sampleStore .Created) (sampleRow .Created)) [0, 1, 0, 1, 0]
          (System.init (sampleStore .Created))).threads j) :=
  (C2_single_winner .Summary 2 (by decide) (fun _ => calmEnv) (sampleStore .Created)
    (sampleRow .Created) [0, 1, 0, 1, 0] (by decide) (by simp [sampleStore]) rfl
    (by decide)).2 (fun _ _ _ => rfl)

/-- C3 as stated fails: `MarkAsFailed` on a haiku in state `done` commits and
leaves it in state `failed`, a move out of a terminal state. -/
theorem C3_counterexample :
    (Op.run calmEnv (sampleStore .Done) (.MarkAsFailed "h1")).err = none ∧
    (Op.run calmEnv (sampleStore .Done) (.MarkAsFailed "h1")).db = sampleStore .Failed ∧
    ¬ List.Chain (Evolves StrictMove) (sampleStore .Done)
        (history [(.MarkAsFailed "h1", calmEnv)] (sampleStore .Done)) := by
  have hrun : Op.run calmEnv (sampleStore .Done) (.MarkAsFailed "h1") =
      ⟨sampleStore .Failed, [.txBegin, .txCommit (sampleStore .Failed)], none⟩ := by decide
  refine ⟨by rw [hrun], by rw [hrun], fun hc => ?_⟩
  simp only [history, hrun, commits, List.filterMap_cons, List.filterMap_nil,
    List.cons_append, List.nil_append, List.chain_cons] at hc
  have hmove : StrictMove .Done .Failed :=
    hc.1.1 (sampleRow .Done) (by simp [sampleStore]) (sampleRow .Failed)
      (by simp [sampleStore]) rfl
  exact absurd hmove (by decide)

/-- C3, amended: for every sequence of calls of the five operations, in any
environments, every store observed follows the one before it by moves of each
haiku that are: no change, one step forward on
`created → summary_getting → summary_got → haiku_text_getting → haiku_text_got →
comenting → done`, or a jump to `failed`; haikus never disappear and a new
haiku starts in `created`.  When no call is `MarkAsFailed`, the jump to
`failed` only leaves states other than `done` and `failed`.  A haiku in
`failed` never changes state again; a haiku in `done` can only change to
`failed`. -/
theorem C3_state_path (ops : List (Op × Env)) (db : Store) (hk : db.KeysUnique) :
    List.Chain (Evolves LooseMove) db (history ops db) ∧
    ((∀ x ∈ ops, ∀ id, x.1 ≠ .MarkAsFailed id) →
      List.Chain (Evolves StrictMove) db (history ops db)) ∧
    (∀ s, LooseMove .Failed s → s = .Failed) ∧
    (∀ s, LooseMove .Done s → s = .Done ∨ s = .Failed) := by
  refine ⟨?_, fun hno => ?_, ?_, ?_⟩
  · have hc := history_chain LooseMove (fun _ => Or.inl rfl)
      (fun k => by cases k <;> exact Or.inr (Or.inl rfl))
      (fun k => by cases k <;> exact Or.inr (Or.inl rfl))
      (fun _ => Or.inr (Or.inr rfl)) ops db hk (fun _ _ _ _ _ => Or.inr (Or.inr rfl))
    exact (chain_write LooseMove (fun _ => Or.inl rfl) _ db hk hc).1
  · have hc := history_chain StrictMove (fun _ => Or.inl rfl)
      (fun k => by cases k <;> exact Or.inr (Or.inl rfl))
      (fun k => by cases k <;> exact Or.inr (Or.inl rfl))
      (fun k => by cases k <;> exact Or.inr (Or.inr (by decide))) ops db hk
      (fun x hx id hid => absurd hid (hno x hx id))
    exact (chain_write StrictMove (fun _ => Or.inl rfl) _ db hk hc).1
  · intro s h; cases s <;> simp [LooseMove, HaikuState.next] at h ⊢
  · intro s h; cases s <;> simp [LooseMove, HaikuState.next] at h ⊢

/-- Witness for C3: a haiku carried from creation to `summary_got`. -/
theorem C3_state_path_witness :
    List.Chain (Evolves LooseMove) ⟨[samplePost], []⟩
      (history [(.CreateHaikuFromUnprocessedPost, calmEnv), (.ProcessSummary, calmEnv)]
        ⟨[samplePost], []⟩) :=
  (C3_state_path _ ⟨[samplePost], []⟩ (by decide)).1

/-- C4: when the oldest haiku in state `created` is `H`, its post is `P`,
no persistence operation fails and `GenerateSummary P.Text` yields `s`, then
`ProcessSummary` returns no error, calls `GenerateSummary` once, with `P.Text`,
and no other capability; it first commits `H` in state `summary_getting`, then
makes the call, then commits `H` in state `summary_got` with summary `s`; every
other row and every post is as before. -/
theorem C4_ProcessSummary_success (env : Env) (db : Store) (H : HaikuRow) (P : Post)
    (s : String) (hkeys : db.KeysUnique)
    (hH : oldestRow (db.haikus.filter (fun r => r.State = .Created)) = some H)
    (hP : db.posts.find? (fun p => p.ID = H.PostID) = some P)
    (hdb : ∀ k, env.dbFault k = none)
    (hgen : env.GenerateSummary P.Text = .ok s) :
    (ProcessSummary env db).err = none ∧
    externalCalls (ProcessSummary env db).trace = [.GenerateSummary P.Text] ∧
    (ProcessSummary env db).db =
      db.setRow H.ID { H with State := .SummaryGot, Summary := some s } ∧
    (ProcessSummary env db).trace =
      [.txBegin, .txCommit (db.setRow H.ID { H with State := .SummaryGetting }),
       .GenerateSummary P.Text,
       .txBegin, .txCommit (db.setRow H.ID { H with State := .SummaryGot, Summary := some s })] := by
  obtain ⟨hmem, hst⟩ := oldestRow_filter _ _ _ hH
  unfold ProcessSummary
  simp only [FindOldestByState_found env db .Created H (hdb 0) hH]
  rw [SafeUpdate_ok env db 1 [] _ .Created H hkeys hmem rfl hst
      (preloadPost_linked_state db H _) (hdb _) (hdb _) (hdb _)]
  simp only [Sess.emit, preloadPost, HaikuRow.toHaiku, Haiku.toRow, hP, Option.getD_some, hgen]
  rw [SafeUpdate_ok env
    (db.setRow H.ID ⟨H.ID, .SummaryGetting, H.Summary, H.Text, H.PostID, H.CreatedAt⟩) _ _
    ⟨H.ID, .SummaryGot, some s, H.Text, H.PostID, P, H.CreatedAt⟩ .SummaryGetting
    ⟨H.ID, .SummaryGetting, H.Summary, H.Text, H.PostID, H.CreatedAt⟩
    (setRow_KeysUnique _ _ _ rfl hkeys) (setRow_mem _ _ _ H hmem rfl) rfl rfl
    (linked_of_post db.posts _ (by simp [hP]))
    (hdb _) (hdb _) (hdb _)]
  simp only [Haiku.toRow]
  rw [setRow_setRow db H.ID ⟨H.ID, .SummaryGetting, H.Summary, H.Text, H.PostID, H.CreatedAt⟩ _
    rfl]
  simp [Sess.result, externalCalls]

/-- Witness for C4: `sampleStore .Created` under `calmEnv`. -/
theorem C4_ProcessSummary_success_witness :
    (ProcessSummary calmEnv (sampleStore .Created)).err = none ∧
    externalCalls (ProcessSummary calmEnv (sampleStore .Created)).trace =
      [.GenerateSummary "hello"] ∧
    (ProcessSummary calmEnv (sampleStore .Created)).db =
      ⟨[samplePost], [⟨"h1", .SummaryGot, some "summary of hello", some "txt", "p1", 2⟩]⟩ :=
  have h := C4_ProcessSummary_success calmEnv (sampleStore .Created) (sampleRow .Created)
    samplePost "summary of hello" (by decide) rfl rfl (fun _ => rfl) rfl
  ⟨h.1, h.2.1, h.2.2.1.trans (by decide)⟩

/-- C5: when an advance step has selected the oldest haiku `H` of its source
state, every persistence operation succeeds (so the check-out into the
transitional state and the `MarkAsFailed` transaction both commit) and the
external call fails with `e`, the step returns exactly `e` and `H` is stored in
state `failed`, its other columns, the other rows and the posts being as
before. -/
theorem C5_external_failure (env : Env) (db : Store) (H : HaikuRow) (e : Error)
    (hkeys : db.KeysUnique) (hdb : ∀ k, env.dbFault k = none) :
    (∀ P, oldestRow (db.haikus.filter (fun r => r.State = .Created)) = some H →
      db.posts.find? (fun p => p.ID = H.PostID) = some P →
      env.GenerateSummary P.Text = .error e →
      (ProcessSummary env db).err = some e ∧
      (ProcessSummary env db).db = db.setRow H.ID { H with State := .Failed }) ∧
    (oldestRow (db.haikus.filter (fun r => r.State = .SummaryGot)) = some H →
      env.GenerateHaiku (NullString H.Summary) = .error e →
      (ProcessHaikuText env db).err = some e ∧
      (ProcessHaikuText env db).db = db.setRow H.ID { H with State := .Failed }) ∧
    (oldestRow (db.haikus.filter (fun r => r.State = .HaikuTextGot)) = some H →
      env.CommentOn H.PostID (NullString H.Text) = some e →
      (PostHaiku env db).err = some e ∧
      (PostHaiku env db).db = db.setRow H.ID { H with State := .Failed }) := by
  refine ⟨fun P hH hP hgen => ?_, fun hH hgen => ?_, fun hH hgen => ?_⟩
  · obtain ⟨hmem, hst⟩ := oldestRow_filter _ _ _ hH
    unfold ProcessSummary
    simp only [FindOldestByState_found env db .Created H (hdb 0) hH]
    rw [SafeUpdate_ok env db 1 [] _ .Created H hkeys hmem rfl hst
      (preloadPost_linked_state db H _) (hdb _) (hdb _) (hdb _)]
    simp only [Sess.emit, preloadPost, HaikuRow.toHaiku, Haiku.toRow, hP, Option.getD_some, hgen]
    rw [markFailedAndReturn_ok env
      (db.setRow H.ID ⟨H.ID, .SummaryGetting, H.Summary, H.Text, H.PostID, H.CreatedAt⟩) _ _
      H.ID ⟨H.ID, .SummaryGetting, H.Summary, H.Text, H.PostID, H.CreatedAt⟩ e
      (setRow_KeysUnique _ _ _ rfl hkeys) (setRow_mem _ _ _ H hmem rfl) rfl
      (hdb _) (hdb _) (hdb _)]
    rw [setRow_setRow db H.ID ⟨H.ID, .SummaryGetting, H.Summary, H.Text, H.PostID, H.CreatedAt⟩ _
      rfl]
    simp [Sess.result]
  · obtain ⟨hmem, hst⟩ := oldestRow_filter _ _ _ hH
    unfold ProcessHaikuText
    simp only [FindOldestByState_found env db .SummaryGot H (hdb 0) hH]
    rw [SafeUpdate_ok env db 1 [] _ .SummaryGot H hkeys hmem rfl hst
      (preloadPost_linked_state db H _) (hdb _) (hdb _) (hdb _)]
    simp only [Sess.emit, preloadPost, HaikuRow.toHaiku, Haiku.toRow, hgen]
    rw [markFailedAndReturn_ok env
      (db.setRow H.ID ⟨H.ID, .HaikuTextGetting, H.Summary, H.Text, H.PostID, H.CreatedAt⟩) _ _
      H.ID ⟨H.ID, .HaikuTextGetting, H.Summary, H.Text, H.PostID, H.CreatedAt⟩ e
      (setRow_KeysUnique _ _ _ rfl hkeys) (setRow_mem _ _ _ H hmem rfl) rfl
      (hdb _) (hdb _) (hdb _)]
    rw [setRow_setRow db H.ID
      ⟨H.ID, .HaikuTextGetting, H.Summary, H.Text, H.PostID, H.CreatedAt⟩ _ rfl]
    simp [Sess.result]
  · obtain ⟨hmem, hst⟩ := oldestRow_filter _ _ _ hH
    unfold PostHaiku
    simp only [FindOldestByState_found env db .HaikuTextGot H (hdb 0) hH]
    rw [SafeUpdate_ok env db 1 [] _ .HaikuTextGot H hkeys hmem rfl hst
      (preloadPost_linked_state db H _) (hdb _) (hdb _) (hdb _)]
    simp only [Sess.emit, preloadPost, HaikuRow.toHaiku, Haiku.toRow, hgen]
    rw [markFailedAndReturn_ok env
      (db.setRow H.ID ⟨H.ID, .Comenting, H.Summary, H.Text, H.PostID, H.CreatedAt⟩) _ _
      H.ID ⟨H.ID, .Comenting, H.Summary, H.Text, H.PostID, H.CreatedAt⟩ e
      (setRow_KeysUnique _ _ _ rfl hkeys) (setRow_mem _ _ _ H hmem rfl) rfl
      (hdb _) (hdb _) (hdb _)]
    rw [setRow_setRow db H.ID ⟨H.ID, .Comenting, H.Summary, H.Text, H.PostID, H.CreatedAt⟩ _
      rfl]
    simp [Sess.result]

/-- Witness for C5: `PostHaiku` on `sampleStore .HaikuTextGot` when `CommentOn`
answers 503. -/
theorem C5_external_failure_witness :
    (PostHaiku brokenApiEnv (sampleStore .HaikuTextGot)).err = some (.foreign "503") ∧
    (PostHaiku brokenApiEnv (sampleStore .HaikuTextGot)).db = sampleStore .Failed :=
  have h := (C5_external_failure brokenApiEnv (sampleStore .HaikuTextGot)
    (sampleRow .HaikuTextGot) (.foreign "503") (by decide) (fun _ => rfl)).2.2 rfl rfl
  ⟨h.1, h.2.trans (by decide)⟩

/-- C6: when the oldest haiku in state `summary_got` is `H`, with summary `s`,
no persistence operation fails and `GenerateHaiku s` yields `t`, then
`ProcessHaikuText` returns no error, calls `GenerateHaiku` once, with `s`, and
no other capability, and leaves `H` stored in state `haiku_text_got` with text
`t` and summary `s` (having committed `haiku_text_getting` before the call).
If `H` was the only haiku in `summary_got`, a following `ProcessHaikuText`, in
any environment, returns no error, makes no external call and changes
nothing. -/
theorem C6_ProcessHaikuText_success (env env2 : Env) (db : Store) (H : HaikuRow)
    (s t : String) (hkeys : db.KeysUnique)
    (hH : oldestRow (db.haikus.filter (fun r => r.State = .SummaryGot)) = some H)
    (hsum : H.Summary = some s)
    (hdb : ∀ k, env.dbFault k = none)
    (hgen : env.GenerateHaiku s = .ok t) :
    (ProcessHaikuText env db).err = none ∧
    externalCalls (ProcessHaikuText env db).trace = [.GenerateHaiku s] ∧
    (ProcessHaikuText env db).db =
      db.setRow H.ID ⟨H.ID, .HaikuTextGot, some s, some t, H.PostID, H.CreatedAt⟩ ∧
    (ProcessHaikuText env db).trace =
      [.txBegin,
       .txCommit (db.setRow H.ID ⟨H.ID, .HaikuTextGetting, some s, H.Text, H.PostID, H.CreatedAt⟩),
       .GenerateHaiku s,
       .txBegin,
       .txCommit (db.setRow H.ID ⟨H.ID, .HaikuTextGot, some s, some t, H.PostID, H.CreatedAt⟩)] ∧
    ((∀ r ∈ db.haikus, r.State = .SummaryGot → r.ID = H.ID) →
      (ProcessHaikuText env2 (ProcessHaikuText env db).db).err = none ∧
      externalCalls (ProcessHaikuText env2 (ProcessHaikuText env db).db).trace = [] ∧
      (ProcessHaikuText env2 (ProcessHaikuText env db).db).db = (ProcessHaikuText env db).db) := by
  obtain ⟨hmem, hst⟩ := oldestRow_filter _ _ _ hH
  have hgen2 : env.GenerateHaiku (NullString H.Summary) = .ok t := by
    simpa [NullString, hsum] using hgen
  have hdbeq : (ProcessHaikuText env db).db =
      db.setRow H.ID ⟨H.ID, .HaikuTextGot, some s, some t, H.PostID, H.CreatedAt⟩ ∧
      (ProcessHaikuText env db).err = none ∧
      (ProcessHaikuText env db).trace =
      [.txBegin,
       .txCommit (db.setRow H.ID ⟨H.ID, .HaikuTextGetting, some s, H.Text, H.PostID, H.CreatedAt⟩),
       .GenerateHaiku s,
       .txBegin,
       .txCommit (db.setRow H.ID ⟨H.ID, .HaikuTextGot, some s, some t, H.PostID, H.CreatedAt⟩)] := by
    unfold ProcessHaikuText
    simp only [FindOldestByState_found env db .SummaryGot H (hdb 0) hH]
    rw [SafeUpdate_ok env db 1 [] _ .SummaryGot H hkeys hmem rfl hst
      (preloadPost_linked_state db H _) (hdb _) (hdb _) (hdb _)]
    simp only [Sess.emit, preloadPost, HaikuRow.toHaiku, Haiku.toRow, hgen2]
    rw [SafeUpdate_ok env
      (db.setRow H.ID ⟨H.ID, .HaikuTextGetting, H.Summary, H.Text, H.PostID, H.CreatedAt⟩) _ _
      ⟨H.ID, .HaikuTextGot, H.Summary, some t, H.PostID, _, H.CreatedAt⟩ .HaikuTextGetting
      ⟨H.ID, .HaikuTextGetting, H.Summary, H.Text, H.PostID, H.CreatedAt⟩
      (setRow_KeysUnique _ _ _ rfl hkeys) (setRow_mem _ _ _ H hmem rfl) rfl rfl
      (linked_of_post db.posts _ rfl)
      (hdb _) (hdb _) (hdb _)]
    simp only [Haiku.toRow]
    rw [setRow_setRow db H.ID
      ⟨H.ID, .HaikuTextGetting, H.Summary, H.Text, H.PostID, H.CreatedAt⟩ _ rfl]
    simp [Sess.result, hsum, NullString]
  refine ⟨hdbeq.2.1, ?_, hdbeq.1, hdbeq.2.2, fun honly => ?_⟩
  · rw [hdbeq.2.2]; simp [externalCalls]
  · rw [hdbeq.1]
    exact ProcessHaikuText_noop env2 _ (setRow_no_state db H.ID _ .SummaryGot honly (by simp))

/-- Witness for C6: `sampleStore .SummaryGot` under `calmEnv`, run twice. -/
theorem C6_ProcessHaikuText_success_witness :
    (ProcessHaikuText calmEnv (sampleStore .SummaryGot)).err = none ∧
    (ProcessHaikuText calmEnv (sampleStore .SummaryGot)).db =
      ⟨[samplePost], [⟨"h1", .HaikuTextGot, some "sum", some "haiku on sum", "p1", 2⟩]⟩ ∧
    (ProcessHaikuText brokenApiEnv (ProcessHaikuText calmEnv (sampleStore .SummaryGot)).db).db =
      (ProcessHaikuText calmEnv (sampleStore .SummaryGot)).db :=
  have h := C6_ProcessHaikuText_success calmEnv brokenApiEnv (sampleStore .SummaryGot)
    (sampleRow .SummaryGot) "sum" "haiku on sum" (by decide) rfl rfl (fun _ => rfl) rfl
  ⟨h.1, h.2.2.1.trans (by decide), (h.2.2.2.2 (by decide)).2.2⟩

/-- C7: when the oldest haiku in state `haiku_text_got` is `H`, with text `t`,
no persistence operation fails and `CommentOn H.PostID t` succeeds, then
`PostHaiku` returns no error, calls `CommentOn` once, with `H.PostID` and `t`,
and no other capability; it first commits `H` in state `comenting`, then makes
the call, then commits `H` in state `done`; summary, text, every other row and
every post are as before. -/
theorem C7_PostHaiku_success (env : Env) (db : Store) (H : HaikuRow) (t : String)
    (hkeys : db.KeysUnique)
    (hH : oldestRow (db.haikus.filter (fun r => r.State = .HaikuTextGot)) = some H)
    (htxt : H.Text = some t)
    (hdb : ∀ k, env.dbFault k = none)
    (hcall : env.CommentOn H.PostID t = none) :
    (PostHaiku env db).err = none ∧
    externalCalls (PostHaiku env db).trace = [.CommentOn H.PostID t] ∧
    (PostHaiku env db).db = db.setRow H.ID { H with State := .Done } ∧
    (PostHaiku env db).trace =
      [.txBegin, .txCommit (db.setRow H.ID { H with State := .Comenting }),
       .CommentOn H.PostID t,
       .txBegin, .txCommit (db.setRow H.ID { H with State := .Done })] := by
  obtain ⟨hmem, hst⟩ := oldestRow_filter _ _ _ hH
  have hcall2 : env.CommentOn H.PostID (NullString H.Text) = none := by
    simpa [NullString, htxt] using hcall
  have htext : NullString H.Text = t := by simp [NullString, htxt]
  unfold PostHaiku
  simp only [FindOldestByState_found env db .HaikuTextGot H (hdb 0) hH]
  rw [SafeUpdate_ok env db 1 [] _ .HaikuTextGot H hkeys hmem rfl hst
      (preloadPost_linked_state db H _) (hdb _) (hdb _) (hdb _)]
  simp only [Sess.emit, preloadPost, HaikuRow.toHaiku, Haiku.toRow, hcall2]
  rw [SafeUpdate_ok env
    (db.setRow H.ID ⟨H.ID, .Comenting, H.Summary, H.Text, H.PostID, H.CreatedAt⟩) _ _
    ⟨H.ID, .Done, H.Summary, H.Text, H.PostID, _, H.CreatedAt⟩ .Comenting
    ⟨H.ID, .Comenting, H.Summary, H.Text, H.PostID, H.CreatedAt⟩
    (setRow_KeysUnique _ _ _ rfl hkeys) (setRow_mem _ _ _ H hmem rfl) rfl rfl
    (linked_of_post db.posts _ rfl)
    (hdb _) (hdb _) (hdb _)]
  simp only [Haiku.toRow]
  rw [setRow_setRow db H.ID ⟨H.ID, .Comenting, H.Summary, H.Text, H.PostID, H.CreatedAt⟩ _ rfl]
  simp [Sess.result, externalCalls, htext]

/-- Witness for C7: `sampleStore .HaikuTextGot` under `calmEnv`. -/
theorem C7_PostHaiku_success_witness :
    (PostHaiku calmEnv (sampleStore .HaikuTextGot)).err = none ∧
    externalCalls (PostHaiku calmEnv (sampleStore .HaikuTextGot)).trace =
      [.CommentOn "p1" "txt"] ∧
    (PostHaiku calmEnv (sampleStore .HaikuTextGot)).db = sampleStore .Done :=
  have h := C7_PostHaiku_success calmEnv (sampleStore .HaikuTextGot) (sampleRow .HaikuTextGot)
    "txt" (by decide) rfl rfl (fun _ => rfl) rfl
  ⟨h.1, h.2.1, h.2.2.1.trans (by decide)⟩

/-- C8: when no haiku is in the source state of an advance step (`created` for
`ProcessSummary`, `summary_got` for `ProcessHaikuText`, `haiku_text_got` for
`PostHaiku`), the step returns no error, makes no external call and leaves the
store as it was, whatever the environment does. -/
theorem C8_no_eligible_noop (env : Env) (db : Store) :
    ((∀ r ∈ db.haikus, r.State ≠ .Created) →
      (ProcessSummary env db).err = none ∧ externalCalls (ProcessSummary env db).trace = [] ∧
      (ProcessSummary env db).db = db) ∧
    ((∀ r ∈ db.haikus, r.State ≠ .SummaryGot) →
      (ProcessHaikuText env db).err = none ∧
      externalCalls (ProcessHaikuText env db).trace = [] ∧
      (ProcessHaikuText env db).db = db) ∧
    ((∀ r ∈ db.haikus, r.State ≠ .HaikuTextGot) →
      (PostHaiku env db).err = none ∧ externalCalls (PostHaiku env db).trace = [] ∧
      (PostHaiku env db).db = db) := by
  exact ⟨ProcessSummary_noop env db, ProcessHaikuText_noop env db, PostHaiku_noop env db⟩

/-- Witness for C8: a store whose only haiku is `done`. -/
theorem C8_no_eligible_noop_witness :
    let env : Env := ⟨5, "u", fun _ => none, fun t => .ok t, fun t => .ok t, fun _ _ => none⟩
    let db : Store := ⟨[], [⟨"h1", .Done, some "s", some "t", "p1", 1⟩]⟩
    (∀ r ∈ db.haikus, r.State ≠ .Created) ∧
    (ProcessSummary env db).err = none ∧ externalCalls (ProcessSummary env db).trace = [] ∧
      (ProcessSummary env db).db = db :=
  ⟨by decide, (C8_no_eligible_noop _ _).1 (by decide)⟩

/-- C9: on a store in which some post has no haiku, when the lookup succeeds,
`CreateHaikuFromUnprocessedPost` picks a post `P` that has no haiku and whose
`CreatedAt` is smallest among such posts, and returns what the insert of the
new haiku returns.  When the insert succeeds (no fault, fresh uuid) the call
returns no error and the store gains exactly one row, appended: state
`created`, no summary, no text, `PostID = P.ID`; posts and existing rows are
untouched.  When the insert fails with `e`, `e` is returned and the store is
unchanged. -/
theorem C9_CreateHaiku (env : Env) (db : Store)
    (hex : ∃ p ∈ db.posts, ∀ r ∈ db.haikus, r.PostID ≠ p.ID)
    (hlookup : env.dbFault 0 = none) :
    ∃ P ∈ db.posts, (∀ r ∈ db.haikus, r.PostID ≠ P.ID) ∧
      (∀ q ∈ db.posts, (∀ r ∈ db.haikus, r.PostID ≠ q.ID) → P.CreatedAt ≤ q.CreatedAt) ∧
      (CreateHaikuFromUnprocessedPost env db).err =
        (Create env { db := db, ops := 1, trace := [] }
          ⟨env.uuid, .Created, none, none, P.ID, P, 0⟩).2 ∧
      (env.dbFault 1 = none → (∀ r ∈ db.haikus, r.ID ≠ env.uuid) →
        (CreateHaikuFromUnprocessedPost env db).err = none ∧
        (CreateHaikuFromUnprocessedPost env db).db =
          { db with haikus := db.haikus ++ [⟨env.uuid, .Created, none, none, P.ID, env.now⟩] }) ∧
      (∀ e, env.dbFault 1 = some e →
        (CreateHaikuFromUnprocessedPost env db).err = some e ∧
        (CreateHaikuFromUnprocessedPost env db).db = db) ∧
      (env.dbFault 1 = none → (∃ r ∈ db.haikus, r.ID = env.uuid) →
        (CreateHaikuFromUnprocessedPost env db).err ≠ none ∧
        (CreateHaikuFromUnprocessedPost env db).db = db) := by
  cases hsel : oldestPost (db.posts.filter
      (fun p => !(db.haikus.any (fun r => r.PostID = p.ID)))) with
  | none =>
    obtain ⟨p, hp, hnone⟩ := hex
    have hnil := (oldest_eq_none _ _ _).mp hsel
    have hmem : p ∈ db.posts.filter (fun p => !(db.haikus.any (fun r => r.PostID = p.ID))) := by
      simp only [List.mem_filter, hp, true_and, Bool.not_eq_true', List.any_eq_false,
        decide_eq_true_eq]
      exact hnone
    rw [hnil] at hmem
    simp at hmem
  | some P =>
    have hPmem := oldest_mem _ _ _ _ hsel
    have hPle := oldest_le _ _ _ _ hsel
    simp only [List.mem_filter, Bool.not_eq_true', List.any_eq_false, decide_eq_true_eq]
      at hPmem hPle
    have hfind : FindOldestUnprocessedPost env (Sess.start db) =
        ({ db := db, ops := 1, trace := [] }, some P, none) := by
      unfold FindOldestUnprocessedPost
      simp [Sess.start, Sess.tick, hlookup, hsel]
    have hrun : CreateHaikuFromUnprocessedPost env db =
        (Create env { db := db, ops := 1, trace := [] }
          ⟨env.uuid, .Created, none, none, P.ID, P, 0⟩).1.result
        (Create env { db := db, ops := 1, trace := [] }
          ⟨env.uuid, .Created, none, none, P.ID, P, 0⟩).2 := by
      unfold CreateHaikuFromUnprocessedPost
      simp only [hfind]
    have hsb := saveBelongsTo_linked env db ⟨env.uuid, .Created, none, none, P.ID, P, 0⟩
      (Or.inr ⟨rfl, List.any_eq_true.mpr ⟨P, hPmem.1, by simp⟩⟩)
    refine ⟨P, hPmem.1, hPmem.2, fun q hq hqn => hPle q ⟨hq, hqn⟩, ?_, ?_, ?_, ?_⟩
    · rw [hrun]; rfl
    · intro h1 hfresh
      have hany : db.haikus.any (fun r => r.ID = env.uuid) = false := by
        simpa [List.any_eq_false] using hfresh
      rw [hrun]
      simp [Create, h1, hany, Sess.result, Sess.tick, Haiku.toRow, hsb]
    · intro e h1
      rw [hrun]
      simp [Create, h1, Sess.result, Sess.tick]
    · intro h1 hdup
      have hany : db.haikus.any (fun r => r.ID = env.uuid) = true := by
        simpa [List.any_eq_true] using hdup
      rw [hrun]
      simp [Create, h1, hany, Sess.result, Sess.tick, hsb]

/-- Witness for C9: one post, no haiku, nothing fails. -/
theorem C9_CreateHaiku_witness :
    ∃ P ∈ [samplePost], (∀ r ∈ ([] : List HaikuRow), r.PostID ≠ P.ID) ∧
      (CreateHaikuFromUnprocessedPost calmEnv ⟨[samplePost], []⟩).err = none ∧
      (CreateHaikuFromUnprocessedPost calmEnv ⟨[samplePost], []⟩).db =
        ⟨[samplePost], [⟨"h-new", .Created, none, none, P.ID, 5⟩]⟩ :=
  have ⟨P, hP, hno, _, _, hok, _⟩ := C9_CreateHaiku calmEnv ⟨[samplePost], []⟩
    ⟨samplePost, by simp, by simp⟩ rfl
  ⟨P, hP, hno, (hok rfl (by simp)).1, (hok rfl (by simp)).2⟩

/-- C10: on a store with unique primary keys in which each post has at most
one haiku, any sequence of state-machine operations, run one after another in
any environments, leaves a store in which each post has at most one haiku.
Scenario: from a store holding the single post `P1` and no haiku, a first
`CreateHaikuFromUnprocessedPost` whose lookup and insert succeed creates one
haiku for `P1`; a second call, in any environment, returns no error and
changes nothing, so exactly one haiku exists. -/
theorem C10_one_haiku_per_post (ops : List (Op × Env)) (db : Store)
    (hk : db.KeysUnique) (h1 : AtMostOnePerPost db) :
    AtMostOnePerPost (runOps ops db) ∧
    (∀ (P1 : Post) (env1 env2 : Env), env1.dbFault 0 = none → env1.dbFault 1 = none →
      (CreateHaikuFromUnprocessedPost env1 ⟨[P1], []⟩).db =
        ⟨[P1], [⟨env1.uuid, .Created, none, none, P1.ID, env1.now⟩]⟩ ∧
      (CreateHaikuFromUnprocessedPost env2
        (CreateHaikuFromUnprocessedPost env1 ⟨[P1], []⟩).db).err = none ∧
      (CreateHaikuFromUnprocessedPost env2
        (CreateHaikuFromUnprocessedPost env1 ⟨[P1], []⟩).db).db =
        (CreateHaikuFromUnprocessedPost env1 ⟨[P1], []⟩).db) := by
  constructor
  · have hc := history_chain LooseMove (fun _ => Or.inl rfl)
      (fun k => by cases k <;> exact Or.inr (Or.inl rfl))
      (fun k => by cases k <;> exact Or.inr (Or.inl rfl))
      (fun _ => Or.inr (Or.inr rfl)) ops db hk (fun _ _ _ _ _ => Or.inr (Or.inr rfl))
    rw [runOps_eq]
    exact (chain_write LooseMove (fun _ => Or.inl rfl) _ db hk hc).2.2 h1
  · intro P1 env1 env2 h0 h1
    have hfirst : (CreateHaikuFromUnprocessedPost env1 ⟨[P1], []⟩).db =
        ⟨[P1], [⟨env1.uuid, .Created, none, none, P1.ID, env1.now⟩]⟩ := by
      have hsb := saveBelongsTo_linked env1 ⟨[P1], []⟩
        ⟨env1.uuid, .Created, none, none, P1.ID, P1, 0⟩ (Or.inr ⟨rfl, by simp⟩)
      simp [CreateHaikuFromUnprocessedPost, FindOldestUnprocessedPost, Create, Sess.start,
        Sess.tick, Sess.result, h0, h1, oldestPost, oldest, Haiku.toRow, hsb]
    refine ⟨hfirst, ?_⟩
    rw [hfirst]
    cases h2 : env2.dbFault 0 <;>
      simp [CreateHaikuFromUnprocessedPost, FindOldestUnprocessedPost, Sess.start,
        Sess.tick, Sess.result, h2, oldestPost, oldest]

/-- Witness for C10: create a haiku for `samplePost`, try again, then advance
it. -/
theorem C10_one_haiku_per_post_witness :
    AtMostOnePerPost (runOps [(.CreateHaikuFromUnprocessedPost, calmEnv),
      (.CreateHaikuFromUnprocessedPost, calmEnv), (.ProcessSummary, calmEnv)]
      ⟨[samplePost], []⟩) :=
  (C10_one_haiku_per_post _ ⟨[samplePost], []⟩ (by decide) (by simp [AtMostOnePerPost])).1

/-- C11: `MarkAsFailed(id)` on a store with unique keys.  When a row `r` has
that id, whatever its state, and the read, the save and the commit succeed,
the call returns no error and the row is stored in state `failed`, its other
columns being those of `r`.  When no row has that id, the call returns an
error and leaves the store as it was, in any environment. -/
theorem C11_MarkAsFailed (env : Env) (db : Store) (n : Nat) (t : List Event) (id : String)
    (hkeys : db.KeysUnique) :
    (∀ r ∈ db.haikus, r.ID = id → env.dbFault n = none → env.dbFault (n + 1) = none →
      env.dbFault (n + 2) = none →
      (MarkAsFailed env { db := db, ops := n, trace := t } id).2 = none ∧
      (MarkAsFailed env { db := db, ops := n, trace := t } id).1.db =
        db.setRow id { r with State := .Failed } ∧
      ∀ x ∈ (MarkAsFailed env { db := db, ops := n, trace := t } id).1.db.haikus,
        x.ID = id → x.State = .Failed) ∧
    ((∀ r ∈ db.haikus, r.ID ≠ id) →
      (MarkAsFailed env { db := db, ops := n, trace := t } id).2 ≠ none ∧
      (MarkAsFailed env { db := db, ops := n, trace := t } id).1.db = db) := by
  constructor
  · intro r hr hid h0 h1 h2
    rw [MarkAsFailed_ok env db n t id r hkeys hr hid h0 h1 h2]
    refine ⟨rfl, rfl, fun x hx hxid => ?_⟩
    have hrow : ({ r with State := HaikuState.Failed } : HaikuRow).ID = id := hid
    rw [setRow_eq_of_mem db id _ x hx hxid]
  · intro hnone
    rcases MarkAsFailed_cases env { db := db, ops := n, trace := t } id with
      ⟨n1, e, hs⟩ | ⟨r, hr, hid, _⟩
    · rw [hs]; exact ⟨by simp, rfl⟩
    · exact absurd hid (hnone r hr)

/-- Witness for C11: a haiku in state `done` is forced to `failed`. -/
theorem C11_MarkAsFailed_witness :
    (MarkAsFailed calmEnv { db := sampleStore .Done, ops := 0, trace := [] } "h1").2 = none ∧
    (MarkAsFailed calmEnv { db := sampleStore .Done, ops := 0, trace := [] } "h1").1.db =
      sampleStore .Failed :=
  have h := (C11_MarkAsFailed calmEnv (sampleStore .Done) 0 [] "h1" (by decide)).1
    (sampleRow .Done) (by simp [sampleStore]) rfl rfl rfl rfl
  ⟨h.1, h.2.1.trans (by decide)⟩

/-- C12 as stated fails: in `tieStore` both haikus are in state `created` with
the same `CreatedAt` and `"b"` was inserted first, yet the selection returns
`"a"`, the row with the smaller primary key. -/
theorem C12_counterexample :
    (tieStore.haikus.map (fun r => (r.ID, r.State, r.CreatedAt))) =
      [("b", .Created, 7), ("a", .Created, 7)] ∧
    (FindOldestByState calmEnv (Sess.start tieStore) .Created).2.1.map (fun g => g.ID) =
      some "a" := by
  have hba : ¬ ("b" ≤ "a") := by rw [String.le_iff_toList_le]; decide
  refine ⟨rfl, ?_⟩
  simp [FindOldestByState, calmEnv, Sess.start, tieStore, oldestRow, oldest, hba, preloadPost,
    HaikuRow.toHaiku]

/-- C12, amended: when the lookup succeeds and some haiku is in state `st`,
`FindOldestByState` returns one haiku and no error: a row `H` of the store in
state `st` with the smallest `CreatedAt` and, among the rows of state `st`
with that `CreatedAt`, the smallest primary key `ID`; the value returned
carries the columns of `H` and, as `Post`, the post `H.PostID` points at. -/
theorem C12_FindOldestByState (env : Env) (db : Store) (st : HaikuState)
    (hlookup : env.dbFault 0 = none) (hex : ∃ r ∈ db.haikus, r.State = st) :
    ∃ H ∈ db.haikus, H.State = st ∧
      (∀ r ∈ db.haikus, r.State = st →
        H.CreatedAt < r.CreatedAt ∨ (H.CreatedAt = r.CreatedAt ∧ H.ID ≤ r.ID)) ∧
      (FindOldestByState env (Sess.start db) st).2.2 = none ∧
      ∃ g, (FindOldestByState env (Sess.start db) st).2.1 = some g ∧ g.toRow = H ∧
        ∀ P, db.posts.find? (fun p => p.ID = H.PostID) = some P → g.Post = P := by
  rcases FindOldestByState_cases env db st with ⟨e, h⟩ | ⟨H, hmem, hst, hsel, h⟩
  · exfalso
    obtain ⟨r, hr, hrst⟩ := hex
    have hne : oldestRow (db.haikus.filter (fun r => r.State = st)) ≠ none := by
      rw [Ne, oldestRow_eq_none, List.filter_eq_nil_iff]
      intro hall
      exact absurd (by simpa using hrst) (hall r hr)
    cases hsel : oldestRow (db.haikus.filter (fun r => r.State = st)) with
    | none => exact hne hsel
    | some H =>
      rw [FindOldestByState_found env db st H hlookup hsel] at h
      simp at h
  · refine ⟨H, hmem, hst, fun r hr hrst => ?_, by rw [h], preloadPost db H, by rw [h], rfl, ?_⟩
    · exact oldest_lex _ _ _ H hsel r (by simp [hr, hrst])
    · intro P hP
      simp [preloadPost, hP]

/-- Witness for C12: the selection on `sampleStore .SummaryGot`. -/
theorem C12_FindOldestByState_witness :
    ∃ H ∈ (sampleStore .SummaryGot).haikus, H.State = .SummaryGot ∧
      (FindOldestByState calmEnv (Sess.start (sampleStore .SummaryGot)) .SummaryGot).2.2 = none :=
  have ⟨H, hH, hst, _, herr, _⟩ := C12_FindOldestByState calmEnv (sampleStore .SummaryGot)
    .SummaryGot rfl ⟨sampleRow .SummaryGot, by simp [sampleStore], rfl⟩
  ⟨H, hH, hst, herr⟩

/-- C13 fails on the code: with the store down (every persistence operation
fails, here with "connection refused") the four scheduled steps return no
error, exactly as they do when there is nothing to do. -/
theorem C13_lookup_failure_swallowed :
    (FindOldestByState downEnv (Sess.start (sampleStore .Created)) .Created).2 =
      (none, some (.Errorf_w "failed to fetch haiku by state: "
        (.foreign "connection refused"))) ∧
    (CreateHaikuFromUnprocessedPost downEnv ⟨[samplePost], []⟩).err = none ∧
    (ProcessSummary downEnv (sampleStore .Created)).err = none ∧
    (ProcessHaikuText downEnv (sampleStore .SummaryGot)).err = none ∧
    (PostHaiku downEnv (sampleStore .HaikuTextGot)).err = none := by
  decide

/-- C18: on a store with unique keys, take a haiku row `r` parked in
`summary_getting`, `haiku_text_getting`, `comenting`, `done` or `failed`.
Whatever the environment does, none of the three advance steps selects `r`,
and `r` is unchanged in every store the step commits and in the store it
leaves; `CreateHaikuFromUnprocessedPost` selects no haiku, commits no
transaction and only appends to the haikus, so `r` is unchanged too. -/
theorem C18_parked_never_picked (env : Env) (db : Store) (r : HaikuRow)
    (hkeys : db.KeysUnique) (hr : r ∈ db.haikus) (hparked : Parked r.State) :
    (∀ k : Step,
      (∀ g, (FindOldestByState env (Sess.start db) k.src).2.1 = some g → g.ID ≠ r.ID) ∧
      (∀ d ∈ commits (k.run env db).trace, r ∈ d.haikus) ∧
      r ∈ (k.run env db).db.haikus) ∧
    ((CreateHaikuFromUnprocessedPost env db).trace = [] ∧
      (∃ l, (CreateHaikuFromUnprocessedPost env db).db.haikus = db.haikus ++ l) ∧
      r ∈ (CreateHaikuFromUnprocessedPost env db).db.haikus) := by
  constructor
  · intro k
    obtain ⟨h1, h2, h3⟩ := Step.run_frames k env db r hkeys hr (hparked.ne_src k)
    exact ⟨h3, h2, h1⟩
  · obtain ⟨h1, l, h2⟩ := CreateHaiku_appends env db
    exact ⟨h1, ⟨l, h2⟩, by rw [h2]; exact List.mem_append_left _ hr⟩

/-- Witness for C18: a haiku parked in `summary_getting` stays as it is under
`ProcessSummary`, even when the capabilities fail. -/
theorem C18_parked_never_picked_witness :
    sampleRow .SummaryGetting ∈
      (Step.run .Summary brokenApiEnv (sampleStore .SummaryGetting)).db.haikus :=
  ((C18_parked_never_picked brokenApiEnv (sampleStore .SummaryGetting)
    (sampleRow .SummaryGetting) (by decide) (by simp [sampleStore]) (by decide)).1 .Summary).2.2

/-- C19: in the trace of an advance step, in any environment, every external
call comes right after the two events of the check-out transaction, begun and
committed (so no transaction is open when the call is made, and the check-out
`SafeUpdate` of the selected haiku returned no error), it is the only external
call, and what follows it is one complete transaction, begun and then
committed or rolled back. -/
theorem C19_call_outside_transactions (k : Step) (env : Env) (db : Store) :
    ∀ c ∈ externalCalls (k.run env db).trace,
      ∃ H ∈ db.haikus, H.State = k.src ∧
        (SafeUpdate env { db := db, ops := 1, trace := [] }
          { preloadPost db H with State := k.mid } k.src).2 = none ∧
        c = k.call { preloadPost db H with State := k.mid } ∧
        externalCalls (k.run env db).trace = [c] ∧
        txOpen [.txBegin, .txCommit (db.setRow H.ID { H with State := k.mid })] = false ∧
        ∃ tail, (k.run env db).trace =
            [.txBegin, .txCommit (db.setRow H.ID { H with State := k.mid }), c] ++ tail ∧
          (tail = [.txBegin, .txRollback] ∨ ∃ d2, tail = [.txBegin, .txCommit d2]) := by
  intro c hc
  rw [Step.run_eq_advance] at hc ⊢
  unfold Step.advance at hc ⊢
  rcases FindOldestByState_cases env db k.src with ⟨e, h⟩ | ⟨H, hmem, hHst, _, h⟩
  · simp only [h] at hc
    simp [Sess.result, externalCalls] at hc
  · simp only [h] at hc ⊢
    rcases Step.process_trace k env { db := db, ops := 1, trace := [] } (preloadPost db H)
        (preloadPost_linked db H) with
      ⟨_, ht⟩ | ⟨hok, tail, ht, htail⟩
    · rw [ht] at hc
      simp [externalCalls] at hc
    · have hcalls : externalCalls (k.process env { db := db, ops := 1, trace := [] }
          (preloadPost db H)).trace = [k.call { preloadPost db H with State := k.mid }] := by
        have happ : ∀ a b : List Event,
            externalCalls (a ++ b) = externalCalls a ++ externalCalls b :=
          fun a b => List.filter_append a b
        have hk := k.call_isCall { preloadPost db H with State := k.mid }
        have e1 : ∀ d, externalCalls [Event.txBegin, Event.txCommit d] = [] := fun _ => rfl
        have e2 : externalCalls tail = [] := by
          rcases htail with h2 | ⟨d2, h2⟩ <;> rw [h2] <;> rfl
        have e3 : (k.process env { db := db, ops := 1, trace := [] } (preloadPost db H)).trace =
            ([.txBegin, .txCommit (db.setRow H.ID { H with State := k.mid })] ++
              [k.call { preloadPost db H with State := k.mid }]) ++ tail := by
          rw [ht]; rfl
        rw [e3, happ, happ, e1, hk, e2]
        rfl
      rw [hcalls] at hc
      simp only [List.mem_singleton] at hc
      subst hc
      exact ⟨H, hmem, hHst, hok, rfl, hcalls, rfl, tail, by simpa using ht, htail⟩

theorem C19_call_outside_transactions_witness :
    Event.GenerateSummary "hello" ∈
        externalCalls (Step.run .Summary calmEnv (sampleStore .Created)).trace ∧
    externalCalls (Step.run .Summary calmEnv (sampleStore .Created)).trace =
      [.GenerateSummary "hello"] :=
  have hc : Event.GenerateSummary "hello" ∈
      externalCalls (Step.run .Summary calmEnv (sampleStore .Created)).trace := by decide
  ⟨hc, (C19_call_outside_transactions .Summary calmEnv (sampleStore .Created) _ hc).elim
    (fun _ h => h.2.2.2.2.1)⟩

/-- C16: `callHuggingFaceModel` issues requests `0, 1, …, n` with `n ≤ 5` (at
most 6 attempts), where every attempt before `n` failed without being answered
429, and attempt `n` is the first that succeeds (its value is returned), or is
answered 429 (the rate-limit error is returned at once; a 429 is exactly what
makes an attempt end the call with an error), or is the sixth attempt and
fails (its error is returned).  Between request `k-1` and request `k` it sleeps
once, `2^(k-1)` seconds: `1, 2, 4, 8, 16`; nothing is slept after the last
request. -/
theorem C16_bounded_backoff (net : Net) :
    (∀ x e, hfAttempt net x = .fatal e ↔
      (∃ h body, x = .response 429 h body) ∧
        e = .Errorf "rate limit exceeded, try again later") ∧
    (∃ n ≤ 5,
      (∀ m < n, ∃ e, hfAttempt net (net.exchange m) = .retry e) ∧
      (callHuggingFaceModel net).log = retryLog Second 0 n ∧
      requestsOf (callHuggingFaceModel net).log = n + 1 ∧
      sleepsOf (callHuggingFaceModel net).log = backoffSleeps n ∧
      ((∃ v, hfAttempt net (net.exchange n) = .value v ∧
          (callHuggingFaceModel net).value = v ∧ (callHuggingFaceModel net).err = none) ∨
       (∃ e, hfAttempt net (net.exchange n) = .fatal e ∧
          (callHuggingFaceModel net).value = "" ∧ (callHuggingFaceModel net).err = some e) ∨
       (∃ e, n = 5 ∧ hfAttempt net (net.exchange n) = .retry e ∧
          (callHuggingFaceModel net).value = "" ∧ (callHuggingFaceModel net).err = some e))) ∧
    retryLog Second 0 5 =
      [.request 0, .sleep (1 * Second), .request 1, .sleep (2 * Second), .request 2,
       .sleep (4 * Second), .request 3, .sleep (8 * Second), .request 4, .sleep (16 * Second),
       .request 5] := by
  refine ⟨hfAttempt_fatal_iff net, ?_, by decide⟩
  obtain ⟨n, hn, hpre, hlog, hcase⟩ := callHuggingFaceModel_cases net
  refine ⟨n, hn, hpre, hlog, by rw [hlog, requestsOf_retryLog], ?_, hcase⟩
  rw [hlog, sleepsOf_retryLog]
  unfold backoffSleeps
  apply List.map_congr_left
  intro k _
  exact mul_comm _ _

theorem C16_bounded_backoff_witness :
    ∃ n ≤ 5, (∀ m < n, ∃ e, hfAttempt flakyNet (flakyNet.exchange m) = .retry e) ∧
      (callHuggingFaceModel flakyNet).log = retryLog Second 0 n :=
  (C16_bounded_backoff flakyNet).2.1.elim
    (fun n h => ⟨n, h.1, h.2.1, h.2.2.1⟩)

/-- C17 as stated fails: `nullTailNet` answers 200 with a body that decodes
to an array whose second element is `null`, so the body is not an array of
objects, and the call returns the value `x` without error after one
request. -/
theorem C17_counterexample :
    nullTailNet.jsonDecode "[\x7b\"summary_text\": \"x\"\x7d, null]" =
      some (.arr [.obj [("summary_text", .str "x")], .null]) ∧
    ¬ (∀ y ∈ [JSON.obj [("summary_text", .str "x")], JSON.null], ∃ f, y = JSON.obj f) ∧
    hfAttempt nullTailNet (nullTailNet.exchange 0) = .value "x" ∧
    callHuggingFaceModel nullTailNet = { value := "x", err := none, log := [.request 0] } := by
  refine ⟨rfl, ?_, by decide, by decide⟩
  intro h
  obtain ⟨f, hf⟩ := h JSON.null (by simp)
  cases hf

/-- C17, amended: an attempt of `callHuggingFaceModel` yields a value `v`
exactly when the response has status 200 and its body is a JSON array whose
first element is an object that has the string `v` under `summary_text`, or
has no string under `summary_text` and has the string `v` under
`generated_text`, and whose other elements are objects or `null`.  A response
with another status never yields a value, a 200 response with any other body
is a failed attempt, and a call that returns without error returns the value
of the last attempt it made. -/
theorem C17_value_only_from_200 (net : Net) :
    (∀ x v, hfAttempt net x = .value v ↔
      ∃ h body first others, x = .response 200 h body ∧
        net.jsonDecode body = some (.arr (.obj first :: others)) ∧
        (∀ y ∈ others, y = .null ∨ ∃ f, y = .obj f) ∧
        (JSON.field first "summary_text" = some (.str v) ∨
          (JSON.asString (JSON.field first "summary_text") = none ∧
            JSON.field first "generated_text" = some (.str v)))) ∧
    (∀ status h body v, status ≠ 200 → hfAttempt net (.response status h body) ≠ .value v) ∧
    (∀ h body, (∀ v, hfAttempt net (.response 200 h body) ≠ .value v) →
      ∃ e, hfAttempt net (.response 200 h body) = .retry e) ∧
    ((callHuggingFaceModel net).err = none →
      ∃ n ≤ 5, requestsOf (callHuggingFaceModel net).log = n + 1 ∧
        hfAttempt net (net.exchange n) = .value (callHuggingFaceModel net).value) := by
  refine ⟨?_, ?_, ?_, ?_⟩
  · intro x v
    rw [hfAttempt_value_iff]
    constructor
    · rintro ⟨h, body, first, rest, hx, hdec, hcase⟩
      have hfield : ∃ key val, JSON.field first key = some val := by
        rcases hcase with hc | ⟨_, hc⟩
        · exact ⟨_, _, hc⟩
        · exact ⟨_, _, hc⟩
      obtain ⟨key, val, hkv⟩ := hfield
      obtain ⟨others, hd, hall⟩ :=
        (unmarshalMaps_head (net.jsonDecode body) first key val hkv).mp ⟨rest, hdec⟩
      exact ⟨h, body, first, others, hx, hd, hall, hcase⟩
    · rintro ⟨h, body, first, others, hx, hd, hall, hcase⟩
      have hfield : ∃ key val, JSON.field first key = some val := by
        rcases hcase with hc | ⟨_, hc⟩
        · exact ⟨_, _, hc⟩
        · exact ⟨_, _, hc⟩
      obtain ⟨key, val, hkv⟩ := hfield
      obtain ⟨rest, hdec⟩ :=
        (unmarshalMaps_head (net.jsonDecode body) first key val hkv).mpr ⟨others, hd, hall⟩
      exact ⟨h, body, first, rest, hx, hdec, hcase⟩
  · intro status h body v hne hval
    obtain ⟨_, _, _, _, heq, _⟩ := (hfAttempt_value_iff net _ _).mp hval
    simp only [Exchange.response.injEq] at heq
    exact hne heq.1
  · intro h body hno
    cases hA : hfAttempt net (.response 200 h body) with
    | value v => exact absurd hA (hno v)
    | retry e => exact ⟨e, rfl⟩
    | fatal e =>
      obtain ⟨⟨_, _, heq⟩, _⟩ := (hfAttempt_fatal_iff net _ _).mp hA
      simp at heq
  · intro hok
    obtain ⟨n, hn, _, hlog, hcase⟩ := callHuggingFaceModel_cases net
    refine ⟨n, hn, by rw [hlog, requestsOf_retryLog], ?_⟩
    rcases hcase with ⟨v, h1, h2, _⟩ | ⟨e, _, _, h2⟩ | ⟨e, _, _, _, h2⟩
    · rw [h2]; exact h1
    · rw [h2] at hok; cases hok
    · rw [h2] at hok; cases hok

/-- Witness for C17: on `flakyNet` the call returns without error, and what it
returns is the value of its third attempt. -/
theorem C17_value_only_from_200_witness :
    (callHuggingFaceModel flakyNet).err = none ∧
    ∃ n ≤ 5, requestsOf (callHuggingFaceModel flakyNet).log = n + 1 ∧
      hfAttempt flakyNet (flakyNet.exchange n) = .value (callHuggingFaceModel flakyNet).value :=
  ⟨by decide, (C17_value_only_from_200 flakyNet).2.2.2 (by decide)⟩

/-- C14 fails on the code.  The transport built for 10 requests per 60 seconds
has a limiter of burst 1, but `RoundTrip` drops the error of `Wait`: eleven
requests arriving at the same instant with cancelled contexts all reach the
wrapped transport at that instant, and so do a first request followed by ten
whose deadline (one second away) is closer than the six seconds the limiter
would make them wait.  Eleven requests are forwarded within one window of 60
seconds. -/
theorem C14_limit_bypassed :
    (NewRateLimitTransport (10 / 60)).limiter.burst = 1 ∧
    (NewRateLimitTransport (10 / 60)).forwards (List.replicate 11 (0, cancelledCtx)) =
      List.replicate 11 0 ∧
    (NewRateLimitTransport (10 / 60)).forwards
      ((0, plainCtx) :: List.replicate 10 (0, { done := false, deadline := some 1 })) =
      List.replicate 11 0 := by
  refine ⟨rfl, ?_, ?_⟩
  · rw [RateLimitTransport.forwards_done _ _ (by decide)
      (fun q hq => by rw [List.eq_of_mem_replicate hq]; rfl)]
    simp
  · have hfirst : (NewRateLimitTransport (10 / 60)).RoundTrip 0 plainCtx =
        ({ limiter := { limit := 10 / 60, burst := 1, tokens := 0, last := 0 } }, 0) := by
      simp [RateLimitTransport.RoundTrip, Limiter.Wait, NewRateLimitTransport, NewLimiter,
        plainCtx]
    have hnext : (RateLimitTransport.mk
          { limit := 10 / 60, burst := 1, tokens := 0, last := 0 }).RoundTrip 0
          { done := false, deadline := some 1 } =
        ({ limiter := { limit := 10 / 60, burst := 1, tokens := 0, last := 0 } }, 0) := by
      simp [RateLimitTransport.RoundTrip, Limiter.Wait]
      norm_num
    simp only [List.replicate, RateLimitTransport.forwards, hfirst, hnext]

/-- C15 fails on the code.  On `resetNet` the first answer is a 429 whose
`x-rate-limit-reset` is 30 seconds ahead: `FetchPosts` sleeps the 30 seconds
and then also the backoff delay of one second before the next request.  On
`bareNet` the 429 has no such header: `FetchPosts` sleeps the backoff delay
twice over, one second and then two, before the next request. -/
theorem C15_backoff_consumed_after_429 :
    (FetchPosts resetNet (fun _ => ([], none))).log =
      [.request 0, .sleep (30 * Second), .sleep (1 * Second), .request 1] ∧
    (FetchPosts bareNet (fun _ => ([], none))).log =
      [.request 0, .sleep (1 * Second), .sleep (2 * Second), .request 1] ∧
    fetchTurn resetNet (fun _ => ([], none)) 3 0 (1 * Second) (resetNet.exchange 0) =
      .again (some (.Errorf "too many requests: slow down")) (2 * Second)
        [30 * Second, 1 * Second] ∧
    fetchTurn bareNet (fun _ => ([], none)) 3 0 (1 * Second) (bareNet.exchange 0) =
      .again (some (.Errorf "too many requests: slow down")) (4 * Second)
        [1 * Second, 2 * Second] := by
  decide

/-- C20 fails on the code.  `extractHaiku` splits on the marker `<RequestEnd>`
and returns the piece after the first marker: a response of three lines
without the marker gives the empty string, and a response with the marker
gives everything between the first marker and the next, here four lines.
The last three non-empty lines, which the comment above the function
promises, are something else in both cases. -/
theorem C20_extractHaiku_not_last_three_lines :
    extractHaiku "old pond\nfrog leaps in\nwater sound" = "" ∧
    lastThreeNonEmptyLines "old pond\nfrog leaps in\nwater sound" =
      ["old pond", "frog leaps in", "water sound"] ∧
    extractHaiku "prompt<RequestEnd>Here it is:\nold pond\nfrog leaps in\nwater sound" =
      "Here it is:\nold pond\nfrog leaps in\nwater sound" ∧
    lastThreeNonEmptyLines
        "prompt<RequestEnd>Here it is:\nold pond\nfrog leaps in\nwater sound" =
      ["old pond", "frog leaps in", "water sound"] := by
  decide

/-- C21: for every decoded response, `mapTwitterPosts` returns no error; when
`data` is missing or not an array the result is empty; otherwise the posts
correspond one to one, in order, to the elements of `data` that are objects,
each post carrying the tweet's `id`, `text` and `author_id` (the empty string
for a field that is missing or not a string), platform `twitter`, the three
counts of `public_metrics` as `intOrDefault` reads them, and as username what
the side table `includes.users` gives for the author id.  `intOrDefault`
gives a count that is an integer within the range of `int` unchanged and
gives 0 for a count that is missing or not a number; the side table gives the
empty string for an id none of its entries has, and the username of the last
entry having the id otherwise. -/
theorem C21_mapTwitterPosts (parseTime : String → Option Time)
    (result : List (String × JSON)) :
    (mapTwitterPosts parseTime result).2 = none ∧
    (JSON.asArray (JSON.field result "data") = none →
      (mapTwitterPosts parseTime result).1 = []) ∧
    (∀ rawTweets, JSON.field result "data" = some (.arr rawTweets) →
      List.Forall₂
        (fun tweet (p : Post) =>
          p.ID = stringField tweet "id" ∧ p.Text = stringField tweet "text" ∧
          p.Author.ID = stringField tweet "author_id" ∧ p.Platform = "twitter" ∧
          p.Likes = intOrDefault (asMap (JSON.field tweet "public_metrics")) "like_count" ∧
          p.Shares = intOrDefault (asMap (JSON.field tweet "public_metrics")) "retweet_count" ∧
          p.Replies = intOrDefault (asMap (JSON.field tweet "public_metrics")) "reply_count" ∧
          p.Author.Username = sideTableUsername (includesUsers result) p.Author.ID)
        (rawTweets.filterMap (fun x => JSON.asObject (some x)))
        (mapTwitterPosts parseTime result).1) ∧
    (∀ metrics key,
      (∀ n : Int, -(2 ^ 63) ≤ n → n < 2 ^ 63 → JSON.field metrics key = some (.num n) →
        intOrDefault metrics key = n) ∧
      ((∀ v, JSON.field metrics key ≠ some (.num v)) → intOrDefault metrics key = 0)) ∧
    (∀ users authorID,
      ((∀ u ∈ users, stringField (asMap (some u)) "id" ≠ authorID) →
        sideTableUsername users authorID = "") ∧
      (∀ before u after, users = before ++ u :: after →
        stringField (asMap (some u)) "id" = authorID →
        (∀ w ∈ after, stringField (asMap (some w)) "id" ≠ authorID) →
        sideTableUsername users authorID = stringField (asMap (some u)) "username")) := by
  refine ⟨?_, ?_, ?_, ?_, ?_⟩
  · unfold mapTwitterPosts
    cases JSON.asArray (JSON.field result "data") <;> rfl
  · intro h
    simp [mapTwitterPosts, h]
  · intro rawTweets h
    have hposts : (mapTwitterPosts parseTime result).1 =
        (rawTweets.filterMap (fun x => JSON.asObject (some x))).map
          (tweetPost parseTime ((includesUsers result).foldl addUser (fun _ => ""))) := by
      simp only [mapTwitterPosts, h, JSON.asArray, foldl_addTweet, List.nil_append]
    rw [hposts, List.forall₂_map_right_iff, List.forall₂_same]
    intro tweet _
    exact ⟨rfl, rfl, rfl, rfl, rfl, rfl, rfl, foldl_addUser _ _⟩
  · intro metrics key
    constructor
    · intro n hlo hhi h
      simp only [intOrDefault, h]
      exact goInt_intCast n hlo hhi
    · intro h
      unfold intOrDefault
      split
      · exact absurd ‹_› (h _)
      · rfl
  · intro users authorID
    constructor
    · intro h
      rw [← foldl_addUser, foldl_addUser_miss _ _ _ h]
    · intro before u after hu hid hafter
      rw [← foldl_addUser, hu, List.foldl_append, List.foldl_cons,
        foldl_addUser_miss _ _ _ hafter]
      simp [addUser, hid]

/-- Witness for C21: on `sampleResponse` the stray element of `data` is
skipped, the author named twice in the side table gets the later username
and the author missing from it gets none. -/
theorem C21_mapTwitterPosts_witness :
    JSON.field sampleResponse "data" = some (.arr sampleTweets) ∧
    (mapTwitterPosts (fun _ => none) sampleResponse).1.length =
      (sampleTweets.filterMap (fun x => JSON.asObject (some x))).length ∧
    (mapTwitterPosts (fun _ => none) sampleResponse).1 =
      [{ ID := "t1", Author := ⟨"u1", "alicia"⟩, Text := "hello", Likes := 3, Shares := 0,
         Replies := 0, Platform := "twitter", CreatedAt := 0 },
       { ID := "t2", Author := ⟨"u9", ""⟩, Text := "", Likes := 0, Shares := 0,
         Replies := 0, Platform := "twitter", CreatedAt := 0 }] :=
  ⟨rfl,
   ((C21_mapTwitterPosts (fun _ => none) sampleResponse).2.2.1 sampleTweets rfl).length_eq.symm,
   by decide⟩

/-- C22: on a store with unique keys, in any environment, `MarkAsFailed(id)`
leaves every post as it was and every haiku row in its place; a row with
another id is unchanged, and the row with this id is either unchanged or
differs from what was stored in its state alone, which is `failed` (id, post
reference, summary, text and creation time are kept).  When the call returns
no error the store is the old one with the state of row `id` set to `failed`;
when it returns an error the store is the old one. -/
theorem C22_MarkAsFailed_frame (env : Env) (s : Sess) (id : String)
    (hkeys : s.db.KeysUnique) :
    (MarkAsFailed env s id).1.db.posts = s.db.posts ∧
    List.Forall₂
      (fun old new => (old.ID ≠ id → new = old) ∧
        (old.ID = id → new = old ∨ new = { old with State := .Failed }))
      s.db.haikus (MarkAsFailed env s id).1.db.haikus ∧
    ((MarkAsFailed env s id).2 = none →
      (MarkAsFailed env s id).1.db.haikus =
        s.db.haikus.map (fun x => if x.ID = id then { x with State := .Failed } else x)) ∧
    ((MarkAsFailed env s id).2 ≠ none → (MarkAsFailed env s id).1.db = s.db) := by
  rcases MarkAsFailed_cases env s id with ⟨n, e, h⟩ | ⟨r, hr, hid, h⟩
  · rw [h]
    refine ⟨rfl, ?_, ?_, fun _ => rfl⟩
    · exact List.forall₂_same.mpr (fun x _ => ⟨fun _ => rfl, fun _ => Or.inl rfl⟩)
    · intro hnone
      simp at hnone
  · have hrows : (s.db.setRow id { r with State := .Failed }).haikus =
        s.db.haikus.map (fun x => if x.ID = id then { x with State := .Failed } else x) := by
      simp only [Store.setRow]
      apply List.map_congr_left
      intro x hx
      by_cases hc : x.ID = id
      · have hxr : x = r := by
          have h1 := find_of_mem_nodup s.db.haikus x id hkeys hx hc
          have h2 := find_of_mem_nodup s.db.haikus r id hkeys hr hid
          exact Option.some.inj (h1.symm.trans h2)
        simp [hc, hxr]
      · simp [hc]
    rw [h]
    refine ⟨rfl, ?_, fun _ => hrows, fun hne => absurd rfl hne⟩
    show List.Forall₂ _ s.db.haikus (s.db.setRow id { r with State := .Failed }).haikus
    rw [hrows, List.forall₂_map_right_iff, List.forall₂_same]
    intro x _
    constructor
    · intro hne
      simp [hne]
    · intro heq
      right
      simp [heq]

/-- Witness for C22: in `pairStore` the haiku `h1` is forced to `failed`, its
summary and post reference stay, and the haiku `h2` and both posts stay. -/
theorem C22_MarkAsFailed_frame_witness :
    pairStore.KeysUnique ∧
    (MarkAsFailed calmEnv (Sess.start pairStore) "h1").1.db.posts = pairStore.posts ∧
    (MarkAsFailed calmEnv (Sess.start pairStore) "h1").1.db.haikus =
      [⟨"h1", .Failed, some "sum", none, "p1", 2⟩,
       ⟨"h2", .Done, some "sum2", some "txt2", "p2", 3⟩] :=
  have h := C22_MarkAsFailed_frame calmEnv (Sess.start pairStore) "h1" (by decide)
  ⟨by decide, h.1, (h.2.2.1 (by decide)).trans (by decide)⟩

end HaikuBot
